import Mathlib

/-!
# QuickQanava table group item: layout engine

A shallow embedding of `src/qanTableGroupItem.cpp` (class `qan::TableGroupItem`).

Conventions of the embedding:

* C++ `int` is `Int` for the dimensions of a table and the indices of its vectors: that
  arithmetic stays far inside the range of `int` for every table that fits in memory, so
  it is not reduced modulo a power of two.  The width of a container is not bounded that
  way, so `qRound`, which converts it to `int`, carries the range of `int` explicitly.
* `qreal` is `ℚ`: geometry is computed in exact arithmetic.
* A pointer is `Option Nat`: `none` is `nullptr`, `some p` is the object allocated as
  number `p`.  Cells live in the object store `cellObj`; borders are kept by value in the
  two border vectors and carry their own identity in the field `id`.
* Every member function of the source is a total function on `TableGroupItem`: a guard
  that returns early gives the state back unchanged.
* `operator[]` outside the range of a vector is undefined behaviour in the source.  In
  the embedding a read outside the range yields the unconstrained value `wild i` and a
  write outside the range is dropped, so the embedding says what the source does only
  where every index is in range; whether an index is in range is a statement about the
  index expressions of the loops, which the embedding keeps as they are written (see
  `InsertColumnInRange`, `LinksInRange`).  Statements about the cells and the dimensions
  that `insertColumn` writes back carry the hypothesis that puts its accesses in range;
  statements about the border it appends do not, that border being placed and chained
  before the first access of the loops.
* The classes `TableBorder`, `TableCell` and `TableGroup` are declared in other files;
  their fields are modelled from the specification, and `TableBorder::layoutCells()` is a
  parameter (`BorderLayoutCells`) of every function that calls it.
-/

namespace qan

/-! ## Data model -/

/-- Orientation of a border, `Qt::Orientation`. -/
inductive Orientation where
  | Horizontal
  | Vertical
  deriving DecidableEq, Repr

/-- Modelled from the spec: the class `qan::TableCell` (declared in `qanTableCell.h`,
which is not among the sources).  A cell has a geometry in container coordinates and
hosts at most one node item; its setters store the value they are given. -/
structure TableCell where
  x : ℚ
  y : ℚ
  width : ℚ
  height : ℚ
  item : Option Nat
  deriving DecidableEq, Repr

/-- Modelled from the spec: the class `qan::TableBorder` (declared in `qanTableBorder.h`,
which is not among the sources).  A border has an orientation, links to the previous and
the next border of its chain, the cells on its prev side and on its next side (in the
order `addPrevCell` / `addNextCell` received them), an absolute geometry and the
normalized offsets `sx`, `sy`; its setters store the value they are given. -/
structure TableBorder where
  id : Nat
  orientation : Orientation
  prevBorder : Option Nat
  nextBorder : Option Nat
  prevCells : List (Option Nat)
  nextCells : List (Option Nat)
  x : ℚ
  y : ℚ
  width : ℚ
  height : ℚ
  sx : ℚ
  sy : ℚ
  deriving DecidableEq, Repr

/-- Modelled from the spec: the owning `qan::TableGroup` (declared in `qanTableGroup.h`),
read through `getRows`, `getCols`, `getCellSpacing`, `getTablePadding` and written
through `setRows`, `setCols`. -/
structure TableGroup where
  rows : Int
  cols : Int
  cellSpacing : ℚ
  tablePadding : ℚ
  deriving DecidableEq, Repr

/-- Size of the container item (`QQuickItem::width`, `QQuickItem::height`). -/
structure Container where
  width : ℚ
  height : ℚ
  deriving DecidableEq, Repr

/-- State of a `qan::TableGroupItem` together with the part of its environment the
member functions read.

* `verticalBorders`, `horizontalBorders`, `cells`: the members `_verticalBorders`,
  `_horizontalBorders`, `_cells`;
* `cellObj`: the cell objects, by pointer;
* `nodeCell`: for every node, the cell it records (`qan::Node::getCell`);
* `nodePos`: for every node item, its origin mapped to container coordinates;
* `tableGroup`: `getTableGroup()`, `none` when there is no owning table group;
* `container`: `getContainer()`, `none` when no container is configured;
* `enabled`: `isEnabled()`;
* `hasEngine`: `qmlEngine(this) != nullptr`;
* `hasGraphContainer`: `getGraph() != nullptr && getGraph()->getContainerItem() != nullptr`;
* `nextId`: number of objects requested from the factory so far;
* `createOk n`: whether the factory request number `n` yields an object;
* `wild i`: the value an out of range read of `_cells[i]` yields. -/
structure TableGroupItem where
  verticalBorders : List TableBorder
  horizontalBorders : List TableBorder
  cells : List (Option Nat)
  cellObj : Nat → TableCell
  nodeCell : Nat → Option Nat
  nodePos : Nat → ℚ × ℚ
  tableGroup : Option TableGroup
  container : Option Container
  enabled : Bool
  hasEngine : Bool
  hasGraphContainer : Bool
  nextId : Nat
  createOk : Nat → Bool
  wild : Int → Option Nat

/-- Modelled from the spec: `TableBorder::layoutCells()` is defined in
`qanTableBorder.cpp`, which is not among the sources.  The functions below receive it
as a parameter: given the state and a border, it returns the cell objects as the border
leaves them (a border sets the bounds of its adjacent cells and nothing else). -/
abbrev BorderLayoutCells := TableGroupItem → TableBorder → Nat → TableCell

/-! ## Vectors -/

/-- Read `v[i]`: the element when `i` is in range, `w i` otherwise. -/
def vecAt (v : List (Option Nat)) (w : Int → Option Nat) (i : Int) : Option Nat :=
  if 0 ≤ i then v.getD i.toNat (w i) else w i

/-- Write `v[i] = a`: dropped when `i` is out of range. -/
def vecSet (v : List (Option Nat)) (i : Int) (a : Option Nat) : List (Option Nat) :=
  if 0 ≤ i then v.set i.toNat a else v

/-- The table `std::copy(src.begin(), src.end(), dst.begin())` leaves in `dst`. -/
def stdCopy (src dst : List (Option Nat)) : List (Option Nat) :=
  src.take dst.length ++ dst.drop src.length

/-! ## Object creation -/

/-- A cell as the factory delivers it. -/
def TableCell.fresh : TableCell :=
  { x := 0, y := 0, width := 0, height := 0, item := none }

/-- A border as the factory delivers it. -/
def TableBorder.fresh (id : Nat) : TableBorder :=
  { id := id, orientation := Orientation.Vertical, prevBorder := none, nextBorder := none,
    prevCells := [], nextCells := [], x := 0, y := 0, width := 0, height := 0,
    sx := 0, sy := 0 }

/-- `TableGroupItem::createFromComponent`: request number `nextId` of the factory; the
pointer of the object when the request succeeds, `nullptr` otherwise. -/
def createFromComponent (s : TableGroupItem) : Option Nat × TableGroupItem :=
  if s.createOk s.nextId then
    (some s.nextId, { s with nextId := s.nextId + 1 })
  else
    (none, { s with nextId := s.nextId + 1 })

/-- `TableGroupItem::createBorder`. -/
def createBorder (s : TableGroupItem) : Option TableBorder × TableGroupItem :=
  match createFromComponent s with
  | (some p, s1) => (some (TableBorder.fresh p), s1)
  | (none, s1) => (none, s1)

/-- `TableGroupItem::createCell`. -/
def createCell (s : TableGroupItem) : Option Nat × TableGroupItem :=
  match createFromComponent s with
  | (some p, s1) => (some p, { s1 with cellObj := Function.update s1.cellObj p TableCell.fresh })
  | (none, s1) => (none, s1)

/-- `prevBorder->setNextBorder(border)` on the border vector `l`: the border whose
identity is `p` records `b` as its next border. -/
def setNextBorder (p b : Nat) (l : List TableBorder) : List TableBorder :=
  l.map (fun x => if x.id = p then { x with nextBorder := some b } else x)

/-! ## Borders and cells management -/

/-- `TableGroupItem::clearLayout`. -/
def clearLayout (s : TableGroupItem) : TableGroupItem :=
  { s with verticalBorders := [], horizontalBorders := [], cells := [] }

/-- Body of the loop of `initializeCells`: create a cell, keep it when it is not null. -/
def pushNewCell (s : TableGroupItem) : TableGroupItem :=
  match createCell s with
  | (some cell, s1) => { s1 with cells := s1.cells ++ [some cell] }
  | (none, s1) => s1

/-- The loop `for (c = 0; c < n; c++)` of `initializeCells`. -/
def pushNewCells : Nat → TableGroupItem → TableGroupItem
  | 0, s => s
  | n + 1, s => pushNewCells n (pushNewCell s)

/-- `TableGroupItem::initializeCells`. -/
def initializeCells (cellsCount : Int) (s : TableGroupItem) : TableGroupItem :=
  if cellsCount ≤ 0 then s
  else if cellsCount = (s.cells.length : Int) then s
  else if s.hasEngine = false then s
  else pushNewCells cellsCount.toNat s

/-- Body of the first loop of `initializeBorders`; the state comes with the local
variable `prevBorder`. -/
def pushVerticalBorder (ps : Option Nat × TableGroupItem) : Option Nat × TableGroupItem :=
  match createBorder ps.2 with
  | (some border, s1) =>
    let border := { border with orientation := Orientation.Vertical, prevBorder := ps.1 }
    let pushed := s1.verticalBorders ++ [border]
    match ps.1 with
    | some p => (some border.id, { s1 with verticalBorders := setNextBorder p border.id pushed })
    | none => (some border.id, { s1 with verticalBorders := pushed })
  | (none, s1) => (ps.1, s1)

/-- Body of the second loop of `initializeBorders`. -/
def pushHorizontalBorder (ps : Option Nat × TableGroupItem) : Option Nat × TableGroupItem :=
  match createBorder ps.2 with
  | (some border, s1) =>
    let border := { border with orientation := Orientation.Horizontal, prevBorder := ps.1 }
    let pushed := s1.horizontalBorders ++ [border]
    match ps.1 with
    | some p => (some border.id, { s1 with horizontalBorders := setNextBorder p border.id pushed })
    | none => (some border.id, { s1 with horizontalBorders := pushed })
  | (none, s1) => (ps.1, s1)

/-- Run a loop body `n` times. -/
def loopTimes {σ : Type} (body : σ → σ) : Nat → σ → σ
  | 0, s => s
  | n + 1, s => loopTimes body n (body s)

/-- `TableGroupItem::initializeBorders`. -/
def initializeBorders (verticalBordersCount horizontalBordersCount : Int)
    (s : TableGroupItem) : TableGroupItem :=
  if verticalBordersCount < 0 ∨ horizontalBordersCount < 0 then s
  else
    let s1 :=
      if verticalBordersCount ≠ (s.verticalBorders.length : Int) then
        (loopTimes pushVerticalBorder verticalBordersCount.toNat (none, s)).2
      else s
    if horizontalBordersCount ≠ (s1.horizontalBorders.length : Int) then
      (loopTimes pushHorizontalBorder horizontalBordersCount.toNat (none, s1)).2
    else s1

/-- Inner loop of `initializeCellsLinks` for the vertical border reached with counter
`c`: for `r = 0 .. rows-1`, `addPrevCell(_cells[r*cols + c - 1])` and
`addNextCell(_cells[r*cols + c])`. -/
def linkVerticalBorder (cells : List (Option Nat)) (w : Int → Option Nat)
    (rows cols c : Int) (b : TableBorder) : TableBorder :=
  { b with
    prevCells := b.prevCells ++
      (List.range rows.toNat).map (fun (r : Nat) => vecAt cells w (((r : Int) * cols) + c - 1)),
    nextCells := b.nextCells ++
      (List.range rows.toNat).map (fun (r : Nat) => vecAt cells w (((r : Int) * cols) + c)) }

/-- Inner loop of `initializeCellsLinks` for the horizontal border reached with counter
`r`: for `c = 0 .. cols-1`, `addPrevCell(_cells[(r-1)*cols + c])` and
`addNextCell(_cells[r*cols + c])`. -/
def linkHorizontalBorder (cells : List (Option Nat)) (w : Int → Option Nat)
    (cols r : Int) (b : TableBorder) : TableBorder :=
  { b with
    prevCells := b.prevCells ++
      (List.range cols.toNat).map (fun (c : Nat) => vecAt cells w (((r - 1) * cols) + (c : Int))),
    nextCells := b.nextCells ++
      (List.range cols.toNat).map (fun (c : Nat) => vecAt cells w ((r * cols) + (c : Int))) }

/-- A loop `for (auto border : borders) { body(counter, border); counter++; }`. -/
def forEachCounting (body : Int → TableBorder → TableBorder) :
    Int → List TableBorder → List TableBorder
  | _, [] => []
  | k, b :: bs => body k b :: forEachCounting body (k + 1) bs

/-- `TableGroupItem::initializeCellsLinks`. -/
def initializeCellsLinks (s : TableGroupItem) : TableGroupItem :=
  match s.tableGroup with
  | none => s
  | some tableGroup =>
    let rows := tableGroup.rows
    let cols := tableGroup.cols
    if (s.cells.length : Int) ≠ rows * cols then s
    else
      { s with
        verticalBorders :=
          forEachCounting (linkVerticalBorder s.cells s.wild rows cols) 1 s.verticalBorders,
        horizontalBorders :=
          forEachCounting (linkHorizontalBorder s.cells s.wild cols) 1 s.horizontalBorders }

/-- `TableGroupItem::initialize(int cols, int rows)`; the name `initialize` is reserved
in Lean. -/
def initializeGrid (cols rows : Int) (s : TableGroupItem) : TableGroupItem :=
  if rows ≤ 0 ∨ cols ≤ 0 then s
  else if s.hasEngine = false then s
  else
    initializeCellsLinks
      (initializeBorders (cols - 1) (rows - 1) (initializeCells (rows * cols) (clearLayout s)))

/-! ## Cell layout -/

/-- A loop `for (const auto cell : _cells) if (cell != nullptr) body(cell)` on the cell
objects. -/
def forEachCell (body : TableCell → TableCell) (cells : List (Option Nat))
    (objs : Nat → TableCell) : Nat → TableCell :=
  cells.foldl (fun h cell =>
    match cell with
    | some p => Function.update h p (body (h p))
    | none => h) objs

/-- A loop `for (const auto border : borders) border->layoutCells()`. -/
def bordersLayoutCells (blc : BorderLayoutCells) (borders : List TableBorder)
    (s : TableGroupItem) : TableGroupItem :=
  borders.foldl (fun st b => { st with cellObj := blc st b }) s

/-- `TableGroupItem::layoutCells`. -/
def layoutCells (blc : BorderLayoutCells) (s : TableGroupItem) : TableGroupItem :=
  let s1 := bordersLayoutCells blc s.verticalBorders s
  let s2 := bordersLayoutCells blc s1.horizontalBorders s1
  match s2.container with
  | none => s2
  | some tableContainer =>
    let tableWidth := tableContainer.width
    let tableHeight := tableContainer.height
    match s2.tableGroup with
    | none => s2
    | some tableGroup =>
      let padding := tableGroup.tablePadding
      let padding2 := padding * 2
      let s3 :=
        if tableGroup.cols = 1 then
          { s2 with cellObj :=
              (forEachCell (fun cell => { cell with x := padding, width := tableWidth - padding2 })
                s2.cells s2.cellObj) }
        else s2
      if tableGroup.rows = 1 then
        { s3 with cellObj :=
            (forEachCell (fun cell => { cell with height := tableHeight - padding2, y := padding })
              s3.cells s3.cellObj) }
      else s3

/-! ## Structural mutation -/

/-- First phase of the cell remapping of `insertColumn`:
`for (r = 0; r < oldRows; r++) for (c = 0; c < oldRows; c++)
   newCells[(r * newCols) + c] = _cells[(r * oldCols) + c];` -/
def copyOldCells (cells : List (Option Nat)) (w : Int → Option Nat)
    (oldRows oldCols newCols : Int) (newCells : List (Option Nat)) : List (Option Nat) :=
  (List.range oldRows.toNat).foldl (fun acc (r : Nat) =>
    (List.range oldRows.toNat).foldl (fun acc (c : Nat) =>
      vecSet acc (((r : Int) * newCols) + (c : Int))
        (vecAt cells w (((r : Int) * oldCols) + (c : Int)))) acc) newCells

/-- Second phase of the cell remapping of `insertColumn`:
`for (r = 0; r < oldRows; r++) newCells[(r * newCols) + (newCols - 1)] = createCell();` -/
def createColumnCells (oldRows newCols : Int)
    (p : List (Option Nat) × TableGroupItem) : List (Option Nat) × TableGroupItem :=
  (List.range oldRows.toNat).foldl (fun acc (r : Nat) =>
    match createCell acc.2 with
    | (cell, s1) => (vecSet acc.1 (((r : Int) * newCols) + (newCols - 1)) cell, s1)) p

/-- First part of `insertColumn` past its guards: the new vertical border, chained after
`prevBorder` and placed halfway between it and the right edge of the container. -/
def insertColumnBorder (container : Container) (prevBorder : TableBorder)
    (s : TableGroupItem) : TableGroupItem :=
  let width := container.width
  match createBorder s with
  | (some border, s1) =>
    let x := prevBorder.x + ((width - prevBorder.x) / 2)
    let border := { border with
      orientation := Orientation.Vertical, prevBorder := some prevBorder.id,
      x := x, sx := x / width, height := prevBorder.height, width := 3 }
    { s1 with verticalBorders :=
        setNextBorder prevBorder.id border.id (s1.verticalBorders ++ [border]) }
  | (none, s1) => s1

/-- Second part of `insertColumn`: the cell array of the new layout and the new column
count. -/
def insertColumnCells (tableGroup : TableGroup) (s : TableGroupItem) : TableGroupItem :=
  let oldCols := tableGroup.cols
  let oldRows := tableGroup.rows
  let newCols := oldCols + 1
  let newRows := oldRows
  let newCells : List (Option Nat) := List.replicate (newCols * newRows).toNat none
  let copied := copyOldCells s.cells s.wild oldRows oldCols newCols newCells
  match createColumnCells oldRows newCols (copied, s) with
  | (filled, s3) =>
    { s3 with cells := filled, tableGroup := some { tableGroup with cols := newCols } }

/-- `TableGroupItem::insertColumn`. -/
def insertColumn (blc : BorderLayoutCells) (s : TableGroupItem) : TableGroupItem :=
  match s.container with
  | none => s
  | some container =>
    match s.tableGroup with
    | none => s
    | some tableGroup =>
      match s.verticalBorders.getLast? with
      | none => s
      | some prevBorder =>
        layoutCells blc (initializeCellsLinks
          (insertColumnCells tableGroup (insertColumnBorder container prevBorder s)))

/-- New cells of `insertRow`:
`for (c = 0; c < newCols; c++) newCells[((newRows - 1) * newCols) + c] = createCell();` -/
def createRowCells (newRows newCols : Int)
    (p : List (Option Nat) × TableGroupItem) : List (Option Nat) × TableGroupItem :=
  (List.range newCols.toNat).foldl (fun acc (c : Nat) =>
    match createCell acc.2 with
    | (cell, s1) => (vecSet acc.1 (((newRows - 1) * newCols) + (c : Int)) cell, s1)) p

/-- First part of `insertRow` past its guards: the new horizontal border, chained after
`prevBorder` and placed halfway between it and the bottom edge of the container. -/
def insertRowBorder (container : Container) (prevBorder : TableBorder)
    (s : TableGroupItem) : TableGroupItem :=
  let height := container.height
  match createBorder s with
  | (some border, s1) =>
    let y := prevBorder.y + ((height - prevBorder.y) / 2)
    let border := { border with
      orientation := Orientation.Horizontal, prevBorder := some prevBorder.id,
      y := y, sy := y / height, width := prevBorder.width, height := 3 }
    { s1 with horizontalBorders :=
        setNextBorder prevBorder.id border.id (s1.horizontalBorders ++ [border]) }
  | (none, s1) => s1

/-- Second part of `insertRow`: the cell array of the new layout and the new row
count. -/
def insertRowCells (tableGroup : TableGroup) (s : TableGroupItem) : TableGroupItem :=
  let oldCols := tableGroup.cols
  let oldRows := tableGroup.rows
  let newCols := oldCols
  let newRows := oldRows + 1
  let newCells : List (Option Nat) := List.replicate (newCols * newRows).toNat none
  let copied := stdCopy s.cells newCells
  match createRowCells newRows newCols (copied, s) with
  | (filled, s3) =>
    { s3 with cells := filled, tableGroup := some { tableGroup with rows := newRows } }

/-- `TableGroupItem::insertRow`. -/
def insertRow (blc : BorderLayoutCells) (s : TableGroupItem) : TableGroupItem :=
  match s.container with
  | none => s
  | some container =>
    match s.tableGroup with
    | none => s
    | some tableGroup =>
      match s.horizontalBorders.getLast? with
      | none => s
      | some prevBorder =>
        layoutCells blc (initializeCellsLinks
          (insertRowCells tableGroup (insertRowBorder container prevBorder s)))

/-! ## Geometric layout -/

/-- `qRound(qreal)` of Qt: `d >= 0.0 ? int(d + 0.5) : int(d - 0.5)`, the conversion to
`int` truncating toward zero.  The result is a 32-bit `int`: when the truncated value is
outside of `[-2^31, 2^31 - 1]` the conversion is undefined in C++; the conversion
instruction of x86-64 then yields `INT_MIN = -2^31`, which is the value taken here. -/
def qRound (d : ℚ) : Int :=
  let r : Int := if 0 ≤ d then ⌊d + 1 / 2⌋ else ⌈d - 1 / 2⌉
  if -2147483648 ≤ r ∧ r ≤ 2147483647 then r else -2147483648

/-- `borders[i]->...`: apply `f` to the border at index `i`. -/
def borderAt (f : TableBorder → TableBorder) (i : Int) (l : List TableBorder) :
    List TableBorder :=
  if 0 ≤ i then
    match l[i.toNat]? with
    | some b => l.set i.toNat (f b)
    | none => l
  else l

/-- Body of the loop over the vertical borders in `initializeTableLayout`. -/
def layoutVerticalBorder (padding spacing cellWidth tableWidth tableHeight : ℚ) (c : Int)
    (verticalBorder : TableBorder) : TableBorder :=
  let borderWidth : ℚ := 3
  let borderWidth2 := borderWidth / 2
  let x := padding + (((c : ℚ) - 1) * spacing) + ((c : ℚ) * cellWidth) + (spacing / 2)
  let borderX := x - borderWidth2
  { verticalBorder with
    sx := borderX / tableWidth, y := 0, width := borderWidth, height := tableHeight }

/-- Body of the loop over the horizontal borders in `initializeTableLayout`. -/
def layoutHorizontalBorder (padding spacing cellHeight tableWidth tableHeight : ℚ) (r : Int)
    (horizontalBorder : TableBorder) : TableBorder :=
  let borderHeight : ℚ := 3
  let borderHeight2 := borderHeight / 2
  let y := padding + (((r : ℚ) - 1) * spacing) + ((r : ℚ) * cellHeight) + (spacing / 2)
  let borderY := y - borderHeight2
  { horizontalBorder with
    x := 0, sy := borderY / tableHeight, width := tableWidth, height := borderHeight }

/-- A loop `for (auto k = 1; k <= n; k++) borders[k-1]->body(k)`. -/
def forCounter (body : Int → TableBorder → TableBorder) (n : Int)
    (borders : List TableBorder) : List TableBorder :=
  (List.range n.toNat).foldl (fun acc (i : Nat) =>
    let k : Int := (i : Int) + 1
    borderAt (body k) (k - 1) acc) borders

/-- `TableGroupItem::layoutTable`. -/
def layoutTable (blc : BorderLayoutCells) (s : TableGroupItem) : TableGroupItem :=
  if s.enabled = false then s
  else
    match s.container with
    | none => s
    | some tableContainer =>
      let tableWidth := tableContainer.width
      let tableHeight := tableContainer.height
      -- `tableSize.isEmpty() || tableSize.isNull()`
      if (tableWidth ≤ 0 ∨ tableHeight ≤ 0) ∨ (tableWidth = 0 ∧ tableHeight = 0) then s
      else
        layoutCells blc
          { s with
            verticalBorders := s.verticalBorders.map (fun verticalBorder =>
              { verticalBorder with
                x := verticalBorder.sx * tableWidth, y := 0, height := tableHeight }),
            horizontalBorders := s.horizontalBorders.map (fun horizontalBorder =>
              { horizontalBorder with
                x := 0, y := horizontalBorder.sy * tableHeight, width := tableWidth }) }

/-- `TableGroupItem::initializeTableLayout`. -/
def initializeTableLayout (blc : BorderLayoutCells) (s : TableGroupItem) : TableGroupItem :=
  match s.tableGroup with
  | none => s
  | some tableGroup =>
    match s.container with
    | none => s
    | some tableContainer =>
      let tableWidth := tableContainer.width
      let tableHeight := tableContainer.height
      if qRound tableWidth ≤ 0 ∨ qRound tableHeight ≤ 0 then s
      else
        let cols := tableGroup.cols
        let rows := tableGroup.rows
        let spacing := tableGroup.cellSpacing
        let padding := tableGroup.tablePadding
        if cols ≤ 0 ∨ rows ≤ 0 then s
        else if spacing < 0 ∨ padding < 0 then s
        else
          let cellWidth : ℚ :=
            if tableWidth > 0 then
              (tableWidth - (2 * padding) - (((cols : ℚ) - 1) * spacing)) / (cols : ℚ)
            else 0
          let cellHeight : ℚ :=
            if tableHeight > 0 then
              (tableHeight - (2 * padding) - (((rows : ℚ) - 1) * spacing)) / (rows : ℚ)
            else 0
          if cellWidth < 0 ∨ cellHeight < 0 then s
          else
            let s1 :=
              if (s.verticalBorders.length : Int) = cols - 1 then
                { s with verticalBorders :=
                    (forCounter
                      (layoutVerticalBorder padding spacing cellWidth tableWidth tableHeight)
                      (cols - 1) s.verticalBorders) }
              else s
            let s2 :=
              if (s1.horizontalBorders.length : Int) = rows - 1 then
                { s1 with horizontalBorders :=
                    (forCounter
                      (layoutHorizontalBorder padding spacing cellHeight tableWidth tableHeight)
                      (rows - 1) s1.horizontalBorders) }
              else s1
            layoutTable blc s2

/-! ## Predicates and states used in the statements -/

/-- The environment part of the state is the same in `s` and `t`. -/
def SameEnv (s t : TableGroupItem) : Prop :=
  t.tableGroup = s.tableGroup ∧ t.container = s.container ∧ t.enabled = s.enabled ∧
  t.hasEngine = s.hasEngine ∧ t.hasGraphContainer = s.hasGraphContainer ∧
  t.createOk = s.createOk ∧ t.wild = s.wild ∧ t.nodeCell = s.nodeCell ∧ t.nodePos = s.nodePos

/-- Every factory request from `s` on succeeds. -/
def FactoryOk (s : TableGroupItem) : Prop :=
  ∀ n, s.nextId ≤ n → s.createOk n = true

/-- No border of `l` has an adjacent cell yet. -/
def Unlinked (l : List TableBorder) : Prop :=
  ∀ b ∈ l, b.prevCells = [] ∧ b.nextCells = []

/-- A table group item without layout, in a 128 x 128 container, owned by a table group
of `rows` rows and `cols` columns (spacing 0, padding 0), with a factory that delivers
every object. -/
def blankItem (rows cols : Int) : TableGroupItem :=
  { verticalBorders := [], horizontalBorders := [], cells := [],
    cellObj := fun _ => TableCell.fresh, nodeCell := fun _ => none,
    nodePos := fun _ => (0, 0),
    tableGroup := some { rows := rows, cols := cols, cellSpacing := 0, tablePadding := 0 },
    container := some { width := 128, height := 128 },
    enabled := true, hasEngine := true, hasGraphContainer := true,
    nextId := 0, createOk := fun _ => true, wild := fun _ => none }

/-- An implementation of `TableBorder::layoutCells` that leaves every cell as it is. -/
def keepCells : BorderLayoutCells := fun s _ => s.cellObj

/-- The shape invariant of the layout with respect to the owning table group `g`:
`cells.size() == rows*cols`, `verticalBorders.size() == cols-1`,
`horizontalBorders.size() == rows-1`. -/
def HasShape (s : TableGroupItem) (g : TableGroup) : Prop :=
  s.tableGroup = some g ∧ (s.cells.length : Int) = g.rows * g.cols ∧
  (s.verticalBorders.length : Int) = g.cols - 1 ∧
  (s.horizontalBorders.length : Int) = g.rows - 1

/-- The 2 x 2 grid that `initialize` builds in `blankItem 2 2`. -/
def grid2x2 : TableGroupItem := initializeGrid 2 2 (blankItem 2 2)

/-- The 1 x 2 grid that `initialize` builds in `blankItem 1 2`. -/
def grid1x2 : TableGroupItem := initializeGrid 2 1 (blankItem 1 2)

/-! ## The cell layout of a border, modelled from the specification -/

/-- Modelled from the spec: moving the left edge of a cell to `e` (the right edge stays);
part of the class `qan::TableCell`, which is not among the sources. -/
def TableCell.setLeft (e : ℚ) (c : TableCell) : TableCell :=
  { c with x := e, width := c.x + c.width - e }

/-- Modelled from the spec: moving the right edge of a cell to `e`. -/
def TableCell.setRight (e : ℚ) (c : TableCell) : TableCell :=
  { c with width := e - c.x }

/-- Modelled from the spec: moving the top edge of a cell to `e` (the bottom edge
stays). -/
def TableCell.setTop (e : ℚ) (c : TableCell) : TableCell :=
  { c with y := e, height := c.y + c.height - e }

/-- Modelled from the spec: moving the bottom edge of a cell to `e`. -/
def TableCell.setBottom (e : ℚ) (c : TableCell) : TableCell :=
  { c with height := e - c.y }

/-- Modelled from the spec: the bounds that the container gives the cells of the first and
of the last row and column, as (left, right, top, bottom).  Section 3: the geometry of a
cell is "derived from the two bounding borders (or container edges/padding for the
first/last row/column)".  With the container of size `W x H` and the table padding `p` they
are `p`, `W - p`, `p` and `H - p` (the bounds `layoutCells` gives the cells of a table of
one column or one row); without container or without owning group there are none. -/
def outerBounds (s : TableGroupItem) : Option (ℚ × ℚ × ℚ × ℚ) :=
  match s.container, s.tableGroup with
  | some tableContainer, some tableGroup =>
    some (tableGroup.tablePadding, tableContainer.width - tableGroup.tablePadding,
      tableGroup.tablePadding, tableContainer.height - tableGroup.tablePadding)
  | _, _ => none

/-- Modelled from the spec: the effect of `TableBorder::layoutCells()` (defined in
`qanTableBorder.cpp`, which is not among the sources) on the cell objects.  Section 4.3:
"each border, once positioned, is responsible for setting the bounds of its prev/next
adjacent cells along its axis (cell edge = border position ± half border thickness)";
section 3: the geometry of a cell is "derived from the two bounding borders (or container
edges/padding for the first/last row/column)".
A vertical border at `x` of thickness `width` puts the right edge of its prev-side cells
at `x - width/2` and the left edge of its next-side cells at `x + width/2`; when it has no
prev border its prev-side cells are the first column, whose left edge it puts at the left
outer bound, and when it has no next border its next-side cells are the last column,
whose right edge it puts at the right outer bound.  A horizontal border at `y` of
thickness `height` does the same with the bottom edge of its prev-side cells, the top edge
of its next-side cells, and the top and bottom outer bounds for the first and the last
row. -/
def borderCellsPass (outer : Option (ℚ × ℚ × ℚ × ℚ)) (b : TableBorder)
    (objs : Nat → TableCell) : Nat → TableCell :=
  match b.orientation with
  | Orientation.Vertical =>
    let objs1 := forEachCell (TableCell.setRight (b.x - b.width / 2)) b.prevCells objs
    let objs2 :=
      match b.prevBorder, outer with
      | none, some bounds => forEachCell (TableCell.setLeft bounds.1) b.prevCells objs1
      | _, _ => objs1
    let objs3 := forEachCell (TableCell.setLeft (b.x + b.width / 2)) b.nextCells objs2
    match b.nextBorder, outer with
    | none, some bounds => forEachCell (TableCell.setRight bounds.2.1) b.nextCells objs3
    | _, _ => objs3
  | Orientation.Horizontal =>
    let objs1 := forEachCell (TableCell.setBottom (b.y - b.height / 2)) b.prevCells objs
    let objs2 :=
      match b.prevBorder, outer with
      | none, some bounds => forEachCell (TableCell.setTop bounds.2.2.1) b.prevCells objs1
      | _, _ => objs1
    let objs3 := forEachCell (TableCell.setTop (b.y + b.height / 2)) b.nextCells objs2
    match b.nextBorder, outer with
    | none, some bounds => forEachCell (TableCell.setBottom bounds.2.2.2) b.nextCells objs3
    | _, _ => objs3

/-- Modelled from the spec: `TableBorder::layoutCells()` as the parameter of the layout
functions, see `borderCellsPass`. -/
def borderLayoutCells : BorderLayoutCells :=
  fun s b => borderCellsPass (outerBounds s) b s.cellObj

/-- An assignment of constants to some of the four edges of a cell. -/
structure EdgeAssign where
  left : Option ℚ
  right : Option ℚ
  top : Option ℚ
  bottom : Option ℚ

/-- The cell after the edges named by `a` are moved to the constants of `a`. -/
def EdgeAssign.apply (a : EdgeAssign) (c : TableCell) : TableCell :=
  { x := a.left.getD c.x,
    y := a.top.getD c.y,
    width := a.right.getD (c.x + c.width) - a.left.getD c.x,
    height := a.bottom.getD (c.y + c.height) - a.top.getD c.y,
    item := c.item }

/-- First `a`, then `b`. -/
def EdgeAssign.andThen (a b : EdgeAssign) : EdgeAssign :=
  { left := b.left.orElse (fun _ => a.left),
    right := b.right.orElse (fun _ => a.right),
    top := b.top.orElse (fun _ => a.top),
    bottom := b.bottom.orElse (fun _ => a.bottom) }

/-- A transformation of the cell objects that moves, for every cell, some of its edges to
constants. -/
def IsAssign (F : (Nat → TableCell) → (Nat → TableCell)) : Prop :=
  ∃ A : Nat → EdgeAssign, ∀ h p, F h p = (A p).apply (h p)

/-- The effect of `layoutCells` on the cell objects, with the cell layout of a border
modelled by `borderCellsPass`, as a function of the rest of the state. -/
def cellPass (s : TableGroupItem) (objs : Nat → TableCell) : Nat → TableCell :=
  let h2 := s.horizontalBorders.foldl (fun h b => borderCellsPass (outerBounds s) b h)
    (s.verticalBorders.foldl (fun h b => borderCellsPass (outerBounds s) b h) objs)
  match s.container with
  | none => h2
  | some tableContainer =>
    match s.tableGroup with
    | none => h2
    | some tableGroup =>
      let padding := tableGroup.tablePadding
      let padding2 := padding * 2
      let h3 :=
        if tableGroup.cols = 1 then
          forEachCell (fun cell => { cell with x := padding, width := tableContainer.width - padding2 })
            s.cells h2
        else h2
      if tableGroup.rows = 1 then
        forEachCell (fun cell => { cell with height := tableContainer.height - padding2, y := padding })
          s.cells h3
      else h3

/-- The two loops of `layoutTable` over the borders: every border projected from its
normalized offset to the container `ct` and stretched across it. -/
def projectBorders (ct : Container) (s : TableGroupItem) : TableGroupItem :=
  { s with
    verticalBorders := s.verticalBorders.map (fun verticalBorder =>
      { verticalBorder with
        x := verticalBorder.sx * ct.width, y := 0, height := ct.height }),
    horizontalBorders := s.horizontalBorders.map (fun horizontalBorder =>
      { horizontalBorder with
        x := 0, y := horizontalBorder.sy * ct.height, width := ct.width }) }

/-- The 1 x 1 grid that `initialize` builds in `blankItem 1 1`. -/
def grid1x1 : TableGroupItem := initializeGrid 1 1 (blankItem 1 1)

/-! ## Grouping and ungrouping of nodes -/

/-- `QRectF::contains(const QPointF&)` of Qt for the rectangle of origin `(x, y)` and size
`(w, h)`: a point on an edge is inside, a rectangle of null width or height contains
nothing, a negative size is normalized. -/
def rectContains (x y w h : ℚ) (p : ℚ × ℚ) : Bool :=
  let l := if w < 0 then x + w else x
  let r := if w < 0 then x else x + w
  if l = r then false
  else if p.1 < l ∨ p.1 > r then false
  else
    let t := if h < 0 then y + h else y
    let b := if h < 0 then y else y + h
    if t = b then false
    else if p.2 < t ∨ p.2 > b then false
    else true

/-- `cell->boundingRect().translated(cell->position()).contains(groupPos)`: the bounding
rectangle of an item is `(0, 0, width, height)`. -/
def cellContains (s : TableGroupItem) (cell : Nat) (groupPos : ℚ × ℚ) : Bool :=
  rectContains (0 + (s.cellObj cell).x) (0 + (s.cellObj cell).y)
    (s.cellObj cell).width (s.cellObj cell).height groupPos

/-- `cell->setItem(nodeItem); nodeItem->getNode()->setCell(cell);`: the cell records the
node item as its occupant and the node records the cell. -/
def attachToCell (nodeItem cell : Nat) (s : TableGroupItem) : TableGroupItem :=
  { s with
    cellObj := Function.update s.cellObj cell { s.cellObj cell with item := some nodeItem },
    nodeCell := Function.update s.nodeCell nodeItem (some cell) }

/-- The loop of `groupNodeItem` over `_cells`: the first cell that is not null and whose
rectangle contains `groupPos` receives the node, and the loop ends. -/
def dropOnCells (nodeItem : Nat) (groupPos : ℚ × ℚ) (s : TableGroupItem) :
    List (Option Nat) → TableGroupItem
  | [] => s
  | none :: cells => dropOnCells nodeItem groupPos s cells
  | some cell :: cells =>
    if cellContains s cell groupPos then attachToCell nodeItem cell s
    else dropOnCells nodeItem groupPos s cells

/-- `TableGroupItem::groupNodeItem`.  A node and its item carry the same number.  The
notifications at the end of the function (`groupMoved`, `tableModified`,
`endProposeNodeDrop`) change nothing of the state kept here. -/
def groupNodeItem (nodeItem : Option Nat) (groupCell : Option Nat) (_transform : Bool)
    (s : TableGroupItem) : TableGroupItem :=
  match nodeItem with
  | none => s
  | some nodeItem =>
    match s.container with
    | none => s
    | some _ =>
      let groupPos := s.nodePos nodeItem
      match groupCell with
      | some groupCell =>
        if some groupCell ∈ s.cells then attachToCell nodeItem groupCell s
        else s
      | none => dropOnCells nodeItem groupPos s s.cells

/-- `TableGroupItem::ungroupNodeItem`.  Of the cell and of the node, the occupant and the
cell reference are kept here; the restored cache, the user property, the parent, the
position and the draw order of the node item are not part of the state. -/
def ungroupNodeItem (nodeItem : Option Nat) (_transform : Bool)
    (s : TableGroupItem) : TableGroupItem :=
  match nodeItem with
  | none => s
  | some nodeItem =>
    if s.hasGraphContainer then
      match s.nodeCell nodeItem with
      | some nodeCell =>
        { s with
          cellObj := Function.update s.cellObj nodeCell { s.cellObj nodeCell with item := none },
          nodeCell := Function.update s.nodeCell nodeItem none }
      | none => s
    else s

/-- The grid `grid2x2` with its four cells laid out as 64 x 64 squares in the container,
no cell occupied, and every node item at the point `(10, 10)` of the container. -/
def laidGrid2x2 : TableGroupItem :=
  { grid2x2 with
    cellObj := fun p =>
      { x := 64 * ((p % 2 : Nat) : ℚ), y := 64 * ((p / 2 : Nat) : ℚ),
        width := 64, height := 64, item := none },
    nodePos := fun _ => (10, 10) }

/-- The grid `grid2x2` with a factory that delivers no object any more. -/
def starvedGrid2x2 : TableGroupItem := { grid2x2 with createOk := fun _ => false }

/-- The grid `grid1x2` in a container of size 2 x 2. -/
def tinyGrid1x2 : TableGroupItem :=
  { grid1x2 with container := some { width := 2, height := 2 } }

/-! ## Index accesses of the cell remapping and of the linking -/

/-- The 3 x 2 grid (three rows, two columns) that `initialize` builds in `blankItem 3 2`. -/
def grid3x2 : TableGroupItem := initializeGrid 2 3 (blankItem 3 2)

/-- The index `i` is a valid index of a vector of `n` elements. -/
def InRange (i : Int) (n : Nat) : Prop := 0 ≤ i ∧ i < (n : Int)

instance instDecidableInRange (i : Int) (n : Nat) : Decidable (InRange i n) := by
  unfold InRange
  infer_instance

/-- The accesses of the copy loop of `insertColumn`, in the order of the loop, as pairs
(index written in `newCells`, index read in `_cells`):
`for (r = 0; r < oldRows; r++) for (c = 0; c < oldRows; c++)
   newCells[(r * newCols) + c] = _cells[(r * oldCols) + c];` -/
def copyAccesses (oldRows oldCols newCols : Int) : List (Int × Int) :=
  (List.range oldRows.toNat).flatMap (fun (r : Nat) =>
    (List.range oldRows.toNat).map (fun (c : Nat) =>
      (((r : Int) * newCols) + (c : Int), ((r : Int) * oldCols) + (c : Int))))

/-- The indices of `newCells` written by the new-cell loop of `insertColumn`:
`for (r = 0; r < oldRows; r++) newCells[(r * newCols) + (newCols - 1)] = cell;` -/
def newCellWrites (oldRows newCols : Int) : List Int :=
  (List.range oldRows.toNat).map (fun (r : Nat) => ((r : Int) * newCols) + (newCols - 1))

/-- Every access of the copy loop and of the new-cell loop of `insertColumn` on a grid of
`rows` rows and `cols` columns is in range: the reads in `_cells`, of size `rows*cols`, and
the writes in `newCells`, of size `newCols * newRows = (cols+1)*rows`. -/
def InsertColumnInRange (rows cols : Int) : Prop :=
  (∀ p ∈ copyAccesses rows cols (cols + 1),
    InRange p.1 ((cols + 1) * rows).toNat ∧ InRange p.2 (rows * cols).toNat) ∧
  (∀ i ∈ newCellWrites rows (cols + 1), InRange i ((cols + 1) * rows).toNat)

/-- The reads of `_cells` that `initializeCellsLinks` makes for the vertical border reached
with counter `c`, in the order of the loop, as pairs (index of the prev cell, index of the
next cell):
`for (int r = 0; r < rows; r++) {
   addPrevCell(_cells[(r * cols) + c - 1]); addNextCell(_cells[(r * cols) + c]); }` -/
def verticalLinkReads (rows cols c : Int) : List (Int × Int) :=
  (List.range rows.toNat).map (fun (r : Nat) =>
    (((r : Int) * cols) + c - 1, ((r : Int) * cols) + c))

/-- The reads of `_cells` that `initializeCellsLinks` makes for the horizontal border
reached with counter `r`:
`for (int c = 0; c < cols; c++) {
   addPrevCell(_cells[((r-1) * cols) + c]); addNextCell(_cells[(r * cols) + c]); }` -/
def horizontalLinkReads (cols r : Int) : List (Int × Int) :=
  (List.range cols.toNat).map (fun (c : Nat) =>
    (((r - 1) * cols) + (c : Int), (r * cols) + (c : Int)))

/-- Every index of `_cells` that `initializeCellsLinks` reads in the state `s` is in range,
whenever the call passes its guards (an owning group, `cells.size() == rows*cols`).  The
counter of the loop over the vertical borders starts at 1 and is incremented after every
border, so the border at position `k` of the sequence (from 0) is reached with counter
`1 + k`; likewise for the horizontal borders. -/
def LinksInRange (s : TableGroupItem) : Prop :=
  ∀ g, s.tableGroup = some g → (s.cells.length : Int) = g.rows * g.cols →
    (∀ k, k < s.verticalBorders.length →
      ∀ p ∈ verticalLinkReads g.rows g.cols (1 + (k : Int)),
        InRange p.1 s.cells.length ∧ InRange p.2 s.cells.length) ∧
    (∀ k, k < s.horizontalBorders.length →
      ∀ p ∈ horizontalLinkReads g.cols (1 + (k : Int)),
        InRange p.1 s.cells.length ∧ InRange p.2 s.cells.length)

/-- The state in which `initialize(cols = 4, rows = 1)` calls `initializeCellsLinks`, in an
item whose owning group has 2 rows and 2 columns: four cells, three vertical borders, no
horizontal border.  An out of range read of `_cells[i]` yields `w i`. -/
def mislinkedItem (w : Int → Option Nat) : TableGroupItem :=
  initializeBorders (4 - 1) (1 - 1)
    (initializeCells (1 * 4) (clearLayout { blankItem 2 2 with wild := w }))

/-! ## Sequences of grouping requests -/

/-- A call of the drop router: `groupNodeItem(nodeItem, groupCell, transform)` or
`ungroupNodeItem(nodeItem, transform)`. -/
inductive DropOp where
  | attach (nodeItem : Option Nat) (groupCell : Option Nat) (transform : Bool)
  | detach (nodeItem : Option Nat) (transform : Bool)
  deriving DecidableEq, Repr

/-- The state after the call `op`. -/
def DropOp.run : DropOp → TableGroupItem → TableGroupItem
  | DropOp.attach nodeItem groupCell transform, s => groupNodeItem nodeItem groupCell transform s
  | DropOp.detach nodeItem transform, s => ungroupNodeItem nodeItem transform s

/-- The state after the calls `ops`, made one after the other. -/
def runOps (ops : List DropOp) (s : TableGroupItem) : TableGroupItem :=
  ops.foldl (fun st op => op.run st) s

/-- Occupancy consistency: the occupant of a cell is the node `n` if and only if the cell
reference of `n` is that cell. -/
def OccupancyConsistent (s : TableGroupItem) : Prop :=
  ∀ c n, (s.cellObj c).item = some n ↔ s.nodeCell n = some c

/-- Every cell is empty and every node is ungrouped. -/
def Vacant (s : TableGroupItem) : Prop :=
  (∀ c, (s.cellObj c).item = none) ∧ ∀ n, s.nodeCell n = none

/-- The call `op` is made in a state `s` in which, when it is an attach of a node, the node
is ungrouped and the cell the call attaches it to (if any) is empty. -/
def DropOp.fitsIn : DropOp → TableGroupItem → Prop
  | DropOp.attach (some n) groupCell transform, s =>
    s.nodeCell n = none ∧
    ∀ c, (groupNodeItem (some n) groupCell transform s).nodeCell n = some c →
      (s.cellObj c).item = none
  | DropOp.attach none _ _, _ => True
  | DropOp.detach _ _, _ => True

/-- Every call of `ops`, made one after the other from `s`, fits in the state it is made
in. -/
def FitAll : List DropOp → TableGroupItem → Prop
  | [], _ => True
  | op :: ops, s => op.fitsIn s ∧ FitAll ops (op.run s)

/-! ## Borders seen without their cells -/

/-- The border `b` without its links to cells. -/
def TableBorder.withoutCells (b : TableBorder) : TableBorder :=
  { b with prevCells := [], nextCells := [] }

/-- The border `insertColumn` sets up when the factory delivers the object number `id`:
vertical, chained after `prevBorder`, at
`x = prevBorder->x() + ((width - prevBorder->x()) / 2.0)` with `sx = x / width`, as high as
`prevBorder` and of width 3. -/
def newColumnBorder (container : Container) (prevBorder : TableBorder) (id : Nat) :
    TableBorder :=
  { TableBorder.fresh id with
    orientation := Orientation.Vertical, prevBorder := some prevBorder.id,
    x := prevBorder.x + ((container.width - prevBorder.x) / 2),
    sx := (prevBorder.x + ((container.width - prevBorder.x) / 2)) / container.width,
    height := prevBorder.height, width := 3 }

/-- The border `insertRow` sets up when the factory delivers the object number `id`:
horizontal, chained after `prevBorder`, at
`y = prevBorder->y() + ((height - prevBorder->y()) / 2.0)` with `sy = y / height`, as wide
as `prevBorder` and of height 3. -/
def newRowBorder (container : Container) (prevBorder : TableBorder) (id : Nat) :
    TableBorder :=
  { TableBorder.fresh id with
    orientation := Orientation.Horizontal, prevBorder := some prevBorder.id,
    y := prevBorder.y + ((container.height - prevBorder.y) / 2),
    sy := (prevBorder.y + ((container.height - prevBorder.y) / 2)) / container.height,
    width := prevBorder.width, height := 3 }

/-- The grid `s` is laid out in the container `ct`: the container is not empty and every
border is where the resize pass puts it, at `x = sx * width` for a vertical border and at
`y = sy * height` for a horizontal border. -/
def LaidOut (s : TableGroupItem) (ct : Container) : Prop :=
  s.container = some ct ∧ 0 < ct.width ∧ 0 < ct.height ∧
  (∀ b ∈ s.verticalBorders, b.x = b.sx * ct.width) ∧
  (∀ b ∈ s.horizontalBorders, b.y = b.sy * ct.height)

/-- The vertical border of `grid2x2`, in the middle of the 128 x 128 container. -/
def midVertical : TableBorder :=
  { TableBorder.fresh 4 with
    prevCells := [some 0, some 2], nextCells := [some 1, some 3],
    x := 64, sx := 1 / 2, width := 3, height := 128 }

/-- The horizontal border of `grid2x2`, in the middle of the 128 x 128 container. -/
def midHorizontal : TableBorder :=
  { TableBorder.fresh 5 with
    orientation := Orientation.Horizontal,
    prevCells := [some 0, some 1], nextCells := [some 2, some 3],
    y := 64, sy := 1 / 2, width := 128, height := 3 }

/-- The grid `grid2x2` with its two borders in the middle of the 128 x 128 container. -/
def midGrid2x2 : TableGroupItem :=
  { grid2x2 with verticalBorders := [midVertical], horizontalBorders := [midHorizontal] }

/-- The 3 x 3 grid that `initialize` builds in `blankItem 3 3`. -/
def grid3x3 : TableGroupItem := initializeGrid 3 3 (blankItem 3 3)

/-! ## Chains of borders -/

/-- The borders of `l` form a consistent doubly-linked chain in the order of the sequence:
the first border has no prev, and for every pair of consecutive borders `(b, b')` the prev
of `b'` is `b` and the next of `b` is `b'`. -/
def Chained (l : List TableBorder) : Prop :=
  (∀ b : TableBorder, l[0]? = some b → b.prevBorder = none) ∧
  (∀ (i : Nat) (b b' : TableBorder), l[i]? = some b → l[i + 1]? = some b' →
    b'.prevBorder = some b.id ∧ b.nextBorder = some b'.id)

/-- The borders of `l` are in creation order: the factory delivered each of them after
the ones before it in the sequence (the identity of an object is the number of the
request that created it). -/
def CreationOrder (l : List TableBorder) : Prop :=
  ∀ (i j : Nat) (b b' : TableBorder), i < j → l[i]? = some b → l[j]? = some b' → b.id < b'.id

/-- The borders of `l`, all created before the request number `n`, form a consistent
doubly-linked chain in creation order. -/
def CreationChain (l : List TableBorder) (n : Nat) : Prop :=
  Chained l ∧ CreationOrder l ∧ ∀ b ∈ l, b.id < n

/-- The 4 x 2 grid (four rows, two columns) that `initialize` builds in `blankItem 4 2`. -/
def grid4x2 : TableGroupItem := initializeGrid 2 4 (blankItem 4 2)

/-! ## Creation of the grid -/

theorem SameEnv.refl (s : TableGroupItem) : SameEnv s s := by
  simp [SameEnv]

theorem SameEnv.trans {s t u : TableGroupItem} (h1 : SameEnv s t) (h2 : SameEnv t u) :
    SameEnv s u := by
  obtain ⟨a1, a2, a3, a4, a5, a6, a7, a8, a9⟩ := h1
  obtain ⟨b1, b2, b3, b4, b5, b6, b7, b8, b9⟩ := h2
  exact ⟨b1.trans a1, b2.trans a2, b3.trans a3, b4.trans a4, b5.trans a5, b6.trans a6,
    b7.trans a7, b8.trans a8, b9.trans a9⟩

theorem pushNewCell_spec (s : TableGroupItem) (hok : FactoryOk s) :
    (pushNewCell s).cells = s.cells ++ [some s.nextId] ∧
    (pushNewCell s).nextId = s.nextId + 1 ∧
    (pushNewCell s).verticalBorders = s.verticalBorders ∧
    (pushNewCell s).horizontalBorders = s.horizontalBorders ∧
    SameEnv s (pushNewCell s) := by
  have h := hok s.nextId (le_refl _)
  simp [pushNewCell, createCell, createFromComponent, h, SameEnv]

theorem pushNewCells_spec (n : Nat) : ∀ s : TableGroupItem, FactoryOk s →
    (pushNewCells n s).cells = s.cells ++ (List.range n).map (fun i => some (s.nextId + i)) ∧
    (pushNewCells n s).nextId = s.nextId + n ∧
    (pushNewCells n s).verticalBorders = s.verticalBorders ∧
    (pushNewCells n s).horizontalBorders = s.horizontalBorders ∧
    SameEnv s (pushNewCells n s) := by
  induction n with
  | zero => intro s _; simp [pushNewCells, SameEnv.refl]
  | succ n ih =>
    intro s hok
    obtain ⟨c1, c2, c3, c4, c5⟩ := pushNewCell_spec s hok
    have hok1 : FactoryOk (pushNewCell s) := by
      intro m hm
      rw [c5.2.2.2.2.2.1]
      exact hok m (by omega)
    obtain ⟨d1, d2, d3, d4, d5⟩ := ih (pushNewCell s) hok1
    refine ⟨?_, ?_, ?_, ?_, ?_⟩
    · show (pushNewCells n (pushNewCell s)).cells = _
      rw [d1, c1, c2, List.range_succ_eq_map]
      simp [List.map_map, Function.comp_def, Nat.add_assoc, Nat.add_comm 1]
    · show (pushNewCells n (pushNewCell s)).nextId = _
      rw [d2, c2]; omega
    · show (pushNewCells n (pushNewCell s)).verticalBorders = _
      rw [d3, c3]
    · show (pushNewCells n (pushNewCell s)).horizontalBorders = _
      rw [d4, c4]
    · exact c5.trans d5

theorem FactoryOk.step {s t : TableGroupItem} (hok : FactoryOk s) (he : SameEnv s t)
    (hn : s.nextId ≤ t.nextId) : FactoryOk t := by
  intro m hm
  rw [he.2.2.2.2.2.1]
  exact hok m (le_trans hn hm)

theorem setNextBorder_length (p b : Nat) (l : List TableBorder) :
    (setNextBorder p b l).length = l.length := by
  simp [setNextBorder]

theorem setNextBorder_unlinked (p b : Nat) (l : List TableBorder) (h : Unlinked l) :
    Unlinked (setNextBorder p b l) := by
  intro x hx
  simp only [setNextBorder, List.mem_map] at hx
  obtain ⟨y, hy, rfl⟩ := hx
  have := h y hy
  split <;> simpa using this

theorem createBorder_ok (s : TableGroupItem) (h : s.createOk s.nextId = true) :
    createBorder s = (some (TableBorder.fresh s.nextId), { s with nextId := s.nextId + 1 }) := by
  simp [createBorder, createFromComponent, h]

theorem createCell_ok (s : TableGroupItem) (h : s.createOk s.nextId = true) :
    createCell s = (some s.nextId,
      { s with nextId := s.nextId + 1,
               cellObj := Function.update s.cellObj s.nextId TableCell.fresh }) := by
  simp [createCell, createFromComponent, h]

theorem pushVerticalBorder_spec (ps : Option Nat × TableGroupItem) (hok : FactoryOk ps.2)
    (hu : Unlinked ps.2.verticalBorders) :
    (pushVerticalBorder ps).2.verticalBorders.length = ps.2.verticalBorders.length + 1 ∧
    Unlinked (pushVerticalBorder ps).2.verticalBorders ∧
    (pushVerticalBorder ps).2.nextId = ps.2.nextId + 1 ∧
    (pushVerticalBorder ps).2.cells = ps.2.cells ∧
    (pushVerticalBorder ps).2.horizontalBorders = ps.2.horizontalBorders ∧
    SameEnv ps.2 (pushVerticalBorder ps).2 := by
  obtain ⟨p, s⟩ := ps
  have h := hok s.nextId (le_refl _)
  have hu1 : Unlinked (s.verticalBorders ++
      [{ TableBorder.fresh s.nextId with
          orientation := Orientation.Vertical, prevBorder := p }]) := by
    intro x hx
    rcases List.mem_append.1 hx with hx | hx
    · exact hu x hx
    · simp only [List.mem_singleton] at hx
      subst hx
      simp [TableBorder.fresh]
  cases p with
  | none =>
    simp only [pushVerticalBorder, createBorder_ok s h]
    refine ⟨by simp, hu1, trivial, trivial, trivial, ?_⟩
    simp [SameEnv]
  | some p =>
    simp only [pushVerticalBorder, createBorder_ok s h]
    refine ⟨by simp [setNextBorder_length], setNextBorder_unlinked _ _ _ hu1, trivial, trivial, trivial, ?_⟩
    simp [SameEnv]

theorem pushHorizontalBorder_spec (ps : Option Nat × TableGroupItem) (hok : FactoryOk ps.2)
    (hu : Unlinked ps.2.horizontalBorders) :
    (pushHorizontalBorder ps).2.horizontalBorders.length = ps.2.horizontalBorders.length + 1 ∧
    Unlinked (pushHorizontalBorder ps).2.horizontalBorders ∧
    (pushHorizontalBorder ps).2.nextId = ps.2.nextId + 1 ∧
    (pushHorizontalBorder ps).2.cells = ps.2.cells ∧
    (pushHorizontalBorder ps).2.verticalBorders = ps.2.verticalBorders ∧
    SameEnv ps.2 (pushHorizontalBorder ps).2 := by
  obtain ⟨p, s⟩ := ps
  have h := hok s.nextId (le_refl _)
  have hu1 : Unlinked (s.horizontalBorders ++
      [{ TableBorder.fresh s.nextId with
          orientation := Orientation.Horizontal, prevBorder := p }]) := by
    intro x hx
    rcases List.mem_append.1 hx with hx | hx
    · exact hu x hx
    · simp only [List.mem_singleton] at hx
      subst hx
      simp [TableBorder.fresh]
  cases p with
  | none =>
    simp only [pushHorizontalBorder, createBorder_ok s h]
    refine ⟨by simp, hu1, trivial, trivial, trivial, ?_⟩
    simp [SameEnv]
  | some p =>
    simp only [pushHorizontalBorder, createBorder_ok s h]
    refine ⟨by simp [setNextBorder_length], setNextBorder_unlinked _ _ _ hu1, trivial, trivial, trivial, ?_⟩
    simp [SameEnv]

theorem pushVerticalBorders_spec (n : Nat) : ∀ ps : Option Nat × TableGroupItem,
    FactoryOk ps.2 → Unlinked ps.2.verticalBorders →
    (loopTimes pushVerticalBorder n ps).2.verticalBorders.length
      = ps.2.verticalBorders.length + n ∧
    Unlinked (loopTimes pushVerticalBorder n ps).2.verticalBorders ∧
    (loopTimes pushVerticalBorder n ps).2.nextId = ps.2.nextId + n ∧
    (loopTimes pushVerticalBorder n ps).2.cells = ps.2.cells ∧
    (loopTimes pushVerticalBorder n ps).2.horizontalBorders = ps.2.horizontalBorders ∧
    SameEnv ps.2 (loopTimes pushVerticalBorder n ps).2 := by
  induction n with
  | zero => intro ps _ hu; exact ⟨rfl, hu, rfl, rfl, rfl, SameEnv.refl _⟩
  | succ n ih =>
    intro ps hok hu
    obtain ⟨c1, c2, c3, c4, c5, c6⟩ := pushVerticalBorder_spec ps hok hu
    obtain ⟨d1, d2, d3, d4, d5, d6⟩ :=
      ih (pushVerticalBorder ps) (hok.step c6 (by omega)) c2
    refine ⟨?_, d2, ?_, ?_, ?_, c6.trans d6⟩
    · show (loopTimes pushVerticalBorder n (pushVerticalBorder ps)).2.verticalBorders.length = _
      omega
    · show (loopTimes pushVerticalBorder n (pushVerticalBorder ps)).2.nextId = _
      omega
    · show (loopTimes pushVerticalBorder n (pushVerticalBorder ps)).2.cells = _
      rw [d4, c4]
    · show (loopTimes pushVerticalBorder n (pushVerticalBorder ps)).2.horizontalBorders = _
      rw [d5, c5]

theorem pushHorizontalBorders_spec (n : Nat) : ∀ ps : Option Nat × TableGroupItem,
    FactoryOk ps.2 → Unlinked ps.2.horizontalBorders →
    (loopTimes pushHorizontalBorder n ps).2.horizontalBorders.length
      = ps.2.horizontalBorders.length + n ∧
    Unlinked (loopTimes pushHorizontalBorder n ps).2.horizontalBorders ∧
    (loopTimes pushHorizontalBorder n ps).2.nextId = ps.2.nextId + n ∧
    (loopTimes pushHorizontalBorder n ps).2.cells = ps.2.cells ∧
    (loopTimes pushHorizontalBorder n ps).2.verticalBorders = ps.2.verticalBorders ∧
    SameEnv ps.2 (loopTimes pushHorizontalBorder n ps).2 := by
  induction n with
  | zero => intro ps _ hu; exact ⟨rfl, hu, rfl, rfl, rfl, SameEnv.refl _⟩
  | succ n ih =>
    intro ps hok hu
    obtain ⟨c1, c2, c3, c4, c5, c6⟩ := pushHorizontalBorder_spec ps hok hu
    obtain ⟨d1, d2, d3, d4, d5, d6⟩ :=
      ih (pushHorizontalBorder ps) (hok.step c6 (by omega)) c2
    refine ⟨?_, d2, ?_, ?_, ?_, c6.trans d6⟩
    · show (loopTimes pushHorizontalBorder n (pushHorizontalBorder ps)).2.horizontalBorders.length = _
      omega
    · show (loopTimes pushHorizontalBorder n (pushHorizontalBorder ps)).2.nextId = _
      omega
    · show (loopTimes pushHorizontalBorder n (pushHorizontalBorder ps)).2.cells = _
      rw [d4, c4]
    · show (loopTimes pushHorizontalBorder n (pushHorizontalBorder ps)).2.verticalBorders = _
      rw [d5, c5]

theorem forEachCounting_length (body : Int → TableBorder → TableBorder) :
    ∀ (l : List TableBorder) (k : Int), (forEachCounting body k l).length = l.length := by
  intro l
  induction l with
  | nil => intro k; rfl
  | cons b bs ih => intro k; simp [forEachCounting, ih]

theorem forEachCounting_getElem? (body : Int → TableBorder → TableBorder) :
    ∀ (l : List TableBorder) (k : Int) (i : Nat),
      (forEachCounting body k l)[i]? = (l[i]?).map (body (k + (i : Int))) := by
  intro l
  induction l with
  | nil => intro k i; simp [forEachCounting]
  | cons b bs ih =>
    intro k i
    cases i with
    | zero => simp [forEachCounting]
    | succ i =>
      have e : k + 1 + (i : Int) = k + ((i + 1 : Nat) : Int) := by push_cast; ring
      simp only [forEachCounting, List.getElem?_cons_succ, ih, e]

theorem initializeCellsLinks_cells (s : TableGroupItem) :
    (initializeCellsLinks s).cells = s.cells := by
  unfold initializeCellsLinks
  cases s.tableGroup with
  | none => rfl
  | some g => dsimp only; split <;> rfl

theorem initializeCellsLinks_vlength (s : TableGroupItem) :
    (initializeCellsLinks s).verticalBorders.length = s.verticalBorders.length := by
  unfold initializeCellsLinks
  cases s.tableGroup with
  | none => rfl
  | some g => dsimp only; split <;> simp [forEachCounting_length]

theorem initializeCellsLinks_hlength (s : TableGroupItem) :
    (initializeCellsLinks s).horizontalBorders.length = s.horizontalBorders.length := by
  unfold initializeCellsLinks
  cases s.tableGroup with
  | none => rfl
  | some g => dsimp only; split <;> simp [forEachCounting_length]

/-- The state `initialize` reaches before it links borders and cells. -/
theorem initialize_before_links (rows cols : Int) (s : TableGroupItem)
    (hr : 1 ≤ rows) (hc : 1 ≤ cols) (heng : s.hasEngine = true) (hok : FactoryOk s) :
    ∃ t : TableGroupItem,
      initializeGrid cols rows s = initializeCellsLinks t ∧
      t.cells = (List.range (rows * cols).toNat).map (fun i => some (s.nextId + i)) ∧
      t.verticalBorders.length = (cols - 1).toNat ∧
      t.horizontalBorders.length = (rows - 1).toNat ∧
      Unlinked t.verticalBorders ∧ Unlinked t.horizontalBorders ∧
      t.nextId = s.nextId + (rows * cols).toNat + (cols - 1).toNat + (rows - 1).toNat ∧
      SameEnv s t := by
  have hpos : 0 < rows * cols := by positivity
  -- cells
  have hcl : FactoryOk (clearLayout s) := hok
  obtain ⟨c1, c2, c3, c4, c5⟩ := pushNewCells_spec (rows * cols).toNat (clearLayout s) hcl
  have e1 : initializeCells (rows * cols) (clearLayout s)
      = pushNewCells (rows * cols).toNat (clearLayout s) := by
    have h0 : ¬ (rows * cols ≤ 0) := by omega
    have h1 : ¬ (rows * cols = (((clearLayout s).cells.length : Nat) : Int)) := by
      simp [clearLayout]; omega
    have h2 : (clearLayout s).hasEngine = true := heng
    simp [initializeCells, h0, h1, h2]
  set s1 := pushNewCells (rows * cols).toNat (clearLayout s) with hs1
  have hok1 : FactoryOk s1 := hcl.step c5 (by omega)
  have hv0 : s1.verticalBorders = [] := c3
  have hh0 : s1.horizontalBorders = [] := c4
  -- vertical borders
  obtain ⟨v1, v2, v3, v4, v5, v6⟩ :=
    pushVerticalBorders_spec (cols - 1).toNat (none, s1) hok1 (by simp [hv0, Unlinked])
  set s2 := (loopTimes pushVerticalBorder (cols - 1).toNat (none, s1)).2 with hs2
  have hs2' : (if cols - 1 ≠ ((s1.verticalBorders.length : Nat) : Int) then s2 else s1)
      = s2 ∨ ((cols - 1).toNat = 0 ∧
        (if cols - 1 ≠ ((s1.verticalBorders.length : Nat) : Int) then s2 else s1) = s1) := by
    by_cases h : cols - 1 ≠ ((s1.verticalBorders.length : Nat) : Int)
    · left; simp [h]
    · right
      simp only [hv0, List.length_nil, Nat.cast_zero, ne_eq, not_not] at h
      simp [h, hv0]
  -- the state after the first loop, whether it ran or not
  obtain ⟨u, hu, u1, u2, u3, u4, u5, u6⟩ : ∃ u : TableGroupItem,
      (if cols - 1 ≠ ((s1.verticalBorders.length : Nat) : Int) then s2 else s1) = u ∧
      u.verticalBorders.length = (cols - 1).toNat ∧ Unlinked u.verticalBorders ∧
      u.nextId = s1.nextId + (cols - 1).toNat ∧ u.cells = s1.cells ∧
      u.horizontalBorders = [] ∧ SameEnv s1 u := by
    rcases hs2' with h | ⟨hz, h⟩
    · exact ⟨s2, h, by simpa [hv0] using v1, v2, v3, v4, by rw [v5, hh0], v6⟩
    · exact ⟨s1, h, by simp [hv0, hz], by simp [hv0, Unlinked], by simp [hz], rfl, hh0,
        SameEnv.refl _⟩
  have hoku : FactoryOk u := hok1.step u6 (by omega)
  obtain ⟨w1, w2, w3, w4, w5, w6⟩ :=
    pushHorizontalBorders_spec (rows - 1).toNat (none, u) hoku (by simp [u5, Unlinked])
  set s3 := (loopTimes pushHorizontalBorder (rows - 1).toNat (none, u)).2 with hs3
  obtain ⟨t, ht, t1, t2, t3, t4, t5, t6⟩ : ∃ t : TableGroupItem,
      (if rows - 1 ≠ ((u.horizontalBorders.length : Nat) : Int) then s3 else u) = t ∧
      t.horizontalBorders.length = (rows - 1).toNat ∧ Unlinked t.horizontalBorders ∧
      t.nextId = u.nextId + (rows - 1).toNat ∧ t.cells = u.cells ∧
      t.verticalBorders = u.verticalBorders ∧ SameEnv u t := by
    by_cases h : rows - 1 ≠ ((u.horizontalBorders.length : Nat) : Int)
    · exact ⟨s3, by simp [h], by simpa [u5] using w1, w2, w3, w4, w5, w6⟩
    · have hz : (rows - 1).toNat = 0 := by
        simp only [u5, List.length_nil, Nat.cast_zero, ne_eq, not_not] at h
        simp [h]
      exact ⟨u, by simp [h], by simp [u5, hz], by simp [u5, Unlinked], by simp [hz], rfl, rfl,
        SameEnv.refl _⟩
  refine ⟨t, ?_, ?_, ?_, t1, ?_, t2, ?_, ?_⟩
  · have g0 : ¬ (rows ≤ 0 ∨ cols ≤ 0) := by omega
    have g1 : ¬ (cols - 1 < 0 ∨ rows - 1 < 0) := by omega
    simp only [initializeGrid, g0, heng, if_false, e1, initializeBorders, g1]
    simp only [Bool.true_eq_false, if_false]
    simp only [hu, ht]
  · rw [t4, u4, c1]
    simp [clearLayout]
  · rw [t5, u1]
  · rw [t5]; exact u2
  · rw [t3, u3, c2]
    simp [clearLayout]
  · exact (c5.trans u6).trans t6

theorem blankItem_factoryOk (rows cols : Int) : FactoryOk (blankItem rows cols) := by
  intro n _; rfl

/-- C1: for every `rows >= 1`, `cols >= 1` and every prior state, when the QML engine is
available and the factory delivers every object, `initialize` leaves exactly `rows*cols`
cells (the objects of the first `rows*cols` factory requests, in order), `cols-1`
vertical borders and `rows-1` horizontal borders. -/
theorem initialize_creates_grid (rows cols : Int) (s : TableGroupItem)
    (hr : 1 ≤ rows) (hc : 1 ≤ cols) (heng : s.hasEngine = true) (hok : FactoryOk s) :
    (initializeGrid cols rows s).cells
      = (List.range (rows * cols).toNat).map (fun i => some (s.nextId + i)) ∧
    ((initializeGrid cols rows s).cells.length : Int) = rows * cols ∧
    ((initializeGrid cols rows s).verticalBorders.length : Int) = cols - 1 ∧
    ((initializeGrid cols rows s).horizontalBorders.length : Int) = rows - 1 := by
  obtain ⟨t, e, t1, t2, t3, -, -, -, -⟩ := initialize_before_links rows cols s hr hc heng hok
  have hpos : 0 < rows * cols := by positivity
  rw [e, initializeCellsLinks_cells, initializeCellsLinks_vlength, initializeCellsLinks_hlength,
    t1, t2, t3]
  refine ⟨rfl, ?_, ?_, ?_⟩
  · simp only [List.length_map, List.length_range]; omega
  · omega
  · omega

theorem initialize_creates_grid_witness :
    (1 : Int) ≤ 2 ∧ (1 : Int) ≤ 3 ∧ (blankItem 2 3).hasEngine = true ∧
    FactoryOk (blankItem 2 3) ∧
    (((initializeGrid 3 2 (blankItem 2 3)).cells.length : Int) = 2 * 3 ∧
     ((initializeGrid 3 2 (blankItem 2 3)).verticalBorders.length : Int) = 3 - 1 ∧
     ((initializeGrid 3 2 (blankItem 2 3)).horizontalBorders.length : Int) = 2 - 1) :=
  ⟨by decide, by decide, rfl, blankItem_factoryOk 2 3,
    (initialize_creates_grid 2 3 (blankItem 2 3) (by decide) (by decide) rfl
      (blankItem_factoryOk 2 3)).2⟩

example : (initializeGrid 3 2 (blankItem 2 3)).cells.length = 6 := rfl

theorem vecAt_inRange (v : List (Option Nat)) (w : Int → Option Nat) (n : Nat)
    (h : n < v.length) : some (vecAt v w (n : Int)) = v[n]? := by
  simp [vecAt, List.getD_eq_getElem?_getD, List.getElem?_eq_getElem h]

theorem initializeCellsLinks_linked (s : TableGroupItem) (g : TableGroup)
    (hg : s.tableGroup = some g) (hsz : (s.cells.length : Int) = g.rows * g.cols) :
    initializeCellsLinks s =
      { s with
        verticalBorders :=
          forEachCounting (linkVerticalBorder s.cells s.wild g.rows g.cols) 1 s.verticalBorders,
        horizontalBorders :=
          forEachCounting (linkHorizontalBorder s.cells s.wild g.cols) 1 s.horizontalBorders } := by
  simp [initializeCellsLinks, hg, hsz]

/-- C2: after `initialize` on a `rows x cols` grid whose owning group reports the same
rows and cols, the prev side of the `k`-th vertical border is the list of the cells at
the row-major indices `r*cols + (k-1)` and its next side the list of those at
`r*cols + k`, `r = 0 .. rows-1`; the prev side of the `k`-th horizontal border is the list
of the cells at `(k-1)*cols + c` and its next side the list of those at `k*cols + c`,
`c = 0 .. cols-1`. -/
theorem initialize_links_borders (rows cols : Nat) (s : TableGroupItem) (g : TableGroup)
    (hr : 1 ≤ rows) (hc : 1 ≤ cols) (heng : s.hasEngine = true) (hok : FactoryOk s)
    (hg : s.tableGroup = some g) (hgr : g.rows = rows) (hgc : g.cols = cols) :
    (∀ k, 1 ≤ k → k ≤ cols - 1 →
      ∃ b, (initializeGrid cols rows s).verticalBorders[k - 1]? = some b ∧
        b.prevCells.map some = (List.range rows).map
          (fun r => (initializeGrid cols rows s).cells[r * cols + (k - 1)]?) ∧
        b.nextCells.map some = (List.range rows).map
          (fun r => (initializeGrid cols rows s).cells[r * cols + k]?)) ∧
    (∀ k, 1 ≤ k → k ≤ rows - 1 →
      ∃ b, (initializeGrid cols rows s).horizontalBorders[k - 1]? = some b ∧
        b.prevCells.map some = (List.range cols).map
          (fun c => (initializeGrid cols rows s).cells[(k - 1) * cols + c]?) ∧
        b.nextCells.map some = (List.range cols).map
          (fun c => (initializeGrid cols rows s).cells[k * cols + c]?)) := by
  obtain ⟨t, e, t1, t2, t3, t4, t5, -, t7⟩ :=
    initialize_before_links rows cols s (by exact_mod_cast hr) (by exact_mod_cast hc) heng hok
  have hlen : t.cells.length = rows * cols := by
    rw [t1]; simp only [List.length_map, List.length_range]
    exact_mod_cast Int.toNat_of_nonneg (by positivity : (0 : Int) ≤ (rows : Int) * (cols : Int))
  have hgt : t.tableGroup = some g := by rw [t7.1, hg]
  have hsz : (t.cells.length : Int) = g.rows * g.cols := by
    rw [hlen, hgr, hgc]; push_cast; ring
  have hv : t.verticalBorders.length = cols - 1 := by rw [t2]; omega
  have hh : t.horizontalBorders.length = rows - 1 := by rw [t3]; omega
  rw [e, initializeCellsLinks_linked t g hgt hsz, hgr, hgc]
  constructor
  · intro k hk1 hk2
    have hlt : k - 1 < t.verticalBorders.length := by omega
    refine ⟨linkVerticalBorder t.cells t.wild rows cols (1 + ((k - 1 : Nat) : Int))
      (t.verticalBorders[k - 1]), ?_, ?_, ?_⟩
    · simp only [forEachCounting_getElem?, List.getElem?_eq_getElem hlt, Option.map_some']
    · have hu := (t4 _ (List.getElem_mem hlt)).1
      simp only [linkVerticalBorder, hu, List.nil_append, List.map_map, Int.toNat_ofNat]
      apply List.map_congr_left
      intro r hr'
      have hr2 : r < rows := List.mem_range.1 hr'
      have hidx : r * cols + (k - 1) < t.cells.length := by
        rw [hlen]
        calc r * cols + (k - 1) < r * cols + cols := by omega
          _ = (r + 1) * cols := by ring
          _ ≤ rows * cols := Nat.mul_le_mul_right _ hr2
      have e2 : ((r : Int) * (cols : Int)) + (1 + ((k - 1 : Nat) : Int)) - 1
          = ((r * cols + (k - 1) : Nat) : Int) := by push_cast; ring
      simp only [Function.comp_apply, e2]
      exact vecAt_inRange _ _ _ hidx
    · have hu := (t4 _ (List.getElem_mem hlt)).2
      simp only [linkVerticalBorder, hu, List.nil_append, List.map_map, Int.toNat_ofNat]
      apply List.map_congr_left
      intro r hr'
      have hr2 : r < rows := List.mem_range.1 hr'
      have hidx : r * cols + k < t.cells.length := by
        rw [hlen]
        calc r * cols + k < r * cols + cols := by omega
          _ = (r + 1) * cols := by ring
          _ ≤ rows * cols := Nat.mul_le_mul_right _ hr2
      have e2 : ((r : Int) * (cols : Int)) + (1 + ((k - 1 : Nat) : Int))
          = ((r * cols + k : Nat) : Int) := by
        have : ((k - 1 : Nat) : Int) = (k : Int) - 1 := by omega
        rw [this]; push_cast; ring
      simp only [Function.comp_apply, e2]
      exact vecAt_inRange _ _ _ hidx
  · intro k hk1 hk2
    have hlt : k - 1 < t.horizontalBorders.length := by omega
    refine ⟨linkHorizontalBorder t.cells t.wild cols (1 + ((k - 1 : Nat) : Int))
      (t.horizontalBorders[k - 1]), ?_, ?_, ?_⟩
    · simp only [forEachCounting_getElem?, List.getElem?_eq_getElem hlt, Option.map_some']
    · have hu := (t5 _ (List.getElem_mem hlt)).1
      simp only [linkHorizontalBorder, hu, List.nil_append, List.map_map, Int.toNat_ofNat]
      apply List.map_congr_left
      intro c hc'
      have hc2 : c < cols := List.mem_range.1 hc'
      have hidx : (k - 1) * cols + c < t.cells.length := by
        rw [hlen]
        calc (k - 1) * cols + c < (k - 1) * cols + cols := by omega
          _ = (k - 1 + 1) * cols := by ring
          _ ≤ rows * cols := Nat.mul_le_mul_right _ (by omega)
      have e2 : ((1 + ((k - 1 : Nat) : Int) - 1) * (cols : Int)) + (c : Int)
          = (((k - 1) * cols + c : Nat) : Int) := by push_cast; ring
      simp only [Function.comp_apply, e2]
      exact vecAt_inRange _ _ _ hidx
    · have hu := (t5 _ (List.getElem_mem hlt)).2
      simp only [linkHorizontalBorder, hu, List.nil_append, List.map_map, Int.toNat_ofNat]
      apply List.map_congr_left
      intro c hc'
      have hc2 : c < cols := List.mem_range.1 hc'
      have hidx : k * cols + c < t.cells.length := by
        rw [hlen]
        calc k * cols + c < k * cols + cols := by omega
          _ = (k + 1) * cols := by ring
          _ ≤ rows * cols := Nat.mul_le_mul_right _ (by omega)
      have e2 : ((1 + ((k - 1 : Nat) : Int)) * (cols : Int)) + (c : Int)
          = ((k * cols + c : Nat) : Int) := by
        have : ((k - 1 : Nat) : Int) = (k : Int) - 1 := by omega
        rw [this]; push_cast; ring
      simp only [Function.comp_apply, e2]
      exact vecAt_inRange _ _ _ hidx

theorem initialize_links_borders_witness :
    1 ≤ 2 ∧ (blankItem 2 2).hasEngine = true ∧ FactoryOk (blankItem 2 2) ∧
    ∃ b, (initializeGrid ((2 : Nat) : Int) ((2 : Nat) : Int) (blankItem 2 2)).verticalBorders[1 - 1]?
        = some b ∧
      b.prevCells.map some = (List.range 2).map
        (fun r => (initializeGrid ((2 : Nat) : Int) ((2 : Nat) : Int) (blankItem 2 2)).cells[r * 2 + (1 - 1)]?) ∧
      b.nextCells.map some = (List.range 2).map
        (fun r => (initializeGrid ((2 : Nat) : Int) ((2 : Nat) : Int) (blankItem 2 2)).cells[r * 2 + 1]?) :=
  ⟨by decide, rfl, blankItem_factoryOk 2 2,
    (initialize_links_borders 2 2 (blankItem 2 2)
      { rows := 2, cols := 2, cellSpacing := 0, tablePadding := 0 }
      (by decide) (by decide) rfl (blankItem_factoryOk 2 2) rfl rfl rfl).1 1
      (by decide) (by decide)⟩

/-! ## Cell layout changes cell objects only -/

theorem bordersLayoutCells_eq (blc : BorderLayoutCells) (l : List TableBorder) :
    ∀ s : TableGroupItem, bordersLayoutCells blc l s
      = { s with cellObj := (bordersLayoutCells blc l s).cellObj } := by
  induction l with
  | nil => intro s; rfl
  | cons b bs ih =>
    intro s
    have h := ih { s with cellObj := blc s b }
    simp only [bordersLayoutCells, List.foldl_cons] at h ⊢
    rw [h]

theorem layoutCells_eq (blc : BorderLayoutCells) (s : TableGroupItem) :
    layoutCells blc s = { s with cellObj := (layoutCells blc s).cellObj } := by
  have h1 := bordersLayoutCells_eq blc s.verticalBorders s
  have h2 := bordersLayoutCells_eq blc
    (bordersLayoutCells blc s.verticalBorders s).horizontalBorders
    (bordersLayoutCells blc s.verticalBorders s)
  unfold layoutCells
  simp only []
  generalize bordersLayoutCells blc
    (bordersLayoutCells blc s.verticalBorders s).horizontalBorders
    (bordersLayoutCells blc s.verticalBorders s) = s2 at h2 ⊢
  generalize bordersLayoutCells blc s.verticalBorders s = s1 at h1 h2
  have h3 : s2 = { s with cellObj := s2.cellObj } := by rw [h2, h1]
  generalize s2.cellObj = c at h3
  subst h3
  cases hc : s.container with
  | none => simp only [hc]
  | some ct =>
    cases hg : s.tableGroup with
    | none => simp only [hc, hg]
    | some g =>
      simp only [hc, hg]
      split <;> split <;> rfl

theorem layoutCells_cells (blc : BorderLayoutCells) (s : TableGroupItem) :
    (layoutCells blc s).cells = s.cells := by
  rw [layoutCells_eq]

theorem layoutCells_verticalBorders (blc : BorderLayoutCells) (s : TableGroupItem) :
    (layoutCells blc s).verticalBorders = s.verticalBorders := by
  rw [layoutCells_eq]

theorem layoutCells_horizontalBorders (blc : BorderLayoutCells) (s : TableGroupItem) :
    (layoutCells blc s).horizontalBorders = s.horizontalBorders := by
  rw [layoutCells_eq]

theorem layoutCells_tableGroup (blc : BorderLayoutCells) (s : TableGroupItem) :
    (layoutCells blc s).tableGroup = s.tableGroup := by
  rw [layoutCells_eq]

/-- Nothing but the cell objects depends on the implementation of
`TableBorder::layoutCells` handed to `insertColumn`. -/
theorem insertColumn_indep (blc blc' : BorderLayoutCells) (s : TableGroupItem) :
    insertColumn blc s = { insertColumn blc' s with cellObj := (insertColumn blc s).cellObj } := by
  unfold insertColumn
  cases s.container with
  | none => rfl
  | some ct =>
    cases s.tableGroup with
    | none => rfl
    | some g =>
      cases s.verticalBorders.getLast? with
      | none => rfl
      | some pb =>
        simp only []
        rw [layoutCells_eq blc, layoutCells_eq blc']

theorem insertRow_indep (blc blc' : BorderLayoutCells) (s : TableGroupItem) :
    insertRow blc s = { insertRow blc' s with cellObj := (insertRow blc s).cellObj } := by
  unfold insertRow
  cases s.container with
  | none => rfl
  | some ct =>
    cases s.tableGroup with
    | none => rfl
    | some g =>
      cases s.horizontalBorders.getLast? with
      | none => rfl
      | some pb =>
        simp only []
        rw [layoutCells_eq blc, layoutCells_eq blc']

/-- C3 (failing input): on the 1 x 2 grid that `initialize` builds, whose cells are the
objects 0 and 1, `insertColumn` leaves the cell array `[0, nullptr, 4]`: the entry at the
new index `0*3 + 1` is null and the old cell `(0,1)` (object 1) is in no slot. -/
theorem insertColumn_drops_cell (blc : BorderLayoutCells) :
    (initializeGrid 2 1 (blankItem 1 2)).cells = [some 0, some 1] ∧
    (insertColumn blc (initializeGrid 2 1 (blankItem 1 2))).cells = [some 0, none, some 4] ∧
    (insertColumn blc (initializeGrid 2 1 (blankItem 1 2))).cells[0 * (2 + 1) + 1]?
      ≠ (initializeGrid 2 1 (blankItem 1 2)).cells[0 * 2 + 1]? := by
  rw [insertColumn_indep blc keepCells]
  dsimp only
  decide

/-- C7 (failing input): on the 1 x 2 grid that `initialize` builds, after `insertColumn`
the next side of the first vertical border holds the old cell 1 and a null entry, while
column 1 of the new 1 x 3 array holds the null entry only. -/
theorem insertColumn_stale_link (blc : BorderLayoutCells) :
    (insertColumn blc (initializeGrid 2 1 (blankItem 1 2))).verticalBorders.map
      (fun b => (b.prevCells, b.nextCells))
      = [([some 0, some 0], [some 1, none]), ([none], [some 4])] ∧
    (insertColumn blc (initializeGrid 2 1 (blankItem 1 2))).cells = [some 0, none, some 4] ∧
    (insertColumn blc (initializeGrid 2 1 (blankItem 1 2))).tableGroup.map
      (fun g => (g.rows, g.cols)) = some (1, 3) := by
  rw [insertColumn_indep blc keepCells]
  dsimp only
  decide

theorem initializeCellsLinks_nextId (s : TableGroupItem) :
    (initializeCellsLinks s).nextId = s.nextId := by
  unfold initializeCellsLinks
  cases s.tableGroup with
  | none => rfl
  | some g => dsimp only; split <;> rfl

theorem initializeCellsLinks_sameEnv (s : TableGroupItem) :
    SameEnv s (initializeCellsLinks s) := by
  unfold initializeCellsLinks
  cases h : s.tableGroup with
  | none => simp [SameEnv, h]
  | some g => dsimp only; split <;> simp [SameEnv, h]

theorem insertColumn_cells_2x2 (blc : BorderLayoutCells) (t : TableGroupItem)
    (g : TableGroup) (ct : Container) (pb : TableBorder) (a b c d : Option Nat)
    (hok : FactoryOk t) (hg : t.tableGroup = some g) (hgr : g.rows = 2) (hgc : g.cols = 2)
    (hct : t.container = some ct) (hl : t.verticalBorders.getLast? = some pb)
    (hcells : t.cells = [a, b, c, d]) :
    (insertColumn blc t).cells
      = [a, b, some (t.nextId + 1), c, d, some (t.nextId + 2)] ∧
    (insertColumn blc t).tableGroup = some { g with cols := 3 } := by
  have h0 := hok t.nextId (le_refl _)
  have h1 := hok (t.nextId + 1) (by omega)
  have h2 := hok (t.nextId + 2) (by omega)
  unfold insertColumn
  simp only [hct, hg, hl, layoutCells_cells, layoutCells_tableGroup,
    initializeCellsLinks_cells, (initializeCellsLinks_sameEnv _).1]
  simp [insertColumnCells, insertColumnBorder, createBorder_ok t h0, hgr, hgc,
    createColumnCells, copyOldCells, List.range_succ, createCell, createFromComponent,
    h1, h2, vecSet, vecAt, hcells, List.replicate]

end qan
namespace qan

/-- C4: `insertColumn` on an initialised 2 x 2 grid yields a 2 x 3 grid (rows 2, cols 3,
6 cells); the old cells `(0,0)`, `(0,1)`, `(1,0)`, `(1,1)` (old indices 0, 1, 2, 3) are
the entries at the new indices 0, 1, 3, 4, and the entries at the new indices 2 and 5 are
the two cells created by the call, which are not among the old cells. -/
theorem insertColumn_on_2x2 (blc : BorderLayoutCells) (s : TableGroupItem) (g : TableGroup)
    (ct : Container) (heng : s.hasEngine = true) (hok : FactoryOk s)
    (hg : s.tableGroup = some g) (hgr : g.rows = 2) (hgc : g.cols = 2)
    (hct : s.container = some ct) :
    (insertColumn blc (initializeGrid 2 2 s)).tableGroup = some { g with cols := 3 } ∧
    (initializeGrid 2 2 s).cells.length = 4 ∧
    (insertColumn blc (initializeGrid 2 2 s)).cells.length = 6 ∧
    (insertColumn blc (initializeGrid 2 2 s)).cells[0]? = (initializeGrid 2 2 s).cells[0]? ∧
    (insertColumn blc (initializeGrid 2 2 s)).cells[1]? = (initializeGrid 2 2 s).cells[1]? ∧
    (insertColumn blc (initializeGrid 2 2 s)).cells[3]? = (initializeGrid 2 2 s).cells[2]? ∧
    (insertColumn blc (initializeGrid 2 2 s)).cells[4]? = (initializeGrid 2 2 s).cells[3]? ∧
    (insertColumn blc (initializeGrid 2 2 s)).cells[2]?
      = some (some ((initializeGrid 2 2 s).nextId + 1)) ∧
    (insertColumn blc (initializeGrid 2 2 s)).cells[5]?
      = some (some ((initializeGrid 2 2 s).nextId + 2)) ∧
    some ((initializeGrid 2 2 s).nextId + 1) ∉ (initializeGrid 2 2 s).cells ∧
    some ((initializeGrid 2 2 s).nextId + 2) ∉ (initializeGrid 2 2 s).cells ∧
    none ∉ (initializeGrid 2 2 s).cells := by
  obtain ⟨t, e, t1, t2, t3, -, -, t6, t7⟩ :=
    initialize_before_links 2 2 s (by decide) (by decide) heng hok
  have hcells : (initializeGrid 2 2 s).cells
      = [some s.nextId, some (s.nextId + 1), some (s.nextId + 2), some (s.nextId + 3)] := by
    rw [e, initializeCellsLinks_cells, t1]
    have e4 : ((2 : Int) * 2).toNat = 4 := by decide
    simp [e4, List.range_succ]
  have hnext : (initializeGrid 2 2 s).nextId = s.nextId + 6 := by
    have e4 : ((2 : Int) * 2).toNat = 4 := by decide
    have e1 : ((2 : Int) - 1).toNat = 1 := by decide
    rw [e, initializeCellsLinks_nextId, t6, e4, e1]
  have henv : SameEnv s (initializeGrid 2 2 s) := by
    rw [e]; exact t7.trans (initializeCellsLinks_sameEnv t)
  have hok' : FactoryOk (initializeGrid 2 2 s) := hok.step henv (by omega)
  have hvl : (initializeGrid 2 2 s).verticalBorders.length = 1 := by
    rw [e, initializeCellsLinks_vlength, t2]; decide
  obtain ⟨pb, hpb⟩ : ∃ pb, (initializeGrid 2 2 s).verticalBorders.getLast? = some pb := by
    cases hv : (initializeGrid 2 2 s).verticalBorders with
    | nil => rw [hv] at hvl; simp at hvl
    | cons x xs => exact ⟨_, List.getLast?_eq_getLast _ (by simp)⟩
  obtain ⟨r1, r2⟩ := insertColumn_cells_2x2 blc (initializeGrid 2 2 s) g ct pb _ _ _ _ hok'
    (by rw [henv.1, hg]) hgr hgc (by rw [henv.2.1, hct]) hpb hcells
  rw [r1, r2, hcells, hnext]
  simp
  omega

theorem insertColumn_on_2x2_witness :
    (blankItem 2 2).hasEngine = true ∧ FactoryOk (blankItem 2 2) ∧
    (insertColumn keepCells (initializeGrid 2 2 (blankItem 2 2))).cells.length = 6 ∧
    (insertColumn keepCells (initializeGrid 2 2 (blankItem 2 2))).cells[3]?
      = (initializeGrid 2 2 (blankItem 2 2)).cells[2]? :=
  ⟨rfl, blankItem_factoryOk 2 2,
    (insertColumn_on_2x2 keepCells (blankItem 2 2)
      { rows := 2, cols := 2, cellSpacing := 0, tablePadding := 0 }
      { width := 128, height := 128 } rfl (blankItem_factoryOk 2 2) rfl rfl rfl rfl).2.2.1,
    (insertColumn_on_2x2 keepCells (blankItem 2 2)
      { rows := 2, cols := 2, cellSpacing := 0, tablePadding := 0 }
      { width := 128, height := 128 } rfl (blankItem_factoryOk 2 2) rfl rfl rfl rfl).2.2.2.2.2.1⟩

/-! ## The loops that create the cells of a new column or row -/

theorem vecSet_length (l : List (Option Nat)) (i : Int) (a : Option Nat) :
    (vecSet l i a).length = l.length := by
  unfold vecSet; split <;> simp

theorem foldl_vecSet_length (f : Nat → Int) (v : Nat → Option Nat) (xs : List Nat) :
    ∀ l : List (Option Nat),
      (xs.foldl (fun l r => vecSet l (f r) (v r)) l).length = l.length := by
  induction xs with
  | nil => intro l; rfl
  | cons x xs ih => intro l; simp only [List.foldl_cons, ih, vecSet_length]

/-- With a factory that delivers every object, a loop `v[f r] = createCell()` for
`r = 0 .. n-1` writes the objects `nextId, nextId + 1, ...` and changes nothing else
than the object store and the request counter. -/
theorem createLoop_spec (f : Nat → Int) (n : Nat) (p : List (Option Nat) × TableGroupItem)
    (hok : FactoryOk p.2) :
    ((List.range n).foldl (fun acc (r : Nat) =>
        match createCell acc.2 with
        | (cell, s1) => (vecSet acc.1 (f r) cell, s1)) p).1
      = (List.range n).foldl (fun l r => vecSet l (f r) (some (p.2.nextId + r))) p.1 ∧
    ((List.range n).foldl (fun acc (r : Nat) =>
        match createCell acc.2 with
        | (cell, s1) => (vecSet acc.1 (f r) cell, s1)) p).2.nextId = p.2.nextId + n ∧
    ((List.range n).foldl (fun acc (r : Nat) =>
        match createCell acc.2 with
        | (cell, s1) => (vecSet acc.1 (f r) cell, s1)) p).2.verticalBorders
      = p.2.verticalBorders ∧
    ((List.range n).foldl (fun acc (r : Nat) =>
        match createCell acc.2 with
        | (cell, s1) => (vecSet acc.1 (f r) cell, s1)) p).2.horizontalBorders
      = p.2.horizontalBorders ∧
    SameEnv p.2 ((List.range n).foldl (fun acc (r : Nat) =>
        match createCell acc.2 with
        | (cell, s1) => (vecSet acc.1 (f r) cell, s1)) p).2 := by
  induction n with
  | zero => simp [SameEnv.refl]
  | succ n ih =>
    obtain ⟨a1, a2, a3, a4, a5⟩ := ih
    simp only [List.range_succ, List.foldl_append, List.foldl_cons, List.foldl_nil]
    generalize (List.range n).foldl (fun acc (r : Nat) =>
        match createCell acc.2 with
        | (cell, s1) => (vecSet acc.1 (f r) cell, s1)) p = q at a1 a2 a3 a4 a5
    have hq : q.2.createOk q.2.nextId = true := by
      rw [a5.2.2.2.2.2.1, a2]; exact hok _ (by omega)
    rw [createCell_ok q.2 hq]
    refine ⟨?_, ?_, a3, a4, ?_⟩
    · simp only [a1, a2]
    · simp only [a2]; omega
    · obtain ⟨b1, b2, b3, b4, b5, b6, b7, b8, b9⟩ := a5
      exact ⟨b1, b2, b3, b4, b5, b6, b7, b8, b9⟩

theorem set_append_length (A B : List (Option Nat)) (x y : Option Nat) :
    (A ++ x :: B).set A.length y = A ++ y :: B := by
  induction A with
  | nil => rfl
  | cons a A ih => simp [ih]

/-- Writing `v k` at the index `old.length + k` for `k = 0 .. n-1` into `old` followed by
`n` null entries yields `old` followed by `v 0, ..., v (n-1)`. -/
theorem fill_tail (old : List (Option Nat)) (v : Nat → Option Nat) (n : Nat) :
    ∀ k, k ≤ n →
      (List.range k).foldl
          (fun l r => vecSet l (((old.length + r : Nat) : Int)) (v r))
          (old ++ List.replicate n none)
        = old ++ (List.range k).map v ++ List.replicate (n - k) none := by
  intro k
  induction k with
  | zero => intro _; simp
  | succ k ih =>
    intro hk
    rw [List.range_succ, List.foldl_append, ih (by omega)]
    have e : List.replicate (n - k) (none : Option Nat)
        = none :: List.replicate (n - (k + 1)) none := by
      have : n - k = (n - (k + 1)) + 1 := by omega
      rw [this, List.replicate_succ]
    have hl : (old ++ List.map v (List.range k)).length = old.length + k := by simp
    simp only [List.foldl_cons, List.foldl_nil, vecSet, Int.natCast_nonneg, if_true,
      Int.toNat_ofNat, e]
    rw [← hl, set_append_length]
    simp

/-! ## insertColumn and insertRow, part by part -/

theorem insertColumnBorder_spec (ct : Container) (pb : TableBorder) (s : TableGroupItem)
    (h0 : s.createOk s.nextId = true) :
    (insertColumnBorder ct pb s).nextId = s.nextId + 1 ∧
    (insertColumnBorder ct pb s).cells = s.cells ∧
    (insertColumnBorder ct pb s).horizontalBorders = s.horizontalBorders ∧
    (insertColumnBorder ct pb s).verticalBorders.length = s.verticalBorders.length + 1 ∧
    SameEnv s (insertColumnBorder ct pb s) := by
  simp [insertColumnBorder, createBorder_ok s h0, setNextBorder_length, SameEnv]

theorem insertRowBorder_spec (ct : Container) (pb : TableBorder) (s : TableGroupItem)
    (h0 : s.createOk s.nextId = true) :
    (insertRowBorder ct pb s).nextId = s.nextId + 1 ∧
    (insertRowBorder ct pb s).cells = s.cells ∧
    (insertRowBorder ct pb s).verticalBorders = s.verticalBorders ∧
    (insertRowBorder ct pb s).horizontalBorders.length = s.horizontalBorders.length + 1 ∧
    SameEnv s (insertRowBorder ct pb s) := by
  simp [insertRowBorder, createBorder_ok s h0, setNextBorder_length, SameEnv]

theorem nested_vecSet_length (f : Nat → Nat → Int) (v : Nat → Nat → Option Nat)
    (ys : List Nat) (xs : List Nat) :
    ∀ l : List (Option Nat),
      (xs.foldl (fun acc r => ys.foldl (fun acc c => vecSet acc (f r c) (v r c)) acc) l).length
        = l.length := by
  induction xs with
  | nil => intro l; rfl
  | cons x xs ih =>
    intro l
    simp only [List.foldl_cons]
    rw [ih]
    exact foldl_vecSet_length (f x) (v x) ys l

theorem copyOldCells_length (cells : List (Option Nat)) (w : Int → Option Nat)
    (oldRows oldCols newCols : Int) (newCells : List (Option Nat)) :
    (copyOldCells cells w oldRows oldCols newCols newCells).length = newCells.length :=
  nested_vecSet_length (fun r c => ((r : Int) * newCols) + (c : Int))
    (fun r c => vecAt cells w (((r : Int) * oldCols) + (c : Int))) _ _ newCells

theorem insertColumnCells_spec (g : TableGroup) (s : TableGroupItem) (hok : FactoryOk s) :
    (insertColumnCells g s).cells.length = ((g.cols + 1) * g.rows).toNat ∧
    (insertColumnCells g s).tableGroup = some { g with cols := g.cols + 1 } ∧
    (insertColumnCells g s).verticalBorders = s.verticalBorders ∧
    (insertColumnCells g s).horizontalBorders = s.horizontalBorders ∧
    (insertColumnCells g s).nextId = s.nextId + g.rows.toNat ∧
    (insertColumnCells g s).container = s.container := by
  obtain ⟨a1, a2, a3, a4, a5⟩ := createLoop_spec
    (fun r => ((r : Int) * (g.cols + 1)) + (g.cols + 1 - 1)) g.rows.toNat
    (copyOldCells s.cells s.wild g.rows g.cols (g.cols + 1)
      (List.replicate ((g.cols + 1) * g.rows).toNat none), s) hok
  unfold insertColumnCells
  simp only []
  rcases hP : createColumnCells g.rows (g.cols + 1)
    (copyOldCells s.cells s.wild g.rows g.cols (g.cols + 1)
      (List.replicate ((g.cols + 1) * g.rows).toNat none), s) with ⟨filled, s3⟩
  unfold createColumnCells at hP
  rw [hP] at a1 a2 a3 a4 a5
  simp only [] at a1 a2 a3 a4 a5
  refine ⟨?_, trivial, a3, a4, a2, a5.2.1⟩
  show filled.length = _
  rw [a1, foldl_vecSet_length, copyOldCells_length, List.length_replicate]

theorem insertRowCells_spec (g : TableGroup) (s : TableGroupItem) (rows cols : Nat)
    (hgr : g.rows = rows) (hgc : g.cols = cols) (hok : FactoryOk s)
    (hcells : s.cells.length = rows * cols) :
    (insertRowCells g s).cells
      = s.cells ++ (List.range cols).map (fun c => some (s.nextId + c)) ∧
    (insertRowCells g s).tableGroup = some { g with rows := g.rows + 1 } ∧
    (insertRowCells g s).verticalBorders = s.verticalBorders ∧
    (insertRowCells g s).horizontalBorders = s.horizontalBorders ∧
    (insertRowCells g s).nextId = s.nextId + cols ∧
    (insertRowCells g s).container = s.container := by
  have hN : (g.cols * (g.rows + 1)).toNat = rows * cols + cols := by
    rw [hgr, hgc]
    have : ((cols : Int) * ((rows : Int) + 1)) = ((rows * cols + cols : Nat) : Int) := by
      push_cast; ring
    rw [this, Int.toNat_ofNat]
  have hcopy : stdCopy s.cells (List.replicate (g.cols * (g.rows + 1)).toNat none)
      = s.cells ++ List.replicate cols none := by
    rw [hN]
    unfold stdCopy
    rw [List.take_of_length_le (by simp; omega), List.drop_replicate, hcells]
    simp
  obtain ⟨a1, a2, a3, a4, a5⟩ := createLoop_spec
    (fun c => ((g.rows + 1 - 1) * g.cols) + (c : Int)) g.cols.toNat
    (stdCopy s.cells (List.replicate (g.cols * (g.rows + 1)).toNat none), s) hok
  unfold insertRowCells
  simp only []
  rcases hP : createRowCells (g.rows + 1) g.cols
    (stdCopy s.cells (List.replicate (g.cols * (g.rows + 1)).toNat none), s) with ⟨filled, s3⟩
  unfold createRowCells at hP
  rw [hP] at a1 a2 a3 a4 a5
  simp only [] at a1 a2 a3 a4 a5
  refine ⟨?_, trivial, a3, a4, ?_, a5.2.1⟩
  · show filled = _
    rw [a1, hcopy, hgc, Int.toNat_ofNat]
    have hf : (fun (l : List (Option Nat)) (r : Nat) =>
          vecSet l ((g.rows + 1 - 1) * (cols : Int) + (r : Int)) (some (s.nextId + r)))
        = (fun l r => vecSet l (((s.cells.length + r : Nat) : Int))
            ((fun c => some (s.nextId + c)) r)) := by
      funext l r
      rw [hgr, hcells]
      congr 1
      push_cast; ring
    rw [hf, fill_tail s.cells (fun c => some (s.nextId + c)) cols cols (le_refl _)]
    simp
  · show s3.nextId = _
    rw [a2, hgc, Int.toNat_ofNat]

theorem getLast?_of_ne_nil (l : List TableBorder) (h : l ≠ []) :
    ∃ pb, l.getLast? = some pb :=
  ⟨_, List.getLast?_eq_getLast l h⟩

theorem grid2x2_factoryOk : FactoryOk grid2x2 := by
  intro n _; rfl

/-- C5: on a valid `rows x cols` grid with `rows >= 2` and `cols >= 1`, a successful
`insertRow` leaves `(rows+1)*cols` cells, every old cell keeps its linear index, and the
entries at the indices `rows*cols .. rows*cols + cols - 1` are the cells created by the
call (the objects of the factory requests that follow the one of the new border). -/
theorem insertRow_appends_cells (blc : BorderLayoutCells) (s : TableGroupItem)
    (g : TableGroup) (ct : Container) (rows cols : Nat) (hr : 2 ≤ rows)
    (hg : s.tableGroup = some g) (hgr : g.rows = rows) (hgc : g.cols = cols)
    (hcells : s.cells.length = rows * cols) (hh : s.horizontalBorders.length = rows - 1)
    (hct : s.container = some ct) (hok : FactoryOk s) :
    (insertRow blc s).cells.length = (rows + 1) * cols ∧
    (∀ i, i < rows * cols → (insertRow blc s).cells[i]? = s.cells[i]?) ∧
    (∀ c, c < cols →
      (insertRow blc s).cells[rows * cols + c]? = some (some (s.nextId + 1 + c))) := by
  obtain ⟨pb, hpb⟩ := getLast?_of_ne_nil s.horizontalBorders
    (by intro h; rw [h] at hh; simp at hh; omega)
  have h0 := hok s.nextId (le_refl _)
  obtain ⟨b1, b2, b3, b4, b5⟩ := insertRowBorder_spec ct pb s h0
  have hok2 : FactoryOk (insertRowBorder ct pb s) := hok.step b5 (by omega)
  obtain ⟨c1, -, -, -, -, -⟩ := insertRowCells_spec g (insertRowBorder ct pb s) rows cols
    hgr hgc hok2 (by rw [b2, hcells])
  have e : (insertRow blc s).cells
      = s.cells ++ (List.range cols).map (fun c => some (s.nextId + 1 + c)) := by
    unfold insertRow
    simp only [hct, hg, hpb, layoutCells_cells, initializeCellsLinks_cells]
    rw [c1, b1, b2]
  rw [e]
  refine ⟨?_, ?_, ?_⟩
  · simp [hcells]; ring
  · intro i hi
    rw [List.getElem?_append_left (by omega)]
  · intro c hc'
    rw [List.getElem?_append_right (by omega)]
    simp [hcells, hc']

theorem insertRow_appends_cells_witness :
    2 ≤ 2 ∧ grid2x2.cells.length = 2 * 2 ∧ grid2x2.horizontalBorders.length = 2 - 1 ∧
    FactoryOk grid2x2 ∧
    (insertRow keepCells grid2x2).cells.length = (2 + 1) * 2 :=
  ⟨by decide, by decide, by decide, grid2x2_factoryOk,
    (insertRow_appends_cells keepCells grid2x2
      { rows := 2, cols := 2, cellSpacing := 0, tablePadding := 0 }
      { width := 128, height := 128 } 2 2 (by decide) rfl rfl rfl
      (by decide) (by decide) rfl grid2x2_factoryOk).1⟩

theorem grid2x2_hasShape :
    HasShape grid2x2 { rows := 2, cols := 2, cellSpacing := 0, tablePadding := 0 } :=
  ⟨rfl, by decide, by decide, by decide⟩


/-! ## Geometric layout -/

theorem borderAt_length (f : TableBorder → TableBorder) (i : Int) (l : List TableBorder) :
    (borderAt f i l).length = l.length := by
  unfold borderAt
  split
  · split <;> simp
  · rfl

theorem borderAt_getElem? (f : TableBorder → TableBorder) (k : Nat) (l : List TableBorder)
    (i : Nat) :
    (borderAt f (k : Int) l)[i]? = if i = k then (l[i]?).map f else l[i]? := by
  unfold borderAt
  simp only [Int.natCast_nonneg, if_true, Int.toNat_ofNat]
  cases hk : l[k]? with
  | none =>
    by_cases hik : i = k
    · subst hik; simp [hk]
    · simp [hik]
  | some b =>
    by_cases hik : i = k
    · subst hik
      have hlt : i < l.length := by
        by_contra hcon
        rw [List.getElem?_eq_none (by omega)] at hk
        cases hk
      simp [hk, List.getElem?_set_self hlt]
    · simp only [hik, if_false]
      rw [List.getElem?_set_ne (by omega)]

theorem forCounter_getElem? (body : Int → TableBorder → TableBorder) (l : List TableBorder)
    (n : Nat) (i : Nat) :
    (forCounter body (n : Int) l)[i]?
      = if i < n then (l[i]?).map (body ((i : Int) + 1)) else l[i]? := by
  unfold forCounter
  rw [Int.toNat_ofNat]
  induction n with
  | zero => simp
  | succ n ih =>
    rw [List.range_succ, List.foldl_append]
    simp only [List.foldl_cons, List.foldl_nil]
    have e : ((n : Int) + 1 - 1) = ((n : Nat) : Int) := by ring
    rw [e, borderAt_getElem?, ih]
    by_cases h1 : i = n
    · subst h1; simp
    · by_cases h2 : i < n
      · simp [h1, h2, Nat.lt_succ_of_lt h2]
      · have h3 : ¬ i < n + 1 := by omega
        simp [h1, h2, h3]

theorem qRound_pos (d : ℚ) (h : 1 / 2 ≤ d) (hmax : d < 2147483647 + 1 / 2) :
    ¬ qRound d ≤ 0 := by
  have h0 : (0 : ℚ) ≤ d := le_trans (by norm_num) h
  have h1 : (1 : Int) ≤ ⌊d + 1 / 2⌋ := by
    rw [Int.le_floor]; push_cast; linarith
  have h2 : ⌊d + 1 / 2⌋ < 2147483648 := by
    rw [Int.floor_lt]; push_cast; linarith
  have h3 : -2147483648 ≤ ⌊d + 1 / 2⌋ ∧ ⌊d + 1 / 2⌋ ≤ 2147483647 := by omega
  simp only [qRound, h0, if_true, h3, and_self]
  omega

theorem layoutTable_vertical_sx (blc : BorderLayoutCells) (s : TableGroupItem) (i : Nat) :
    ((layoutTable blc s).verticalBorders[i]?).map (fun b => b.sx)
      = (s.verticalBorders[i]?).map (fun b => b.sx) := by
  unfold layoutTable
  split
  · rfl
  · cases s.container with
    | none => rfl
    | some ct =>
      simp only []
      split
      · rfl
      · rw [layoutCells_verticalBorders]
        simp only [List.getElem?_map, Option.map_map]
        rfl

theorem layoutTable_horizontal_sy (blc : BorderLayoutCells) (s : TableGroupItem) (i : Nat) :
    ((layoutTable blc s).horizontalBorders[i]?).map (fun b => b.sy)
      = (s.horizontalBorders[i]?).map (fun b => b.sy) := by
  unfold layoutTable
  split
  · rfl
  · cases s.container with
    | none => rfl
    | some ct =>
      simp only []
      split
      · rfl
      · rw [layoutCells_horizontalBorders]
        simp only [List.getElem?_map, Option.map_map]
        rfl

/-- Past its guards, with the expected numbers of borders, `initializeTableLayout` places
every border and calls `layoutTable`. -/
theorem initializeTableLayout_eq (blc : BorderLayoutCells) (s : TableGroupItem)
    (g : TableGroup) (ct : Container)
    (hg : s.tableGroup = some g) (hct : s.container = some ct)
    (hW : 1 / 2 ≤ ct.width) (hH : 1 / 2 ≤ ct.height)
    (hWmax : ct.width < 2147483647 + 1 / 2) (hHmax : ct.height < 2147483647 + 1 / 2)
    (hrows : 1 ≤ g.rows) (hcols : 1 ≤ g.cols)
    (hsp : 0 ≤ g.cellSpacing) (hpad : 0 ≤ g.tablePadding)
    (hcw : 0 ≤ (ct.width - 2 * g.tablePadding - ((g.cols : ℚ) - 1) * g.cellSpacing) / (g.cols : ℚ))
    (hch : 0 ≤ (ct.height - 2 * g.tablePadding - ((g.rows : ℚ) - 1) * g.cellSpacing) / (g.rows : ℚ))
    (hv : (s.verticalBorders.length : Int) = g.cols - 1)
    (hh : (s.horizontalBorders.length : Int) = g.rows - 1) :
    initializeTableLayout blc s = layoutTable blc
      { s with
        verticalBorders := forCounter
          (layoutVerticalBorder g.tablePadding g.cellSpacing
            ((ct.width - 2 * g.tablePadding - ((g.cols : ℚ) - 1) * g.cellSpacing) / (g.cols : ℚ))
            ct.width ct.height) (g.cols - 1) s.verticalBorders,
        horizontalBorders := forCounter
          (layoutHorizontalBorder g.tablePadding g.cellSpacing
            ((ct.height - 2 * g.tablePadding - ((g.rows : ℚ) - 1) * g.cellSpacing) / (g.rows : ℚ))
            ct.width ct.height) (g.rows - 1) s.horizontalBorders } := by
  have g1 : ¬ (qRound ct.width ≤ 0 ∨ qRound ct.height ≤ 0) := by
    have := qRound_pos _ hW hWmax
    have := qRound_pos _ hH hHmax
    tauto
  have g2 : ¬ (g.cols ≤ 0 ∨ g.rows ≤ 0) := by omega
  have g3 : ¬ (g.cellSpacing < 0 ∨ g.tablePadding < 0) := by
    rw [not_or]; exact ⟨not_lt.2 hsp, not_lt.2 hpad⟩
  have hWp : ct.width > 0 := lt_of_lt_of_le (by norm_num) hW
  have hHp : ct.height > 0 := lt_of_lt_of_le (by norm_num) hH
  have g4 : ¬ ((ct.width - 2 * g.tablePadding - ((g.cols : ℚ) - 1) * g.cellSpacing) / (g.cols : ℚ) < 0
      ∨ (ct.height - 2 * g.tablePadding - ((g.rows : ℚ) - 1) * g.cellSpacing) / (g.rows : ℚ) < 0) := by
    rw [not_or]; exact ⟨not_lt.2 hcw, not_lt.2 hch⟩
  unfold initializeTableLayout
  simp only [hg, hct, g1, g2, g3, hWp, hHp, g4, if_true, if_false, hv, hh]

/-- C8 (amended): for a container whose rounded width and height are positive values of
`int` (`1/2 <= W < 2^31 - 1/2`, `1/2 <= H < 2^31 - 1/2`), `rows, cols >= 1`, `spacing, padding >= 0`, non-negative derived
cell sizes and border counts `cols-1` / `rows-1`, after `initializeTableLayout` the `c`-th
vertical border has the normalized offset `(x - 3/2) / W` with
`x = padding + (c-1)*spacing + c*cellWidth + spacing/2`, and the `r`-th horizontal border
has the normalized offset `(y - 3/2) / H` with
`y = padding + (r-1)*spacing + r*cellHeight + spacing/2`: the offset is the one of the
left (top) edge of the border, which is 3 thick and centred on `x` (`y`). -/
theorem initializeTableLayout_offsets (blc : BorderLayoutCells) (s : TableGroupItem)
    (g : TableGroup) (ct : Container)
    (hg : s.tableGroup = some g) (hct : s.container = some ct)
    (hW : 1 / 2 ≤ ct.width) (hH : 1 / 2 ≤ ct.height)
    (hWmax : ct.width < 2147483647 + 1 / 2) (hHmax : ct.height < 2147483647 + 1 / 2)
    (hrows : 1 ≤ g.rows) (hcols : 1 ≤ g.cols)
    (hsp : 0 ≤ g.cellSpacing) (hpad : 0 ≤ g.tablePadding)
    (hcw : 0 ≤ (ct.width - 2 * g.tablePadding - ((g.cols : ℚ) - 1) * g.cellSpacing) / (g.cols : ℚ))
    (hch : 0 ≤ (ct.height - 2 * g.tablePadding - ((g.rows : ℚ) - 1) * g.cellSpacing) / (g.rows : ℚ))
    (hv : (s.verticalBorders.length : Int) = g.cols - 1)
    (hh : (s.horizontalBorders.length : Int) = g.rows - 1) :
    (∀ c : Nat, 1 ≤ c → (c : Int) ≤ g.cols - 1 →
      ∃ b, (initializeTableLayout blc s).verticalBorders[c - 1]? = some b ∧
        b.sx = (g.tablePadding + ((c : ℚ) - 1) * g.cellSpacing
          + (c : ℚ) * ((ct.width - 2 * g.tablePadding - ((g.cols : ℚ) - 1) * g.cellSpacing)
              / (g.cols : ℚ))
          + g.cellSpacing / 2 - 3 / 2) / ct.width) ∧
    (∀ r : Nat, 1 ≤ r → (r : Int) ≤ g.rows - 1 →
      ∃ b, (initializeTableLayout blc s).horizontalBorders[r - 1]? = some b ∧
        b.sy = (g.tablePadding + ((r : ℚ) - 1) * g.cellSpacing
          + (r : ℚ) * ((ct.height - 2 * g.tablePadding - ((g.rows : ℚ) - 1) * g.cellSpacing)
              / (g.rows : ℚ))
          + g.cellSpacing / 2 - 3 / 2) / ct.height) := by
  rw [initializeTableLayout_eq blc s g ct hg hct hW hH hWmax hHmax hrows hcols hsp hpad hcw hch hv hh]
  constructor
  · intro c hc1 hc2
    have hlt : c - 1 < s.verticalBorders.length := by omega
    have key := layoutTable_vertical_sx blc
      { s with
        verticalBorders := forCounter
          (layoutVerticalBorder g.tablePadding g.cellSpacing
            ((ct.width - 2 * g.tablePadding - ((g.cols : ℚ) - 1) * g.cellSpacing) / (g.cols : ℚ))
            ct.width ct.height) (g.cols - 1) s.verticalBorders,
        horizontalBorders := forCounter
          (layoutHorizontalBorder g.tablePadding g.cellSpacing
            ((ct.height - 2 * g.tablePadding - ((g.rows : ℚ) - 1) * g.cellSpacing) / (g.rows : ℚ))
            ct.width ct.height) (g.rows - 1) s.horizontalBorders } (c - 1)
    have fc : (forCounter
          (layoutVerticalBorder g.tablePadding g.cellSpacing
            ((ct.width - 2 * g.tablePadding - ((g.cols : ℚ) - 1) * g.cellSpacing) / (g.cols : ℚ))
            ct.width ct.height) (g.cols - 1) s.verticalBorders)[c - 1]?
        = some (layoutVerticalBorder g.tablePadding g.cellSpacing
            ((ct.width - 2 * g.tablePadding - ((g.cols : ℚ) - 1) * g.cellSpacing) / (g.cols : ℚ))
            ct.width ct.height (((c - 1 : Nat) : Int) + 1) (s.verticalBorders[c - 1])) := by
      rw [← hv, forCounter_getElem?, if_pos hlt, List.getElem?_eq_getElem hlt]
      rfl
    simp only [fc, Option.map_some'] at key
    cases hb : (layoutTable blc _).verticalBorders[c - 1]? with
    | none => rw [hb] at key; cases key
    | some b =>
      rw [hb] at key
      simp only [Option.map_some', Option.some.injEq] at key
      refine ⟨b, rfl, ?_⟩
      rw [key]
      have e : (((c - 1 : Nat) : Int) + 1 : Int) = (c : Int) := by omega
      simp only [layoutVerticalBorder, e]
      push_cast
      ring
  · intro r hr1 hr2
    have hlt : r - 1 < s.horizontalBorders.length := by omega
    have key := layoutTable_horizontal_sy blc
      { s with
        verticalBorders := forCounter
          (layoutVerticalBorder g.tablePadding g.cellSpacing
            ((ct.width - 2 * g.tablePadding - ((g.cols : ℚ) - 1) * g.cellSpacing) / (g.cols : ℚ))
            ct.width ct.height) (g.cols - 1) s.verticalBorders,
        horizontalBorders := forCounter
          (layoutHorizontalBorder g.tablePadding g.cellSpacing
            ((ct.height - 2 * g.tablePadding - ((g.rows : ℚ) - 1) * g.cellSpacing) / (g.rows : ℚ))
            ct.width ct.height) (g.rows - 1) s.horizontalBorders } (r - 1)
    have fc : (forCounter
          (layoutHorizontalBorder g.tablePadding g.cellSpacing
            ((ct.height - 2 * g.tablePadding - ((g.rows : ℚ) - 1) * g.cellSpacing) / (g.rows : ℚ))
            ct.width ct.height) (g.rows - 1) s.horizontalBorders)[r - 1]?
        = some (layoutHorizontalBorder g.tablePadding g.cellSpacing
            ((ct.height - 2 * g.tablePadding - ((g.rows : ℚ) - 1) * g.cellSpacing) / (g.rows : ℚ))
            ct.width ct.height (((r - 1 : Nat) : Int) + 1) (s.horizontalBorders[r - 1])) := by
      rw [← hh, forCounter_getElem?, if_pos hlt, List.getElem?_eq_getElem hlt]
      rfl
    simp only [fc, Option.map_some'] at key
    cases hb : (layoutTable blc _).horizontalBorders[r - 1]? with
    | none => rw [hb] at key; cases key
    | some b =>
      rw [hb] at key
      simp only [Option.map_some', Option.some.injEq] at key
      refine ⟨b, rfl, ?_⟩
      rw [key]
      have e : (((r - 1 : Nat) : Int) + 1 : Int) = (r : Int) := by omega
      simp only [layoutHorizontalBorder, e]
      push_cast
      ring

theorem qRound_small (d : ℚ) (h0 : 0 ≤ d) (h1 : d < 1 / 2) : qRound d = 0 := by
  have hf : ⌊d + 1 / 2⌋ = 0 := by
    rw [Int.floor_eq_zero_iff]
    constructor
    · linarith
    · linarith
  simp only [qRound, h0, if_true, hf]
  decide

/-- Under a guard that fails on the rounded container size, `initializeTableLayout`
returns at once. -/
theorem initializeTableLayout_small (blc : BorderLayoutCells) (s : TableGroupItem)
    (g : TableGroup) (ct : Container) (hg : s.tableGroup = some g)
    (hct : s.container = some ct) (h0 : 0 ≤ ct.width) (h1 : ct.width < 1 / 2) :
    initializeTableLayout blc s = s := by
  unfold initializeTableLayout
  simp only [hg, hct, qRound_small _ h0 h1, le_refl, true_or, if_true]

theorem grid1x2_border :
    grid1x2.verticalBorders = [{ TableBorder.fresh 2 with
      prevCells := [some 0], nextCells := [some 1] }] := by
  decide

/-- C8 (counterexample): on the 1 x 2 grid that `initialize` builds (spacing 0, padding 0)
in a 128 x 128 container, the full layout pass stores the offset `125/256` in the vertical
border, not `x/W = 64/128`; in a 1/4 x 1/4 container the pass returns at its first guard
and the offset stays `0`, not `x/W = (1/8)/(1/4)`. -/
theorem initializeTableLayout_offset_counterexample :
    (∃ b, (initializeTableLayout keepCells grid1x2).verticalBorders[0]? = some b ∧
      b.sx = 125 / 256 ∧
      b.sx ≠ (0 + ((1 : ℚ) - 1) * 0 + 1 * ((128 - 2 * 0 - ((2 : ℚ) - 1) * 0) / 2) + 0 / 2) / 128) ∧
    (∃ b, (initializeTableLayout keepCells
        { grid1x2 with container := some { width := 1 / 4, height := 1 / 4 } }).verticalBorders[0]?
          = some b ∧
      b.sx = 0 ∧
      b.sx ≠ (0 + ((1 : ℚ) - 1) * 0 + 1 * ((1 / 4 - 2 * 0 - ((2 : ℚ) - 1) * 0) / 2) + 0 / 2)
        / (1 / 4)) := by
  constructor
  · have e := initializeTableLayout_eq keepCells grid1x2
      { rows := 1, cols := 2, cellSpacing := 0, tablePadding := 0 }
      { width := 128, height := 128 } rfl rfl (by norm_num) (by norm_num) (by norm_num) (by norm_num)
      (by decide)
      (by decide) (le_refl _) (le_refl _) (by norm_num) (by norm_num) (by decide) (by decide)
    have key := layoutTable_vertical_sx keepCells
      { grid1x2 with
        verticalBorders := forCounter
          (layoutVerticalBorder 0 0 ((128 - 2 * 0 - (((2 : Int) : ℚ) - 1) * 0) / ((2 : Int) : ℚ))
            128 128) ((2 : Int) - 1) grid1x2.verticalBorders,
        horizontalBorders := forCounter
          (layoutHorizontalBorder 0 0 ((128 - 2 * 0 - (((1 : Int) : ℚ) - 1) * 0) / ((1 : Int) : ℚ))
            128 128) ((1 : Int) - 1) grid1x2.horizontalBorders } 0
    rw [← e] at key
    have e1 : ((2 : Int) - 1) = ((1 : Nat) : Int) := by decide
    simp only [e1, forCounter_getElem?, grid1x2_border] at key
    cases hb : (initializeTableLayout keepCells grid1x2).verticalBorders[0]? with
    | none => rw [hb] at key; simp at key
    | some b =>
      rw [hb] at key
      simp [layoutVerticalBorder] at key
      refine ⟨b, rfl, ?_⟩
      rw [key]
      norm_num
  · rw [initializeTableLayout_small keepCells _
      { rows := 1, cols := 2, cellSpacing := 0, tablePadding := 0 }
      { width := 1 / 4, height := 1 / 4 } rfl rfl (by norm_num) (by norm_num)]
    simp only [grid1x2_border]
    refine ⟨_, rfl, ?_⟩
    simp [TableBorder.fresh]

theorem initializeTableLayout_offsets_witness :
    (1 : ℚ) / 2 ≤ 128 ∧ (128 : ℚ) < 2147483647 + 1 / 2 ∧
    grid1x2.verticalBorders.length = 1 ∧
    ∃ b, (initializeTableLayout keepCells grid1x2).verticalBorders[1 - 1]? = some b ∧
      b.sx = (0 + (((1 : Nat) : ℚ) - 1) * 0
          + ((1 : Nat) : ℚ) * ((128 - 2 * 0 - (((2 : Int) : ℚ) - 1) * 0) / ((2 : Int) : ℚ))
          + 0 / 2 - 3 / 2) / 128 :=
  ⟨by norm_num, by norm_num, by decide,
    (initializeTableLayout_offsets keepCells grid1x2
      { rows := 1, cols := 2, cellSpacing := 0, tablePadding := 0 }
      { width := 128, height := 128 } rfl rfl (by norm_num) (by norm_num) (by norm_num) (by norm_num)
      (by decide)
      (by decide) (le_refl _) (le_refl _) (by norm_num) (by norm_num) (by decide)
      (by decide)).1 1 (le_refl _) (by decide)⟩

/-! ## The resize pass -/

/-- Past its guards, `layoutTable` projects every border and lays the cells out. -/
theorem layoutTable_eq (blc : BorderLayoutCells) (s : TableGroupItem) (ct : Container)
    (hen : s.enabled = true) (hct : s.container = some ct)
    (hW : 0 < ct.width) (hH : 0 < ct.height) :
    layoutTable blc s = layoutCells blc
      { s with
        verticalBorders := s.verticalBorders.map (fun verticalBorder =>
          { verticalBorder with
            x := verticalBorder.sx * ct.width, y := 0, height := ct.height }),
        horizontalBorders := s.horizontalBorders.map (fun horizontalBorder =>
          { horizontalBorder with
            x := 0, y := horizontalBorder.sy * ct.height, width := ct.width }) } := by
  have g : ¬ ((ct.width ≤ 0 ∨ ct.height ≤ 0) ∨ (ct.width = 0 ∧ ct.height = 0)) := by
    intro h
    rcases h with (h | h) | ⟨h, -⟩
    · exact absurd hW (not_lt.2 h)
    · exact absurd hH (not_lt.2 h)
    · rw [h] at hW; exact lt_irrefl _ hW
  unfold layoutTable
  simp only [hen, hct, g, if_false, Bool.true_eq_false]

/-- C9: with the item enabled and a container of size `W > 0`, `H > 0`, after
`layoutTable` every vertical border has `x = sx*W`, `y = 0`, `height = H`, every horizontal
border has `y = sy*H`, `x = 0`, `width = W`, and the borders are the same ones with the
same normalized offsets `sx`, `sy` as before the pass. -/
theorem layoutTable_projects_borders (blc : BorderLayoutCells) (s : TableGroupItem)
    (ct : Container) (hen : s.enabled = true) (hct : s.container = some ct)
    (hW : 0 < ct.width) (hH : 0 < ct.height) :
    (∀ b ∈ (layoutTable blc s).verticalBorders,
      b.x = b.sx * ct.width ∧ b.y = 0 ∧ b.height = ct.height) ∧
    (∀ b ∈ (layoutTable blc s).horizontalBorders,
      b.y = b.sy * ct.height ∧ b.x = 0 ∧ b.width = ct.width) ∧
    (layoutTable blc s).verticalBorders.map (fun b => (b.id, b.sx, b.sy))
      = s.verticalBorders.map (fun b => (b.id, b.sx, b.sy)) ∧
    (layoutTable blc s).horizontalBorders.map (fun b => (b.id, b.sx, b.sy))
      = s.horizontalBorders.map (fun b => (b.id, b.sx, b.sy)) := by
  rw [layoutTable_eq blc s ct hen hct hW hH, layoutCells_verticalBorders,
    layoutCells_horizontalBorders]
  refine ⟨?_, ?_, ?_, ?_⟩
  · intro b hb
    simp only [List.mem_map] at hb
    obtain ⟨a, -, rfl⟩ := hb
    exact ⟨rfl, rfl, rfl⟩
  · intro b hb
    simp only [List.mem_map] at hb
    obtain ⟨a, -, rfl⟩ := hb
    exact ⟨rfl, rfl, rfl⟩
  · simp only [List.map_map]; rfl
  · simp only [List.map_map]; rfl

end qan
namespace qan

theorem layoutTable_projects_borders_witness :
    grid1x2.enabled = true ∧ (0 : ℚ) < 128 ∧
    ∀ b ∈ (layoutTable keepCells grid1x2).verticalBorders,
      b.x = b.sx * 128 ∧ b.y = 0 ∧ b.height = 128 :=
  ⟨rfl, by norm_num,
    (layoutTable_projects_borders keepCells grid1x2 { width := 128, height := 128 } rfl rfl
      (by norm_num) (by norm_num)).1⟩

/-! ## Idempotence of the resize pass -/

theorem EdgeAssign.apply_apply (a b : EdgeAssign) (c : TableCell) :
    b.apply (a.apply c) = (a.andThen b).apply c := by
  obtain ⟨al, ar, at', ab⟩ := a
  obtain ⟨bl, br, bt, bb⟩ := b
  cases bl <;> cases br <;> cases bt <;> cases bb <;>
    simp [EdgeAssign.apply, EdgeAssign.andThen]

theorem IsAssign.id : IsAssign (fun h => h) := by
  refine ⟨fun _ => ⟨none, none, none, none⟩, ?_⟩
  intro h p
  simp [EdgeAssign.apply]

theorem IsAssign.comp {F G : (Nat → TableCell) → (Nat → TableCell)} (hF : IsAssign F)
    (hG : IsAssign G) : IsAssign (fun h => G (F h)) := by
  obtain ⟨A, hA⟩ := hF
  obtain ⟨B, hB⟩ := hG
  refine ⟨fun p => (A p).andThen (B p), ?_⟩
  intro h p
  show G (F h) p = _
  rw [hB, hA, EdgeAssign.apply_apply]

theorem IsAssign.update (a : EdgeAssign) (p : Nat) :
    IsAssign (fun h => Function.update h p (a.apply (h p))) := by
  refine ⟨fun q => if q = p then a else ⟨none, none, none, none⟩, ?_⟩
  intro h q
  by_cases hq : q = p
  · subst hq; simp
  · simp [hq, EdgeAssign.apply]

theorem IsAssign.forEachCell (a : EdgeAssign) (cells : List (Option Nat)) :
    IsAssign (forEachCell a.apply cells) := by
  induction cells with
  | nil => exact IsAssign.id
  | cons c cs ih =>
    cases c with
    | none => exact ih
    | some p =>
      show IsAssign (fun h => qan.forEachCell a.apply cs (Function.update h p (a.apply (h p))))
      exact IsAssign.comp (IsAssign.update a p) ih

theorem setLeft_eq (e : ℚ) : TableCell.setLeft e = (⟨some e, none, none, none⟩ : EdgeAssign).apply := by
  funext c; simp [TableCell.setLeft, EdgeAssign.apply]

theorem setRight_eq (e : ℚ) : TableCell.setRight e = (⟨none, some e, none, none⟩ : EdgeAssign).apply := by
  funext c; simp [TableCell.setRight, EdgeAssign.apply]

theorem setTop_eq (e : ℚ) : TableCell.setTop e = (⟨none, none, some e, none⟩ : EdgeAssign).apply := by
  funext c; simp [TableCell.setTop, EdgeAssign.apply]

theorem setBottom_eq (e : ℚ) : TableCell.setBottom e = (⟨none, none, none, some e⟩ : EdgeAssign).apply := by
  funext c; simp [TableCell.setBottom, EdgeAssign.apply]

theorem setXWidth_eq (p w : ℚ) :
    (fun cell : TableCell => { cell with x := p, width := w })
      = (⟨some p, some (p + w), none, none⟩ : EdgeAssign).apply := by
  funext c; simp [EdgeAssign.apply]

theorem setHeightY_eq (p w : ℚ) :
    (fun cell : TableCell => { cell with height := w, y := p })
      = (⟨none, none, some p, some (p + w)⟩ : EdgeAssign).apply := by
  funext c; simp [EdgeAssign.apply]

theorem IsAssign.borderCellsPass (outer : Option (ℚ × ℚ × ℚ × ℚ)) (b : TableBorder) :
    IsAssign (borderCellsPass outer b) := by
  unfold qan.borderCellsPass
  cases b.orientation <;> cases b.prevBorder <;> cases b.nextBorder <;> cases outer <;>
    simp only [setLeft_eq, setRight_eq, setTop_eq, setBottom_eq] <;>
    first
    | exact IsAssign.comp (IsAssign.comp (IsAssign.comp (IsAssign.forEachCell _ _)
        (IsAssign.forEachCell _ _)) (IsAssign.forEachCell _ _)) (IsAssign.forEachCell _ _)
    | exact IsAssign.comp (IsAssign.comp (IsAssign.forEachCell _ _)
        (IsAssign.forEachCell _ _)) (IsAssign.forEachCell _ _)
    | exact IsAssign.comp (IsAssign.forEachCell _ _) (IsAssign.forEachCell _ _)

theorem IsAssign.borders (outer : Option (ℚ × ℚ × ℚ × ℚ)) (l : List TableBorder) :
    IsAssign (fun h => l.foldl (fun h b => qan.borderCellsPass outer b h) h) := by
  induction l with
  | nil => exact IsAssign.id
  | cons b bs ih => exact IsAssign.comp (IsAssign.borderCellsPass outer b) ih

theorem IsAssign.cellPass (s : TableGroupItem) : IsAssign (cellPass s) := by
  have h2 : IsAssign (fun objs =>
      s.horizontalBorders.foldl (fun h b => qan.borderCellsPass (outerBounds s) b h)
        (s.verticalBorders.foldl (fun h b => qan.borderCellsPass (outerBounds s) b h) objs)) :=
    IsAssign.comp (IsAssign.borders _ _) (IsAssign.borders _ _)
  unfold qan.cellPass
  cases s.container with
  | none => exact h2
  | some ct =>
    cases s.tableGroup with
    | none => exact h2
    | some g =>
      simp only [setXWidth_eq, setHeightY_eq]
      by_cases hc : g.cols = 1
      · by_cases hr : g.rows = 1
        · simp only [hc, hr, if_true]
          exact IsAssign.comp (IsAssign.comp h2 (IsAssign.forEachCell _ _))
            (IsAssign.forEachCell _ _)
        · simp only [hc, hr, if_true, if_false]
          exact IsAssign.comp h2 (IsAssign.forEachCell _ _)
      · by_cases hr : g.rows = 1
        · simp only [hc, hr, if_true, if_false]
          exact IsAssign.comp h2 (IsAssign.forEachCell _ _)
        · simp only [hc, hr, if_false]
          exact h2

theorem bordersLayoutCells_model (l : List TableBorder) :
    ∀ s : TableGroupItem, bordersLayoutCells borderLayoutCells l s
      = { s with
          cellObj := l.foldl (fun h b => borderCellsPass (outerBounds s) b h) s.cellObj } := by
  induction l with
  | nil => intro s; rfl
  | cons b bs ih =>
    intro s
    have h := ih { s with cellObj := borderLayoutCells s b }
    simp only [bordersLayoutCells, List.foldl_cons] at h ⊢
    rw [h]
    rfl

theorem layoutCells_model (s : TableGroupItem) :
    layoutCells borderLayoutCells s = { s with cellObj := cellPass s s.cellObj } := by
  have ob : ∀ h : Nat → TableCell,
      outerBounds { s with cellObj := h } = outerBounds s := fun _ => rfl
  unfold layoutCells cellPass
  simp only [bordersLayoutCells_model, ob]
  cases hc : s.container with
  | none => rfl
  | some ct =>
    cases hg : s.tableGroup with
    | none => rfl
    | some g =>
      simp only []
      split <;> split <;> rfl

theorem layoutTable_model (s : TableGroupItem) (ct : Container)
    (hen : s.enabled = true) (hct : s.container = some ct)
    (hW : 0 < ct.width) (hH : 0 < ct.height) :
    layoutTable borderLayoutCells s
      = { projectBorders ct s with cellObj := cellPass (projectBorders ct s) s.cellObj } := by
  rw [layoutTable_eq borderLayoutCells s ct hen hct hW hH, layoutCells_model]
  rfl

end qan
namespace qan

/-- Whatever `TableBorder::layoutCells` does to the cells, a second run of `layoutTable`
leaves the borders as the first run left them. -/
theorem layoutTable_borders_idempotent (blc : BorderLayoutCells) (s : TableGroupItem) :
    (layoutTable blc (layoutTable blc s)).verticalBorders
      = (layoutTable blc s).verticalBorders ∧
    (layoutTable blc (layoutTable blc s)).horizontalBorders
      = (layoutTable blc s).horizontalBorders := by
  by_cases hen : s.enabled = true
  swap
  · have e : layoutTable blc s = s := by
      have hen' : s.enabled = false := by simpa using hen
      simp [layoutTable, hen']
    rw [e, e]; exact ⟨rfl, rfl⟩
  cases hct : s.container with
  | none =>
    have e : layoutTable blc s = s := by
      simp [layoutTable, hct]
    rw [e, e]; exact ⟨rfl, rfl⟩
  | some ct =>
    by_cases hsz : 0 < ct.width ∧ 0 < ct.height
    swap
    · have e : layoutTable blc s = s := by
        have g : (ct.width ≤ 0 ∨ ct.height ≤ 0) ∨ (ct.width = 0 ∧ ct.height = 0) := by
          left
          by_contra hcon
          rw [not_or, not_le, not_le] at hcon
          exact hsz hcon
        simp only [layoutTable, hct, g, if_true]
        simp
      rw [e, e]; exact ⟨rfl, rfl⟩
    obtain ⟨hW, hH⟩ := hsz
    have e1 := layoutTable_eq blc s ct hen hct hW hH
    have hen2 : (layoutTable blc s).enabled = true := by
      rw [e1, layoutCells_eq]; exact hen
    have hct2 : (layoutTable blc s).container = some ct := by
      rw [e1, layoutCells_eq]; exact hct
    rw [layoutTable_eq blc (layoutTable blc s) ct hen2 hct2 hW hH,
      layoutCells_verticalBorders, layoutCells_horizontalBorders]
    simp only [e1, layoutCells_verticalBorders, layoutCells_horizontalBorders, List.map_map]
    constructor <;> rfl

/-! ## Guards -/

/-- C15: for every state, `initialize` is a no-op whenever `rows <= 0` or `cols <= 0`, and
whenever the QML engine is unavailable: the state, and with it the cell sequence and both
border sequences, is what it was before the call (the prior layout is not cleared). -/
theorem initialize_noop (rows cols : Int) (s : TableGroupItem)
    (h : rows ≤ 0 ∨ cols ≤ 0 ∨ s.hasEngine = false) :
    initializeGrid cols rows s = s ∧
    (initializeGrid cols rows s).cells = s.cells ∧
    (initializeGrid cols rows s).verticalBorders = s.verticalBorders ∧
    (initializeGrid cols rows s).horizontalBorders = s.horizontalBorders := by
  have e : initializeGrid cols rows s = s := by
    unfold initializeGrid
    rcases h with h | h | h
    · simp [h]
    · simp [h]
    · simp [h]
  rw [e]
  exact ⟨rfl, rfl, rfl, rfl⟩

theorem initialize_noop_witness :
    ((0 : Int) ≤ 0 ∨ (2 : Int) ≤ 0 ∨ grid2x2.hasEngine = false) ∧
    (initializeGrid 2 0 grid2x2).cells = grid2x2.cells ∧
    grid2x2.cells.length = 4 :=
  ⟨Or.inl (le_refl _), (initialize_noop 0 2 grid2x2 (Or.inl (le_refl _))).2.1, by decide⟩

/-- C16: `insertColumn` is a no-op (the state is unchanged: rows, cols, both border
sequences and the cell sequence) whenever no container is configured, there is no owning
table group, or there is no vertical border; `insertRow` likewise with the horizontal
borders.  In particular `insertColumn` changes nothing on a grid with exactly one column
and `insertRow` changes nothing on a grid with exactly one row. -/
theorem insert_noop (blc : BorderLayoutCells) (s : TableGroupItem) :
    (s.container = none ∨ s.tableGroup = none ∨ s.verticalBorders = [] →
      insertColumn blc s = s) ∧
    (s.container = none ∨ s.tableGroup = none ∨ s.horizontalBorders = [] →
      insertRow blc s = s) ∧
    (∀ g, HasShape s g → g.cols = 1 → insertColumn blc s = s) ∧
    (∀ g, HasShape s g → g.rows = 1 → insertRow blc s = s) := by
  have hc : s.container = none ∨ s.tableGroup = none ∨ s.verticalBorders = [] →
      insertColumn blc s = s := by
    intro h
    unfold insertColumn
    rcases h with h | h | h
    · simp [h]
    · cases s.container <;> simp [h]
    · cases s.container <;> cases s.tableGroup <;> simp [h]
  have hr : s.container = none ∨ s.tableGroup = none ∨ s.horizontalBorders = [] →
      insertRow blc s = s := by
    intro h
    unfold insertRow
    rcases h with h | h | h
    · simp [h]
    · cases s.container <;> simp [h]
    · cases s.container <;> cases s.tableGroup <;> simp [h]
  refine ⟨hc, hr, ?_, ?_⟩
  · intro g hs hcols
    obtain ⟨-, -, hv, -⟩ := hs
    apply hc
    right; right
    rw [hcols] at hv
    exact List.length_eq_zero.1 (by omega)
  · intro g hs hrows
    obtain ⟨-, -, -, hh⟩ := hs
    apply hr
    right; right
    rw [hrows] at hh
    exact List.length_eq_zero.1 (by omega)

theorem grid1x1_hasShape :
    HasShape grid1x1 { rows := 1, cols := 1, cellSpacing := 0, tablePadding := 0 } :=
  ⟨rfl, by decide, by decide, by decide⟩

theorem insert_noop_witness :
    HasShape grid1x1 { rows := 1, cols := 1, cellSpacing := 0, tablePadding := 0 } ∧
    insertColumn keepCells grid1x1 = grid1x1 ∧ insertRow keepCells grid1x1 = grid1x1 :=
  ⟨grid1x1_hasShape,
    (insert_noop keepCells grid1x1).2.2.1 _ grid1x1_hasShape rfl,
    (insert_noop keepCells grid1x1).2.2.2 _ grid1x1_hasShape rfl⟩

theorem qRound_nonpos (d : ℚ) (h : d ≤ 0) : qRound d ≤ 0 := by
  have hr : (if 0 ≤ d then ⌊d + 1 / 2⌋ else ⌈d - 1 / 2⌉) ≤ 0 := by
    split
    · have h0 : d = 0 := le_antisymm h (by assumption)
      subst h0
      have : ⌊(0 : ℚ) + 1 / 2⌋ = 0 := by
        rw [Int.floor_eq_zero_iff]; constructor <;> norm_num
      omega
    · rw [Int.ceil_le]
      push_cast
      linarith
  have e : qRound d
      = if -2147483648 ≤ (if 0 ≤ d then ⌊d + 1 / 2⌋ else ⌈d - 1 / 2⌉) ∧
          (if 0 ≤ d then ⌊d + 1 / 2⌋ else ⌈d - 1 / 2⌉) ≤ 2147483647
        then (if 0 ≤ d then ⌊d + 1 / 2⌋ else ⌈d - 1 / 2⌉) else -2147483648 := rfl
  rw [e]
  generalize (if 0 ≤ d then ⌊d + 1 / 2⌋ else ⌈d - 1 / 2⌉) = r at hr
  split
  · exact hr
  · decide

/-- Beyond the range of `int` the rounded size is not positive. -/
theorem qRound_huge (d : ℚ) (h : 2147483647 + 1 / 2 ≤ d) : qRound d ≤ 0 := by
  have h0 : (0 : ℚ) ≤ d := le_trans (by norm_num) h
  have h1 : (2147483648 : Int) ≤ ⌊d + 1 / 2⌋ := by
    rw [Int.le_floor]; push_cast; linarith
  have h3 : ¬ (-2147483648 ≤ ⌊d + 1 / 2⌋ ∧ ⌊d + 1 / 2⌋ ≤ 2147483647) := by omega
  simp only [qRound, h0, if_true, h3, if_false]
  decide

/-- Beyond the range of `int` the guard on the rounded container size fires:
`initializeTableLayout` returns at once. -/
theorem initializeTableLayout_huge (blc : BorderLayoutCells) (s : TableGroupItem)
    (g : TableGroup) (ct : Container) (hg : s.tableGroup = some g)
    (hct : s.container = some ct)
    (h : 2147483647 + 1 / 2 ≤ ct.width ∨ 2147483647 + 1 / 2 ≤ ct.height) :
    initializeTableLayout blc s = s := by
  have g1 : qRound ct.width ≤ 0 ∨ qRound ct.height ≤ 0 := by
    rcases h with h | h
    · exact Or.inl (qRound_huge _ h)
    · exact Or.inr (qRound_huge _ h)
  unfold initializeTableLayout
  simp only [hg, hct, g1, if_true]

/-- C17: `initializeTableLayout` is a no-op (the state is unchanged: no border offset,
position or size and no cell geometry changes) whenever `W <= 0`, `H <= 0`, `rows <= 0`,
`cols <= 0`, `spacing < 0`, `padding < 0`, or a derived cell dimension
`(W - 2*padding - (cols-1)*spacing)/cols` or `(H - 2*padding - (rows-1)*spacing)/rows` is
negative; so it is when there is no owning table group or no container. -/
theorem initializeTableLayout_noop (blc : BorderLayoutCells) (s : TableGroupItem) :
    (s.tableGroup = none ∨ s.container = none → initializeTableLayout blc s = s) ∧
    (∀ g ct, s.tableGroup = some g → s.container = some ct →
      (ct.width ≤ 0 ∨ ct.height ≤ 0 ∨ g.rows ≤ 0 ∨ g.cols ≤ 0 ∨
        g.cellSpacing < 0 ∨ g.tablePadding < 0 ∨
        (ct.width - 2 * g.tablePadding - ((g.cols : ℚ) - 1) * g.cellSpacing) / (g.cols : ℚ) < 0 ∨
        (ct.height - 2 * g.tablePadding - ((g.rows : ℚ) - 1) * g.cellSpacing) / (g.rows : ℚ) < 0) →
      initializeTableLayout blc s = s) := by
  constructor
  · intro h
    unfold initializeTableLayout
    rcases h with h | h
    · simp [h]
    · cases s.tableGroup <;> simp [h]
  · intro g ct hg hct h
    unfold initializeTableLayout
    simp only [hg, hct]
    by_cases g1 : qRound ct.width ≤ 0 ∨ qRound ct.height ≤ 0
    · simp only [g1, if_true]
    by_cases g2 : g.cols ≤ 0 ∨ g.rows ≤ 0
    · simp only [g1, g2, if_true, if_false]
    by_cases g3 : g.cellSpacing < 0 ∨ g.tablePadding < 0
    · simp only [g1, g2, g3, if_true, if_false]
    rw [not_or] at g1 g2 g3
    have hW : ct.width > 0 := by
      by_contra hcon
      exact g1.1 (qRound_nonpos _ (not_lt.1 hcon))
    have hH : ct.height > 0 := by
      by_contra hcon
      exact g1.2 (qRound_nonpos _ (not_lt.1 hcon))
    have g4 : (ct.width - 2 * g.tablePadding - ((g.cols : ℚ) - 1) * g.cellSpacing) / (g.cols : ℚ) < 0 ∨
        (ct.height - 2 * g.tablePadding - ((g.rows : ℚ) - 1) * g.cellSpacing) / (g.rows : ℚ) < 0 := by
      rcases h with h | h | h | h | h | h | h | h
      · exact absurd hW (not_lt.2 h)
      · exact absurd hH (not_lt.2 h)
      · exact absurd h g2.2
      · exact absurd h g2.1
      · exact absurd h g3.1
      · exact absurd h g3.2
      · exact Or.inl h
      · exact Or.inr h
    simp only [hW, hH, if_true, g4]
    simp

/-- C18: `layoutTable` is a no-op (the state is unchanged: no border or cell geometry
changes) whenever the item is disabled, whenever no container is configured, and whenever
the width or the height of the container is zero or negative. -/
theorem layoutTable_noop (blc : BorderLayoutCells) (s : TableGroupItem)
    (h : s.enabled = false ∨ s.container = none ∨
      ∃ ct, s.container = some ct ∧ (ct.width ≤ 0 ∨ ct.height ≤ 0)) :
    layoutTable blc s = s := by
  unfold layoutTable
  rcases h with h | h | ⟨ct, hct, h⟩
  · simp [h]
  · split
    · rfl
    · simp [h]
  · split
    · rfl
    · simp only [hct, h, true_or, if_true]

theorem initializeTableLayout_noop_witness :
    ((0 : ℚ) ≤ 0) ∧
    initializeTableLayout keepCells
        { grid1x2 with container := some { width := 0, height := 128 } }
      = { grid1x2 with container := some { width := 0, height := 128 } } :=
  ⟨le_refl _,
    (initializeTableLayout_noop keepCells
      { grid1x2 with container := some { width := 0, height := 128 } }).2
      { rows := 1, cols := 2, cellSpacing := 0, tablePadding := 0 }
      { width := 0, height := 128 } rfl rfl (Or.inl (le_refl _))⟩

theorem layoutTable_noop_witness :
    ({ grid1x2 with enabled := false } : TableGroupItem).enabled = false ∧
    layoutTable keepCells { grid1x2 with enabled := false }
      = { grid1x2 with enabled := false } :=
  ⟨rfl, layoutTable_noop keepCells { grid1x2 with enabled := false } (Or.inl rfl)⟩

/-! ## Tables with one column or one row -/

theorem forEachCell_pres (P : TableCell → Prop) (body : TableCell → TableCell)
    (hb : ∀ c, P c → P (body c)) (p : Nat) (cells : List (Option Nat)) :
    ∀ h : Nat → TableCell, P (h p) → P (forEachCell body cells h p) := by
  induction cells with
  | nil => intro h hp; exact hp
  | cons c cs ih =>
    intro h hp
    cases c with
    | none => exact ih h hp
    | some q =>
      show P (forEachCell body cs (Function.update h q (body (h q))) p)
      apply ih
      by_cases hq : p = q
      · subst hq; simp only [Function.update_same]; exact hb _ hp
      · simp only [Function.update_noteq hq]; exact hp

theorem forEachCell_mem (P : TableCell → Prop) (body : TableCell → TableCell)
    (hb : ∀ c, P (body c)) (p : Nat) (cells : List (Option Nat)) :
    ∀ h : Nat → TableCell, some p ∈ cells → P (forEachCell body cells h p) := by
  induction cells with
  | nil => intro h hm; cases hm
  | cons c cs ih =>
    intro h hm
    cases c with
    | none =>
      rcases List.mem_cons.1 hm with hm | hm
      · cases hm
      · exact ih h hm
    | some q =>
      show P (forEachCell body cs (Function.update h q (body (h q))) p)
      by_cases hq : p = q
      · subst hq
        apply forEachCell_pres P body (fun c _ => hb c)
        simp only [Function.update_same]
        exact hb _
      · rcases List.mem_cons.1 hm with hm | hm
        · exact absurd (Option.some.inj hm) hq
        · exact ih _ hm

theorem bordersLayoutCells_frame (blc : BorderLayoutCells) (l : List TableBorder)
    (s : TableGroupItem) :
    (bordersLayoutCells blc l s).cells = s.cells ∧
    (bordersLayoutCells blc l s).container = s.container ∧
    (bordersLayoutCells blc l s).tableGroup = s.tableGroup ∧
    (bordersLayoutCells blc l s).horizontalBorders = s.horizontalBorders := by
  rw [bordersLayoutCells_eq]
  exact ⟨rfl, rfl, rfl, rfl⟩

/-- The cell objects after `layoutCells`, when there are a container and an owning table
group: the borders lay their cells out, then the cells of a table with one column and of
a table with one row are sized from the container. -/
theorem layoutCells_cellObj (blc : BorderLayoutCells) (s : TableGroupItem) (g : TableGroup)
    (ct : Container) (hg : s.tableGroup = some g) (hct : s.container = some ct) :
    ∃ h2 : Nat → TableCell,
      (layoutCells blc s).cellObj =
        (if g.rows = 1 then
          forEachCell (fun cell => { cell with height := ct.height - g.tablePadding * 2,
                                               y := g.tablePadding }) s.cells
        else fun h => h)
        ((if g.cols = 1 then
          forEachCell (fun cell => { cell with x := g.tablePadding,
                                               width := ct.width - g.tablePadding * 2 }) s.cells
        else fun h => h) h2) := by
  obtain ⟨a1, a2, a3, a4⟩ := bordersLayoutCells_frame blc s.verticalBorders s
  obtain ⟨b1, b2, b3, -⟩ := bordersLayoutCells_frame blc
    (bordersLayoutCells blc s.verticalBorders s).horizontalBorders
    (bordersLayoutCells blc s.verticalBorders s)
  refine ⟨(bordersLayoutCells blc (bordersLayoutCells blc s.verticalBorders s).horizontalBorders
    (bordersLayoutCells blc s.verticalBorders s)).cellObj, ?_⟩
  unfold layoutCells
  simp only [b2, a2, hct, b3, a3, hg, b1, a1]
  by_cases hc : g.cols = 1 <;> by_cases hr : g.rows = 1 <;> simp [hc, hr, b1, a1]

end qan
namespace qan

theorem layoutCells_oneColumn (blc : BorderLayoutCells) (s : TableGroupItem) (g : TableGroup)
    (ct : Container) (hg : s.tableGroup = some g) (hct : s.container = some ct)
    (hcols : g.cols = 1) (p : Nat) (hp : some p ∈ s.cells) :
    ((layoutCells blc s).cellObj p).x = g.tablePadding ∧
    ((layoutCells blc s).cellObj p).width = ct.width - 2 * g.tablePadding := by
  obtain ⟨h2, e⟩ := layoutCells_cellObj blc s g ct hg hct
  rw [e]
  simp only [hcols, if_true]
  have inner := forEachCell_mem
    (fun c => c.x = g.tablePadding ∧ c.width = ct.width - 2 * g.tablePadding)
    (fun cell => { cell with x := g.tablePadding, width := ct.width - g.tablePadding * 2 })
    (fun c => ⟨rfl, by ring⟩) p s.cells h2 hp
  by_cases hr : g.rows = 1
  · simp only [hr, if_true]
    exact forEachCell_pres
      (fun c => c.x = g.tablePadding ∧ c.width = ct.width - 2 * g.tablePadding)
      (fun cell => { cell with height := ct.height - g.tablePadding * 2, y := g.tablePadding })
      (fun c hc => hc) p s.cells _ inner
  · simp only [hr, if_false]
    exact inner

theorem layoutCells_oneRow (blc : BorderLayoutCells) (s : TableGroupItem) (g : TableGroup)
    (ct : Container) (hg : s.tableGroup = some g) (hct : s.container = some ct)
    (hrows : g.rows = 1) (p : Nat) (hp : some p ∈ s.cells) :
    ((layoutCells blc s).cellObj p).y = g.tablePadding ∧
    ((layoutCells blc s).cellObj p).height = ct.height - 2 * g.tablePadding := by
  obtain ⟨h2, e⟩ := layoutCells_cellObj blc s g ct hg hct
  rw [e]
  simp only [hrows, if_true]
  exact forEachCell_mem
    (fun c => c.y = g.tablePadding ∧ c.height = ct.height - 2 * g.tablePadding)
    (fun cell => { cell with height := ct.height - g.tablePadding * 2, y := g.tablePadding })
    (fun c => ⟨rfl, by ring⟩) p s.cells _ hp

/-- C11: with a container of size `W x H` and an owning table group, after `layoutCells`
every cell of a grid with exactly one column has `x = padding` and
`width = W - 2*padding`, and every cell of a grid with exactly one row has `y = padding`
and `height = H - 2*padding`.  An initialised 1 x 1 grid has no vertical and no horizontal
border and one cell, whose size after `layoutCells` is `(W - 2*padding, H - 2*padding)`. -/
theorem layoutCells_degenerate (blc : BorderLayoutCells) (s : TableGroupItem) (g : TableGroup)
    (ct : Container) (hg : s.tableGroup = some g) (hct : s.container = some ct) :
    (g.cols = 1 → ∀ p, some p ∈ s.cells →
      ((layoutCells blc s).cellObj p).x = g.tablePadding ∧
      ((layoutCells blc s).cellObj p).width = ct.width - 2 * g.tablePadding) ∧
    (g.rows = 1 → ∀ p, some p ∈ s.cells →
      ((layoutCells blc s).cellObj p).y = g.tablePadding ∧
      ((layoutCells blc s).cellObj p).height = ct.height - 2 * g.tablePadding) ∧
    (g.rows = 1 → g.cols = 1 → s.hasEngine = true → FactoryOk s →
      (initializeGrid 1 1 s).verticalBorders = [] ∧
      (initializeGrid 1 1 s).horizontalBorders = [] ∧
      (initializeGrid 1 1 s).cells = [some s.nextId] ∧
      ((layoutCells blc (initializeGrid 1 1 s)).cellObj s.nextId).width
        = ct.width - 2 * g.tablePadding ∧
      ((layoutCells blc (initializeGrid 1 1 s)).cellObj s.nextId).height
        = ct.height - 2 * g.tablePadding) := by
  refine ⟨fun hc p hp => layoutCells_oneColumn blc s g ct hg hct hc p hp,
    fun hr p hp => layoutCells_oneRow blc s g ct hg hct hr p hp, ?_⟩
  intro hr hc heng hok
  obtain ⟨t, e, t1, t2, t3, -, -, -, t7⟩ :=
    initialize_before_links 1 1 s (le_refl _) (le_refl _) heng hok
  have henv : SameEnv s (initializeGrid 1 1 s) := by
    rw [e]; exact t7.trans (initializeCellsLinks_sameEnv t)
  have hcells : (initializeGrid 1 1 s).cells = [some s.nextId] := by
    rw [e, initializeCellsLinks_cells, t1]
    have e1 : ((1 : Int) * 1).toNat = 1 := by decide
    simp [e1, List.range_succ]
  have hv : (initializeGrid 1 1 s).verticalBorders = [] := by
    apply List.length_eq_zero.1
    rw [e, initializeCellsLinks_vlength, t2]; decide
  have hh : (initializeGrid 1 1 s).horizontalBorders = [] := by
    apply List.length_eq_zero.1
    rw [e, initializeCellsLinks_hlength, t3]; decide
  have hg' : (initializeGrid 1 1 s).tableGroup = some g := by rw [henv.1, hg]
  have hct' : (initializeGrid 1 1 s).container = some ct := by rw [henv.2.1, hct]
  have hmem : some s.nextId ∈ (initializeGrid 1 1 s).cells := by rw [hcells]; simp
  exact ⟨hv, hh, hcells,
    (layoutCells_oneColumn blc _ g ct hg' hct' hc _ hmem).2,
    (layoutCells_oneRow blc _ g ct hg' hct' hr _ hmem).2⟩

theorem layoutCells_degenerate_witness :
    (blankItem 1 1).hasEngine = true ∧ FactoryOk (blankItem 1 1) ∧
    (initializeGrid 1 1 (blankItem 1 1)).verticalBorders = [] ∧
    (initializeGrid 1 1 (blankItem 1 1)).horizontalBorders = [] ∧
    (initializeGrid 1 1 (blankItem 1 1)).cells = [some 0] ∧
    ((layoutCells keepCells (initializeGrid 1 1 (blankItem 1 1))).cellObj 0).width
      = 128 - 2 * 0 ∧
    ((layoutCells keepCells (initializeGrid 1 1 (blankItem 1 1))).cellObj 0).height
      = 128 - 2 * 0 :=
  ⟨rfl, blankItem_factoryOk 1 1,
    (layoutCells_degenerate keepCells (blankItem 1 1)
      { rows := 1, cols := 1, cellSpacing := 0, tablePadding := 0 }
      { width := 128, height := 128 } rfl rfl).2.2 rfl rfl rfl (blankItem_factoryOk 1 1)⟩

/-! ## Grouping and ungrouping of nodes -/

theorem attachToCell_spec (n p : Nat) (s : TableGroupItem) :
    ((attachToCell n p s).cellObj p).item = some n ∧
    (attachToCell n p s).nodeCell n = some p ∧
    (∀ q, q ≠ p → (attachToCell n p s).cellObj q = s.cellObj q) ∧
    (∀ m, m ≠ n → (attachToCell n p s).nodeCell m = s.nodeCell m) := by
  refine ⟨by simp [attachToCell], by simp [attachToCell], ?_, ?_⟩
  · intro q hq; simp [attachToCell, Function.update_noteq hq]
  · intro m hm; simp [attachToCell, Function.update_noteq hm]

theorem dropOnCells_first (n : Nat) (pos : ℚ × ℚ) (s : TableGroupItem) :
    ∀ (cells : List (Option Nat)) (i p : Nat), cells[i]? = some (some p) →
      cellContains s p pos = true →
      (∀ j q : Nat, j < i → cells[j]? = some (some q) → cellContains s q pos = false) →
      dropOnCells n pos s cells = attachToCell n p s := by
  intro cells
  induction cells with
  | nil => intro i p h; simp at h
  | cons c cs ih =>
    intro i p hi hp hfirst
    cases i with
    | zero =>
      simp only [List.getElem?_cons_zero, Option.some.injEq] at hi
      subst hi
      simp [dropOnCells, hp]
    | succ i =>
      simp only [List.getElem?_cons_succ] at hi
      have rest := ih i p hi hp (fun j q hj hq => hfirst (j + 1) q (by omega) (by simpa using hq))
      cases c with
      | none => simpa [dropOnCells] using rest
      | some q =>
        have hq := hfirst 0 q (by omega) (by simp)
        simpa [dropOnCells, hq] using rest

theorem dropOnCells_none (n : Nat) (pos : ℚ × ℚ) (s : TableGroupItem) :
    ∀ cells : List (Option Nat), (∀ p, some p ∈ cells → cellContains s p pos = false) →
      dropOnCells n pos s cells = s := by
  intro cells
  induction cells with
  | nil => intro _; rfl
  | cons c cs ih =>
    intro h
    have rest := ih (fun p hp => h p (List.mem_cons_of_mem _ hp))
    cases c with
    | none => simpa [dropOnCells] using rest
    | some q =>
      have hq := h q (List.mem_cons_self _ _)
      simpa [dropOnCells, hq] using rest

/-- C12: `groupNodeItem` without target cell, with a container configured.  If the
rectangle of a cell contains the drop point of the node, the node is attached to the first
such cell of the cell sequence: the occupant of that cell becomes the node, the cell
reference of the node becomes that cell, and no other cell object (so no other occupant)
and no other node changes.  If the rectangle of no cell contains the point, the state is
unchanged: no occupant and no cell reference changes. -/
theorem groupNodeItem_hit_test (n : Nat) (transform : Bool) (s : TableGroupItem)
    (ct : Container) (hct : s.container = some ct) :
    (∀ i p, s.cells[i]? = some (some p) → cellContains s p (s.nodePos n) = true →
      (∀ j q : Nat, j < i → s.cells[j]? = some (some q) → cellContains s q (s.nodePos n) = false) →
      ((groupNodeItem (some n) none transform s).cellObj p).item = some n ∧
      (groupNodeItem (some n) none transform s).nodeCell n = some p ∧
      (∀ q, q ≠ p → (groupNodeItem (some n) none transform s).cellObj q = s.cellObj q) ∧
      (∀ m, m ≠ n → (groupNodeItem (some n) none transform s).nodeCell m = s.nodeCell m)) ∧
    ((∀ p, some p ∈ s.cells → cellContains s p (s.nodePos n) = false) →
      groupNodeItem (some n) none transform s = s) := by
  have e : groupNodeItem (some n) none transform s = dropOnCells n (s.nodePos n) s s.cells := by
    simp [groupNodeItem, hct]
  rw [e]
  constructor
  · intro i p hi hp hfirst
    rw [dropOnCells_first n _ s s.cells i p hi hp hfirst]
    exact attachToCell_spec n p s
  · intro h
    exact dropOnCells_none n _ s s.cells h

theorem laidGrid2x2_cells : laidGrid2x2.cells = [some 0, some 1, some 2, some 3] := by
  decide

theorem laidGrid2x2_hit : cellContains laidGrid2x2 0 (laidGrid2x2.nodePos 7) = true := by
  simp [cellContains, rectContains, laidGrid2x2]
  norm_num

theorem groupNodeItem_hit_test_witness :
    laidGrid2x2.cells[0]? = some (some 0) ∧
    cellContains laidGrid2x2 0 (laidGrid2x2.nodePos 7) = true ∧
    ((groupNodeItem (some 7) none false laidGrid2x2).cellObj 0).item = some 7 ∧
    (groupNodeItem (some 7) none false laidGrid2x2).nodeCell 7 = some 0 :=
  ⟨by decide, laidGrid2x2_hit,
    ((groupNodeItem_hit_test 7 false laidGrid2x2 { width := 128, height := 128 } rfl).1 0 0
      (by decide) laidGrid2x2_hit (fun j q hj _ => absurd hj (Nat.not_lt_zero j))).1,
    ((groupNodeItem_hit_test 7 false laidGrid2x2 { width := 128, height := 128 } rfl).1 0 0
      (by decide) laidGrid2x2_hit (fun j q hj _ => absurd hj (Nat.not_lt_zero j))).2.1⟩

/-- C13 (amended): `groupNodeItem` with an explicit target cell, when a container is
configured.  If the target cell is a member of the cell sequence, then afterwards the
occupant of the target is the node and the cell reference of the node is the target,
whatever the drop position of the node, and no other cell object and no other node
changes; if the target cell is not a member, the state is unchanged. -/
theorem groupNodeItem_target (n gc : Nat) (transform : Bool) (s : TableGroupItem)
    (ct : Container) (hct : s.container = some ct) :
    (some gc ∈ s.cells →
      ((groupNodeItem (some n) (some gc) transform s).cellObj gc).item = some n ∧
      (groupNodeItem (some n) (some gc) transform s).nodeCell n = some gc ∧
      (∀ q, q ≠ gc → (groupNodeItem (some n) (some gc) transform s).cellObj q = s.cellObj q) ∧
      (∀ m, m ≠ n → (groupNodeItem (some n) (some gc) transform s).nodeCell m = s.nodeCell m)) ∧
    (some gc ∉ s.cells → groupNodeItem (some n) (some gc) transform s = s) := by
  constructor
  · intro hm
    have e : groupNodeItem (some n) (some gc) transform s = attachToCell n gc s := by
      simp [groupNodeItem, hct, hm]
    rw [e]
    exact attachToCell_spec n gc s
  · intro hm
    simp [groupNodeItem, hct, hm]

/-- C13 (counterexample): on the 2 x 2 grid without a container, the target cell 0 is a
member of the cell sequence, yet after `groupNodeItem` for the node 7 the cell 0 has no
occupant and the node 7 records no cell. -/
theorem groupNodeItem_target_counterexample :
    some 0 ∈ ({ grid2x2 with container := none } : TableGroupItem).cells ∧
    ((groupNodeItem (some 7) (some 0) false
      { grid2x2 with container := none }).cellObj 0).item ≠ some 7 ∧
    (groupNodeItem (some 7) (some 0) false
      { grid2x2 with container := none }).nodeCell 7 ≠ some 0 := by
  decide

theorem groupNodeItem_target_witness :
    some 0 ∈ grid2x2.cells ∧
    ((groupNodeItem (some 7) (some 0) false grid2x2).cellObj 0).item = some 7 ∧
    (groupNodeItem (some 7) (some 0) false grid2x2).nodeCell 7 = some 0 :=
  ⟨by decide,
    ((groupNodeItem_target 7 0 false grid2x2 { width := 128, height := 128 } rfl).1
      (by decide)).1,
    ((groupNodeItem_target 7 0 false grid2x2 { width := 128, height := 128 } rfl).1
      (by decide)).2.1⟩

theorem dropOnCells_cases (n : Nat) (pos : ℚ × ℚ) (s : TableGroupItem) :
    ∀ cells : List (Option Nat),
      dropOnCells n pos s cells = s ∨ ∃ p, dropOnCells n pos s cells = attachToCell n p s := by
  intro cells
  induction cells with
  | nil => left; rfl
  | cons c cs ih =>
    cases c with
    | none => simpa [dropOnCells] using ih
    | some q =>
      by_cases hq : cellContains s q pos = true
      · right; exact ⟨q, by simp [dropOnCells, hq]⟩
      · simpa [dropOnCells, hq] using ih

theorem groupNodeItem_cases (n : Nat) (gc : Option Nat) (transform : Bool)
    (s : TableGroupItem) :
    groupNodeItem (some n) gc transform s = s ∨
    ∃ p, groupNodeItem (some n) gc transform s = attachToCell n p s := by
  unfold groupNodeItem
  cases s.container with
  | none => left; rfl
  | some ct =>
    cases gc with
    | none => exact dropOnCells_cases n _ s s.cells
    | some c =>
      by_cases hm : some c ∈ s.cells
      · right; exact ⟨c, by simp [hm]⟩
      · left; simp [hm]

theorem ungroupNodeItem_none (n : Nat) (transform : Bool) (s : TableGroupItem)
    (h : s.nodeCell n = none) : ungroupNodeItem (some n) transform s = s := by
  unfold ungroupNodeItem
  simp only [h]
  split <;> rfl

/-- C14: with the top-level canvas available, after `ungroupNodeItem` of a node whose
current cell exists the cell reference of the node is empty, that cell has no occupant, and
no other cell object (so no other occupant) and no other node changes; for a node with no
current cell the state is unchanged.  Consequently, with the canvas available, attaching
an ungrouped node to an empty cell and then detaching it gives back the cell objects and
the cell references that held before the attach. -/
theorem ungroupNodeItem_detaches (n : Nat) (transform : Bool) (s : TableGroupItem) :
    (∀ p, s.hasGraphContainer = true → s.nodeCell n = some p →
      (ungroupNodeItem (some n) transform s).nodeCell n = none ∧
      ((ungroupNodeItem (some n) transform s).cellObj p).item = none ∧
      (∀ q, q ≠ p → (ungroupNodeItem (some n) transform s).cellObj q = s.cellObj q) ∧
      (∀ m, m ≠ n → (ungroupNodeItem (some n) transform s).nodeCell m = s.nodeCell m)) ∧
    (s.nodeCell n = none → ungroupNodeItem (some n) transform s = s) ∧
    (∀ (gc : Option Nat) (tr : Bool), s.hasGraphContainer = true → s.nodeCell n = none →
      (∀ p, (groupNodeItem (some n) gc tr s).nodeCell n = some p → (s.cellObj p).item = none) →
      (ungroupNodeItem (some n) transform (groupNodeItem (some n) gc tr s)).cellObj = s.cellObj ∧
      (ungroupNodeItem (some n) transform (groupNodeItem (some n) gc tr s)).nodeCell
        = s.nodeCell) := by
  refine ⟨?_, ungroupNodeItem_none n transform s, ?_⟩
  · intro p hgc hp
    have e : ungroupNodeItem (some n) transform s =
        { s with
          cellObj := Function.update s.cellObj p { s.cellObj p with item := none },
          nodeCell := Function.update s.nodeCell n none } := by
      simp [ungroupNodeItem, hgc, hp]
    rw [e]
    refine ⟨by simp, by simp, ?_, ?_⟩
    · intro q hq; simp [Function.update_noteq hq]
    · intro m hm; simp [Function.update_noteq hm]
  · intro gc tr hgc hn hempty
    rcases groupNodeItem_cases n gc tr s with e | ⟨p, e⟩
    · rw [e, ungroupNodeItem_none n transform s hn]
      exact ⟨rfl, rfl⟩
    · have hp : (groupNodeItem (some n) gc tr s).nodeCell n = some p := by
        rw [e]; exact (attachToCell_spec n p s).2.1
      have hitem := hempty p hp
      rw [e]
      have e2 : ungroupNodeItem (some n) transform (attachToCell n p s) =
          { attachToCell n p s with
            cellObj := Function.update (attachToCell n p s).cellObj p
              { (attachToCell n p s).cellObj p with item := none },
            nodeCell := Function.update (attachToCell n p s).nodeCell n none } := by
        have h1 : (attachToCell n p s).hasGraphContainer = true := hgc
        have h2 : (attachToCell n p s).nodeCell n = some p := (attachToCell_spec n p s).2.1
        simp [ungroupNodeItem, h1, h2]
      rw [e2]
      constructor
      · funext q
        by_cases hq : q = p
        · subst hq
          simp only [attachToCell, Function.update_same]
          cases hc : s.cellObj q with
          | mk x y w h item =>
            rw [hc] at hitem
            simp only at hitem
            simp [hitem]
        · simp [attachToCell, Function.update_noteq hq]
      · funext m
        by_cases hm : m = n
        · subst hm; simp [attachToCell, hn]
        · simp [attachToCell, Function.update_noteq hm]

end qan
namespace qan

theorem ungroupNodeItem_detaches_witness :
    grid2x2.hasGraphContainer = true ∧
    (groupNodeItem (some 7) (some 0) false grid2x2).nodeCell 7 = some 0 ∧
    (ungroupNodeItem (some 7) true
      (groupNodeItem (some 7) (some 0) false grid2x2)).nodeCell 7 = none :=
  ⟨rfl, by decide,
    ((ungroupNodeItem_detaches 7 true (groupNodeItem (some 7) (some 0) false grid2x2)).1 0
      rfl (by decide)).1⟩

/-! ## insertColumn and insertRow when the factory fails -/

theorem createCell_any (s : TableGroupItem) :
    (createCell s).1 = (if s.createOk s.nextId = true then some s.nextId else none) ∧
    (createCell s).2.nextId = s.nextId + 1 ∧
    (createCell s).2.verticalBorders = s.verticalBorders ∧
    (createCell s).2.horizontalBorders = s.horizontalBorders ∧
    SameEnv s (createCell s).2 := by
  unfold createCell createFromComponent
  by_cases h : s.createOk s.nextId = true
  · simp [h, SameEnv]
  · simp [h, SameEnv]

/-- Whatever the factory delivers, a loop `v[f r] = createCell()` for `r = 0 .. n-1`
writes, for every `r`, the object of the request `nextId + r` or the null pointer. -/
theorem createLoop_any (f : Nat → Int) (n : Nat) (p : List (Option Nat) × TableGroupItem) :
    ((List.range n).foldl (fun acc (r : Nat) =>
        match createCell acc.2 with
        | (cell, s1) => (vecSet acc.1 (f r) cell, s1)) p).1
      = (List.range n).foldl (fun l r => vecSet l (f r)
          (if p.2.createOk (p.2.nextId + r) = true then some (p.2.nextId + r) else none)) p.1 ∧
    ((List.range n).foldl (fun acc (r : Nat) =>
        match createCell acc.2 with
        | (cell, s1) => (vecSet acc.1 (f r) cell, s1)) p).2.nextId = p.2.nextId + n ∧
    ((List.range n).foldl (fun acc (r : Nat) =>
        match createCell acc.2 with
        | (cell, s1) => (vecSet acc.1 (f r) cell, s1)) p).2.verticalBorders
      = p.2.verticalBorders ∧
    ((List.range n).foldl (fun acc (r : Nat) =>
        match createCell acc.2 with
        | (cell, s1) => (vecSet acc.1 (f r) cell, s1)) p).2.horizontalBorders
      = p.2.horizontalBorders ∧
    SameEnv p.2 ((List.range n).foldl (fun acc (r : Nat) =>
        match createCell acc.2 with
        | (cell, s1) => (vecSet acc.1 (f r) cell, s1)) p).2 := by
  induction n with
  | zero => simp [SameEnv.refl]
  | succ n ih =>
    obtain ⟨a1, a2, a3, a4, a5⟩ := ih
    simp only [List.range_succ, List.foldl_append, List.foldl_cons, List.foldl_nil]
    generalize (List.range n).foldl (fun acc (r : Nat) =>
        match createCell acc.2 with
        | (cell, s1) => (vecSet acc.1 (f r) cell, s1)) p = q at a1 a2 a3 a4 a5
    obtain ⟨c1, c2, c3, c4, c5⟩ := createCell_any q.2
    rcases hq : createCell q.2 with ⟨cell, s1⟩
    rw [hq] at c1 c2 c3 c4 c5
    simp only [] at c1 c2 c3 c4 c5
    refine ⟨?_, ?_, ?_, ?_, a5.trans c5⟩
    · show vecSet q.1 (f n) cell = _
      rw [c1, a1, a5.2.2.2.2.2.1, a2]
    · show s1.nextId = _
      rw [c2, a2]; omega
    · show s1.verticalBorders = _
      rw [c3, a3]
    · show s1.horizontalBorders = _
      rw [c4, a4]

/-- After a loop of writes at pairwise different indices inside the vector, every written
slot holds the value written to it. -/
theorem foldl_vecSet_slot (f : Nat → Nat) (v : Nat → Option Nat) (l : List (Option Nat))
    (n : Nat) (hinj : ∀ a b, a < n → b < n → f a = f b → a = b)
    (hlt : ∀ a, a < n → f a < l.length) :
    ∀ r, r < n →
      ((List.range n).foldl (fun l r => vecSet l ((f r : Nat) : Int) (v r)) l)[f r]?
        = some (v r) := by
  induction n with
  | zero => intro r hr; omega
  | succ n ih =>
    intro r hr
    rw [List.range_succ, List.foldl_append]
    simp only [List.foldl_cons, List.foldl_nil]
    have hlen : ((List.range n).foldl (fun l r => vecSet l ((f r : Nat) : Int) (v r)) l).length
        = l.length := foldl_vecSet_length (fun r => ((f r : Nat) : Int)) v _ l
    have ih' := ih (fun a b ha hb => hinj a b (by omega) (by omega))
      (fun a ha => hlt a (by omega))
    generalize (List.range n).foldl (fun l r => vecSet l ((f r : Nat) : Int) (v r)) l = L
      at hlen ih'
    have e : vecSet L ((f n : Nat) : Int) (v n) = L.set (f n) (v n) := by
      simp [vecSet]
    rw [e]
    by_cases hrn : r = n
    · subst hrn
      rw [List.getElem?_set_self (by rw [hlen]; exact hlt r (by omega))]
    · have hne : f n ≠ f r := by
        intro h
        exact hrn (hinj r n (by omega) (by omega) h.symm)
      rw [List.getElem?_set_ne hne]
      exact ih' r (by omega)

theorem forEachCounting_ids (body : Int → TableBorder → TableBorder)
    (hid : ∀ k b, (body k b).id = b.id) :
    ∀ (l : List TableBorder) (k : Int),
      (forEachCounting body k l).map (fun b => b.id) = l.map (fun b => b.id) := by
  intro l
  induction l with
  | nil => intro k; rfl
  | cons b bs ih => intro k; simp [forEachCounting, ih, hid]

theorem initializeCellsLinks_ids (s : TableGroupItem) :
    (initializeCellsLinks s).verticalBorders.map (fun b => b.id)
      = s.verticalBorders.map (fun b => b.id) ∧
    (initializeCellsLinks s).horizontalBorders.map (fun b => b.id)
      = s.horizontalBorders.map (fun b => b.id) := by
  unfold initializeCellsLinks
  cases s.tableGroup with
  | none => exact ⟨rfl, rfl⟩
  | some g =>
    dsimp only
    split
    · exact ⟨rfl, rfl⟩
    · exact ⟨forEachCounting_ids (linkVerticalBorder s.cells s.wild g.rows g.cols)
          (fun k b => rfl) _ _,
        forEachCounting_ids (linkHorizontalBorder s.cells s.wild g.cols)
          (fun k b => rfl) _ _⟩

theorem stdCopy_length (src dst : List (Option Nat)) : (stdCopy src dst).length = dst.length := by
  unfold stdCopy
  simp only [List.length_append, List.length_take, List.length_drop]
  omega

theorem createBorder_fail (s : TableGroupItem) (h : s.createOk s.nextId = false) :
    createBorder s = (none, { s with nextId := s.nextId + 1 }) := by
  simp [createBorder, createFromComponent, h]

theorem insertColumnBorder_any (ct : Container) (pb : TableBorder) (s : TableGroupItem) :
    (insertColumnBorder ct pb s).nextId = s.nextId + 1 ∧
    (insertColumnBorder ct pb s).cells = s.cells ∧
    (insertColumnBorder ct pb s).horizontalBorders = s.horizontalBorders ∧
    SameEnv s (insertColumnBorder ct pb s) ∧
    (s.createOk s.nextId = false →
      (insertColumnBorder ct pb s).verticalBorders = s.verticalBorders) := by
  by_cases h : s.createOk s.nextId = true
  · simp [insertColumnBorder, createBorder_ok s h, SameEnv, h]
  · have h' : s.createOk s.nextId = false := by simpa using h
    simp [insertColumnBorder, createBorder_fail s h', SameEnv]

theorem insertRowBorder_any (ct : Container) (pb : TableBorder) (s : TableGroupItem) :
    (insertRowBorder ct pb s).nextId = s.nextId + 1 ∧
    (insertRowBorder ct pb s).cells = s.cells ∧
    (insertRowBorder ct pb s).verticalBorders = s.verticalBorders ∧
    SameEnv s (insertRowBorder ct pb s) ∧
    (s.createOk s.nextId = false →
      (insertRowBorder ct pb s).horizontalBorders = s.horizontalBorders) := by
  by_cases h : s.createOk s.nextId = true
  · simp [insertRowBorder, createBorder_ok s h, SameEnv, h]
  · have h' : s.createOk s.nextId = false := by simpa using h
    simp [insertRowBorder, createBorder_fail s h', SameEnv]

theorem insertColumnCells_any (g : TableGroup) (s : TableGroupItem) (R C : Nat)
    (hr : g.rows = R) (hc : g.cols = C) :
    (insertColumnCells g s).cells.length = R * (C + 1) ∧
    (insertColumnCells g s).tableGroup = some { g with cols := g.cols + 1 } ∧
    (insertColumnCells g s).verticalBorders = s.verticalBorders ∧
    (insertColumnCells g s).horizontalBorders = s.horizontalBorders ∧
    (∀ r, r < R → (insertColumnCells g s).cells[r * (C + 1) + C]?
      = some (if s.createOk (s.nextId + r) = true then some (s.nextId + r) else none)) := by
  have hN : ((g.cols + 1) * g.rows).toNat = R * (C + 1) := by
    rw [hr, hc]
    have : (((C : Int) + 1) * (R : Int)) = ((R * (C + 1) : Nat) : Int) := by push_cast; ring
    rw [this, Int.toNat_ofNat]
  obtain ⟨a1, a2, a3, a4, a5⟩ := createLoop_any
    (fun r => ((r : Int) * (g.cols + 1)) + (g.cols + 1 - 1)) g.rows.toNat
    (copyOldCells s.cells s.wild g.rows g.cols (g.cols + 1)
      (List.replicate ((g.cols + 1) * g.rows).toNat none), s)
  unfold insertColumnCells
  simp only []
  rcases hP : createColumnCells g.rows (g.cols + 1)
    (copyOldCells s.cells s.wild g.rows g.cols (g.cols + 1)
      (List.replicate ((g.cols + 1) * g.rows).toNat none), s) with ⟨filled, s3⟩
  unfold createColumnCells at hP
  rw [hP] at a1 a2 a3 a4 a5
  simp only [] at a1 a2 a3 a4 a5
  have hf : (fun (l : List (Option Nat)) (r : Nat) =>
        vecSet l ((r : Int) * (g.cols + 1) + (g.cols + 1 - 1))
          (if s.createOk (s.nextId + r) = true then some (s.nextId + r) else none))
      = (fun l r => vecSet l (((fun r => r * (C + 1) + C) r : Nat) : Int)
          ((fun r => if s.createOk (s.nextId + r) = true then some (s.nextId + r) else none) r)) := by
    funext l r
    rw [hc]
    congr 1
    push_cast; ring
  rw [hf, hr, Int.toNat_ofNat] at a1
  have hl0 : ∀ x : Int, (copyOldCells s.cells s.wild x g.cols (g.cols + 1)
      (List.replicate ((g.cols + 1) * (R : Int)).toNat none)).length = R * (C + 1) := by
    intro x
    rw [copyOldCells_length, List.length_replicate, ← hr, hN]
  refine ⟨?_, trivial, a3, a4, ?_⟩
  · show filled.length = _
    rw [a1, foldl_vecSet_length, hl0]
  · intro r hrR
    show filled[r * (C + 1) + C]? = _
    rw [a1]
    exact foldl_vecSet_slot (fun r => r * (C + 1) + C) _ _ R
      (fun a b _ _ h => by
        have h' : a * (C + 1) = b * (C + 1) := Nat.add_right_cancel h
        exact Nat.eq_of_mul_eq_mul_right (by omega) h')
      (fun a ha => by
        rw [hl0]
        calc a * (C + 1) + C < a * (C + 1) + (C + 1) := by omega
          _ = (a + 1) * (C + 1) := by ring
          _ ≤ R * (C + 1) := Nat.mul_le_mul_right _ ha) r hrR

theorem insertRowCells_any (g : TableGroup) (s : TableGroupItem) (R C : Nat)
    (hr : g.rows = R) (hc : g.cols = C) :
    (insertRowCells g s).cells.length = (R + 1) * C ∧
    (insertRowCells g s).tableGroup = some { g with rows := g.rows + 1 } ∧
    (insertRowCells g s).verticalBorders = s.verticalBorders ∧
    (insertRowCells g s).horizontalBorders = s.horizontalBorders ∧
    (∀ c, c < C → (insertRowCells g s).cells[R * C + c]?
      = some (if s.createOk (s.nextId + c) = true then some (s.nextId + c) else none)) := by
  have hN : (g.cols * (g.rows + 1)).toNat = (R + 1) * C := by
    rw [hr, hc]
    have : ((C : Int) * ((R : Int) + 1)) = (((R + 1) * C : Nat) : Int) := by push_cast; ring
    rw [this, Int.toNat_ofNat]
  obtain ⟨a1, a2, a3, a4, a5⟩ := createLoop_any
    (fun c => ((g.rows + 1 - 1) * g.cols) + (c : Int)) g.cols.toNat
    (stdCopy s.cells (List.replicate (g.cols * (g.rows + 1)).toNat none), s)
  unfold insertRowCells
  simp only []
  rcases hP : createRowCells (g.rows + 1) g.cols
    (stdCopy s.cells (List.replicate (g.cols * (g.rows + 1)).toNat none), s) with ⟨filled, s3⟩
  unfold createRowCells at hP
  rw [hP] at a1 a2 a3 a4 a5
  simp only [] at a1 a2 a3 a4 a5
  have hf : (fun (l : List (Option Nat)) (c : Nat) =>
        vecSet l ((g.rows + 1 - 1) * g.cols + (c : Int))
          (if s.createOk (s.nextId + c) = true then some (s.nextId + c) else none))
      = (fun l c => vecSet l (((fun c => R * C + c) c : Nat) : Int)
          ((fun c => if s.createOk (s.nextId + c) = true then some (s.nextId + c) else none) c)) := by
    funext l c
    rw [hr, hc]
    congr 1
    push_cast; ring
  rw [hf, hc, Int.toNat_ofNat] at a1
  have hl0 : (stdCopy s.cells (List.replicate ((C : Int) * (g.rows + 1)).toNat none)).length
      = (R + 1) * C := by
    rw [stdCopy_length, List.length_replicate, ← hc, hN]
  refine ⟨?_, trivial, a3, a4, ?_⟩
  · show filled.length = _
    rw [a1, foldl_vecSet_length, hl0]
  · intro c hcC
    show filled[R * C + c]? = _
    rw [a1]
    exact foldl_vecSet_slot (fun c => R * C + c) _ _ C
      (fun a b _ _ h => Nat.add_left_cancel h)
      (fun a ha => by
        rw [hl0]
        calc R * C + a < R * C + C := by omega
          _ = (R + 1) * C := by ring) c hcC


/-! ## Range of the normalized offsets -/

theorem layoutTable_vlength (blc : BorderLayoutCells) (s : TableGroupItem) :
    (layoutTable blc s).verticalBorders.length = s.verticalBorders.length := by
  unfold layoutTable
  split
  · rfl
  · cases s.container with
    | none => rfl
    | some ct =>
      simp only []
      split
      · rfl
      · rw [layoutCells_verticalBorders]; simp

theorem layoutTable_hlength (blc : BorderLayoutCells) (s : TableGroupItem) :
    (layoutTable blc s).horizontalBorders.length = s.horizontalBorders.length := by
  unfold layoutTable
  split
  · rfl
  · cases s.container with
    | none => rfl
    | some ct =>
      simp only []
      split
      · rfl
      · rw [layoutCells_horizontalBorders]; simp

theorem forCounter_length (body : Int → TableBorder → TableBorder) (n : Int)
    (l : List TableBorder) : (forCounter body n l).length = l.length := by
  unfold forCounter
  generalize List.range n.toNat = xs
  induction xs generalizing l with
  | nil => rfl
  | cons x xs ih => simp only [List.foldl_cons]; rw [ih, borderAt_length]

/-- The normalized offsets that a full layout pass past its guards stores: the border at
index `i` of either sequence is the one the loops reach with the counter `i + 1`. -/
theorem tableLayout_offset_at (blc : BorderLayoutCells) (s : TableGroupItem)
    (g : TableGroup) (ct : Container)
    (hg : s.tableGroup = some g) (hct : s.container = some ct)
    (hW : 1 / 2 ≤ ct.width) (hH : 1 / 2 ≤ ct.height)
    (hWmax : ct.width < 2147483647 + 1 / 2) (hHmax : ct.height < 2147483647 + 1 / 2)
    (hrows : 1 ≤ g.rows) (hcols : 1 ≤ g.cols)
    (hsp : 0 ≤ g.cellSpacing) (hpad : 0 ≤ g.tablePadding)
    (hcw : 0 ≤ (ct.width - 2 * g.tablePadding - ((g.cols : ℚ) - 1) * g.cellSpacing) / (g.cols : ℚ))
    (hch : 0 ≤ (ct.height - 2 * g.tablePadding - ((g.rows : ℚ) - 1) * g.cellSpacing) / (g.rows : ℚ))
    (hv : (s.verticalBorders.length : Int) = g.cols - 1)
    (hh : (s.horizontalBorders.length : Int) = g.rows - 1) :
    (∀ i b, (initializeTableLayout blc s).verticalBorders[i]? = some b →
      i < s.verticalBorders.length ∧
      b.sx = (g.tablePadding + (((i + 1 : Nat) : ℚ) - 1) * g.cellSpacing
        + ((i + 1 : Nat) : ℚ) * ((ct.width - 2 * g.tablePadding - ((g.cols : ℚ) - 1) * g.cellSpacing)
            / (g.cols : ℚ))
        + g.cellSpacing / 2 - 3 / 2) / ct.width) ∧
    (∀ i b, (initializeTableLayout blc s).horizontalBorders[i]? = some b →
      i < s.horizontalBorders.length ∧
      b.sy = (g.tablePadding + (((i + 1 : Nat) : ℚ) - 1) * g.cellSpacing
        + ((i + 1 : Nat) : ℚ) * ((ct.height - 2 * g.tablePadding - ((g.rows : ℚ) - 1) * g.cellSpacing)
            / (g.rows : ℚ))
        + g.cellSpacing / 2 - 3 / 2) / ct.height) := by
  rw [initializeTableLayout_eq blc s g ct hg hct hW hH hWmax hHmax hrows hcols hsp hpad hcw hch hv hh]
  constructor
  · intro i b hb
    have hlt : i < s.verticalBorders.length := by
      have h1 := (List.getElem?_eq_some_iff.1 hb).1
      rw [layoutTable_vlength] at h1
      simp only [forCounter_length] at h1
      exact h1
    refine ⟨hlt, ?_⟩
    have key := layoutTable_vertical_sx blc
      { s with
        verticalBorders := forCounter
          (layoutVerticalBorder g.tablePadding g.cellSpacing
            ((ct.width - 2 * g.tablePadding - ((g.cols : ℚ) - 1) * g.cellSpacing) / (g.cols : ℚ))
            ct.width ct.height) (g.cols - 1) s.verticalBorders,
        horizontalBorders := forCounter
          (layoutHorizontalBorder g.tablePadding g.cellSpacing
            ((ct.height - 2 * g.tablePadding - ((g.rows : ℚ) - 1) * g.cellSpacing) / (g.rows : ℚ))
            ct.width ct.height) (g.rows - 1) s.horizontalBorders } i
    rw [hb] at key
    have fc : (forCounter
          (layoutVerticalBorder g.tablePadding g.cellSpacing
            ((ct.width - 2 * g.tablePadding - ((g.cols : ℚ) - 1) * g.cellSpacing) / (g.cols : ℚ))
            ct.width ct.height) (g.cols - 1) s.verticalBorders)[i]?
        = some (layoutVerticalBorder g.tablePadding g.cellSpacing
            ((ct.width - 2 * g.tablePadding - ((g.cols : ℚ) - 1) * g.cellSpacing) / (g.cols : ℚ))
            ct.width ct.height ((i : Int) + 1) (s.verticalBorders[i])) := by
      rw [← hv, forCounter_getElem?, if_pos hlt, List.getElem?_eq_getElem hlt]
      rfl
    simp only [fc, Option.map_some', Option.some.injEq] at key
    rw [key]
    simp only [layoutVerticalBorder]
    push_cast
    ring
  · intro i b hb
    have hlt : i < s.horizontalBorders.length := by
      have h1 := (List.getElem?_eq_some_iff.1 hb).1
      rw [layoutTable_hlength] at h1
      simp only [forCounter_length] at h1
      exact h1
    refine ⟨hlt, ?_⟩
    have key := layoutTable_horizontal_sy blc
      { s with
        verticalBorders := forCounter
          (layoutVerticalBorder g.tablePadding g.cellSpacing
            ((ct.width - 2 * g.tablePadding - ((g.cols : ℚ) - 1) * g.cellSpacing) / (g.cols : ℚ))
            ct.width ct.height) (g.cols - 1) s.verticalBorders,
        horizontalBorders := forCounter
          (layoutHorizontalBorder g.tablePadding g.cellSpacing
            ((ct.height - 2 * g.tablePadding - ((g.rows : ℚ) - 1) * g.cellSpacing) / (g.rows : ℚ))
            ct.width ct.height) (g.rows - 1) s.horizontalBorders } i
    rw [hb] at key
    have fc : (forCounter
          (layoutHorizontalBorder g.tablePadding g.cellSpacing
            ((ct.height - 2 * g.tablePadding - ((g.rows : ℚ) - 1) * g.cellSpacing) / (g.rows : ℚ))
            ct.width ct.height) (g.rows - 1) s.horizontalBorders)[i]?
        = some (layoutHorizontalBorder g.tablePadding g.cellSpacing
            ((ct.height - 2 * g.tablePadding - ((g.rows : ℚ) - 1) * g.cellSpacing) / (g.rows : ℚ))
            ct.width ct.height ((i : Int) + 1) (s.horizontalBorders[i])) := by
      rw [← hh, forCounter_getElem?, if_pos hlt, List.getElem?_eq_getElem hlt]
      rfl
    simp only [fc, Option.map_some', Option.some.injEq] at key
    rw [key]
    simp only [layoutHorizontalBorder]
    push_cast
    ring

/-- The arithmetic of the offsets: for a counter `1 <= c <= n - 1` the position
`x = padding + (c-1)*spacing + c*cell + spacing/2` lies between `padding + cell + spacing/2`
and `W - padding - cell - spacing/2`, where `cell = (W - 2*padding - (n-1)*spacing)/n`. -/
theorem offset_bounds (W pad sp n c : ℚ) (hW : 0 < W) (hpad : 0 ≤ pad) (hsp : 0 ≤ sp)
    (hn : 1 ≤ n) (hc1 : 1 ≤ c) (hc2 : c ≤ n - 1)
    (hcell : 0 ≤ (W - 2 * pad - (n - 1) * sp) / n) :
    -(3 / 2) / W ≤ (pad + (c - 1) * sp + c * ((W - 2 * pad - (n - 1) * sp) / n) + sp / 2 - 3 / 2) / W ∧
    (pad + (c - 1) * sp + c * ((W - 2 * pad - (n - 1) * sp) / n) + sp / 2 - 3 / 2) / W ≤ 1 ∧
    (3 / 2 ≤ pad + (W - 2 * pad - (n - 1) * sp) / n + sp / 2 →
      0 ≤ (pad + (c - 1) * sp + c * ((W - 2 * pad - (n - 1) * sp) / n) + sp / 2 - 3 / 2) / W) := by
  have hn0 : n ≠ 0 := by intro h; rw [h] at hn; norm_num at hn
  generalize hcw : (W - 2 * pad - (n - 1) * sp) / n = cw at hcell ⊢
  have hmul : n * cw = W - 2 * pad - (n - 1) * sp := by
    rw [← hcw]; field_simp
  have h1 : 0 ≤ (c - 1) * sp := mul_nonneg (by linarith) hsp
  have h2 : 0 ≤ (c - 1) * cw := mul_nonneg (by linarith) hcell
  have h3 : 0 ≤ (n - 1 - c) * sp := mul_nonneg (by linarith) hsp
  have h4 : 0 ≤ (n - 1 - c) * cw := mul_nonneg (by linarith) hcell
  refine ⟨?_, ?_, ?_⟩
  · apply div_le_div_of_nonneg_right _ (le_of_lt hW)
    nlinarith
  · rw [div_le_one hW]
    nlinarith
  · intro h
    apply div_nonneg _ (le_of_lt hW)
    nlinarith

/-- C20 (amended): after a full layout pass that gets past its guards (rounded width and
height of the container positive values of `int`, that is `1/2 <= W < 2^31 - 1/2` and
`1/2 <= H < 2^31 - 1/2`, `rows, cols >= 1`, `spacing, padding >= 0`, non-negative
derived cell sizes) with border counts `cols-1` / `rows-1`, the normalized offset `sx` of
every vertical border lies in `[-3/(2W), 1]`, and in `[0, 1]` when
`padding + cellWidth + spacing/2 >= 3/2`; the normalized offset `sy` of every horizontal
border lies in `[-3/(2H), 1]`, and in `[0, 1]` when
`padding + cellHeight + spacing/2 >= 3/2`. -/
theorem initializeTableLayout_offset_range (blc : BorderLayoutCells) (s : TableGroupItem)
    (g : TableGroup) (ct : Container)
    (hg : s.tableGroup = some g) (hct : s.container = some ct)
    (hW : 1 / 2 ≤ ct.width) (hH : 1 / 2 ≤ ct.height)
    (hWmax : ct.width < 2147483647 + 1 / 2) (hHmax : ct.height < 2147483647 + 1 / 2)
    (hrows : 1 ≤ g.rows) (hcols : 1 ≤ g.cols)
    (hsp : 0 ≤ g.cellSpacing) (hpad : 0 ≤ g.tablePadding)
    (hcw : 0 ≤ (ct.width - 2 * g.tablePadding - ((g.cols : ℚ) - 1) * g.cellSpacing) / (g.cols : ℚ))
    (hch : 0 ≤ (ct.height - 2 * g.tablePadding - ((g.rows : ℚ) - 1) * g.cellSpacing) / (g.rows : ℚ))
    (hv : (s.verticalBorders.length : Int) = g.cols - 1)
    (hh : (s.horizontalBorders.length : Int) = g.rows - 1) :
    (∀ b ∈ (initializeTableLayout blc s).verticalBorders,
      -(3 / 2) / ct.width ≤ b.sx ∧ b.sx ≤ 1 ∧
      (3 / 2 ≤ g.tablePadding
          + (ct.width - 2 * g.tablePadding - ((g.cols : ℚ) - 1) * g.cellSpacing) / (g.cols : ℚ)
          + g.cellSpacing / 2 → 0 ≤ b.sx)) ∧
    (∀ b ∈ (initializeTableLayout blc s).horizontalBorders,
      -(3 / 2) / ct.height ≤ b.sy ∧ b.sy ≤ 1 ∧
      (3 / 2 ≤ g.tablePadding
          + (ct.height - 2 * g.tablePadding - ((g.rows : ℚ) - 1) * g.cellSpacing) / (g.rows : ℚ)
          + g.cellSpacing / 2 → 0 ≤ b.sy)) := by
  obtain ⟨kv, kh⟩ := tableLayout_offset_at blc s g ct hg hct hW hH hWmax hHmax hrows hcols hsp hpad
    hcw hch hv hh
  have hWp : 0 < ct.width := lt_of_lt_of_le (by norm_num) hW
  have hHp : 0 < ct.height := lt_of_lt_of_le (by norm_num) hH
  have hcq : (1 : ℚ) ≤ (g.cols : ℚ) := by exact_mod_cast hcols
  have hrq : (1 : ℚ) ≤ (g.rows : ℚ) := by exact_mod_cast hrows
  constructor
  · intro b hb
    obtain ⟨i, hi⟩ := List.mem_iff_getElem?.1 hb
    obtain ⟨hlt, e⟩ := kv i b hi
    have hc1 : (1 : ℚ) ≤ ((i + 1 : Nat) : ℚ) := by push_cast; linarith [(Nat.cast_nonneg i : (0 : ℚ) ≤ (i : ℚ))]
    have hc2 : ((i + 1 : Nat) : ℚ) ≤ (g.cols : ℚ) - 1 := by
      have : ((i + 1 : Nat) : Int) ≤ g.cols - 1 := by omega
      exact_mod_cast this
    rw [e]
    exact offset_bounds ct.width g.tablePadding g.cellSpacing g.cols _ hWp hpad hsp hcq hc1 hc2 hcw
  · intro b hb
    obtain ⟨i, hi⟩ := List.mem_iff_getElem?.1 hb
    obtain ⟨hlt, e⟩ := kh i b hi
    have hc1 : (1 : ℚ) ≤ ((i + 1 : Nat) : ℚ) := by push_cast; linarith [(Nat.cast_nonneg i : (0 : ℚ) ≤ (i : ℚ))]
    have hc2 : ((i + 1 : Nat) : ℚ) ≤ (g.rows : ℚ) - 1 := by
      have : ((i + 1 : Nat) : Int) ≤ g.rows - 1 := by omega
      exact_mod_cast this
    rw [e]
    exact offset_bounds ct.height g.tablePadding g.cellSpacing g.rows _ hHp hpad hsp hrq hc1 hc2 hch

theorem tinyGrid1x2_layout_eq :
    initializeTableLayout keepCells tinyGrid1x2 = layoutTable keepCells
      { tinyGrid1x2 with
        verticalBorders := forCounter
          (layoutVerticalBorder 0 0 ((2 - 2 * 0 - (((2 : Int) : ℚ) - 1) * 0) / ((2 : Int) : ℚ)) 2 2)
          ((2 : Int) - 1) tinyGrid1x2.verticalBorders,
        horizontalBorders := forCounter
          (layoutHorizontalBorder 0 0 ((2 - 2 * 0 - (((1 : Int) : ℚ) - 1) * 0) / ((1 : Int) : ℚ)) 2 2)
          ((1 : Int) - 1) tinyGrid1x2.horizontalBorders } :=
  initializeTableLayout_eq keepCells tinyGrid1x2
    { rows := 1, cols := 2, cellSpacing := 0, tablePadding := 0 }
    { width := 2, height := 2 } rfl rfl (by norm_num) (by norm_num) (by norm_num) (by norm_num)
      (by decide)
    (by decide) (le_refl _) (le_refl _) (by norm_num) (by norm_num) (by decide) (by decide)

/-- C20 (counterexample): on the 1 x 2 grid (spacing 0, padding 0) in a 2 x 2 container
all parameters are valid and the full layout pass gets past its guards, yet the vertical
border receives the normalized offset `(1 - 3/2)/2 = -1/4`, outside of `[0, 1]`. -/
theorem initializeTableLayout_range_counterexample :
    ∃ b : TableBorder,
      (initializeTableLayout keepCells tinyGrid1x2).verticalBorders[0]? = some b ∧
      b.sx = (-(1 / 4) : ℚ) ∧ ¬ (0 ≤ b.sx ∧ b.sx ≤ 1) := by
  have hlen : (initializeTableLayout keepCells tinyGrid1x2).verticalBorders.length = 1 := by
    rw [tinyGrid1x2_layout_eq, layoutTable_vlength]
    simp only [forCounter_length]
    decide
  have hsome : ∃ b, (initializeTableLayout keepCells tinyGrid1x2).verticalBorders[0]? = some b :=
    ⟨_, List.getElem?_eq_getElem (by rw [hlen]; decide)⟩
  obtain ⟨b, hb⟩ := hsome
  have key := ((tableLayout_offset_at keepCells tinyGrid1x2
    { rows := 1, cols := 2, cellSpacing := 0, tablePadding := 0 }
    { width := 2, height := 2 } rfl rfl (by norm_num) (by norm_num) (by norm_num) (by norm_num)
      (by decide)
    (by decide) (le_refl _) (le_refl _) (by norm_num) (by norm_num) (by decide)
    (by decide)).1 0 b hb).2
  have e : b.sx = (-(1 / 4) : ℚ) := by
    rw [key]; norm_num
  refine ⟨b, hb, e, ?_⟩
  rw [e]
  norm_num

theorem initializeTableLayout_offset_range_witness :
    (1 : ℚ) / 2 ≤ 128 ∧ (128 : ℚ) < 2147483647 + 1 / 2 ∧
    grid1x2.verticalBorders.length = 1 ∧
    ∀ b ∈ (initializeTableLayout keepCells grid1x2).verticalBorders,
      -(3 / 2) / 128 ≤ b.sx ∧ b.sx ≤ 1 ∧
      (3 / 2 ≤ (0 : ℚ) + (128 - 2 * 0 - (((2 : Int) : ℚ) - 1) * 0) / ((2 : Int) : ℚ) + 0 / 2 →
        0 ≤ b.sx) :=
  ⟨by norm_num, by norm_num, by decide,
    (initializeTableLayout_offset_range keepCells grid1x2
      { rows := 1, cols := 2, cellSpacing := 0, tablePadding := 0 }
      { width := 128, height := 128 } rfl rfl (by norm_num) (by norm_num) (by norm_num) (by norm_num)
      (by decide)
      (by decide) (le_refl _) (le_refl _) (by norm_num) (by norm_num) (by decide)
      (by decide)).1⟩

/-! ## Index accesses of `insertColumn` -/

theorem foldl_flatMap_pairs {α β γ δ : Type} (f : α → β → γ) (g : δ → γ → δ)
    (ys : List β) (xs : List α) : ∀ l : δ,
    (xs.flatMap (fun x => ys.map (f x))).foldl g l
      = xs.foldl (fun acc x => ys.foldl (fun acc y => g acc (f x y)) acc) l := by
  induction xs with
  | nil => intro l; rfl
  | cons x xs ih =>
    intro l
    simp only [List.flatMap_cons, List.foldl_append, List.foldl_cons, List.foldl_map, ih]

/-- The copy loop of `insertColumn` performs the accesses of `copyAccesses`, in order. -/
theorem copyOldCells_eq_accesses (cells : List (Option Nat)) (w : Int → Option Nat)
    (oldRows oldCols newCols : Int) (newCells : List (Option Nat)) :
    copyOldCells cells w oldRows oldCols newCols newCells
      = (copyAccesses oldRows oldCols newCols).foldl
          (fun acc p => vecSet acc p.1 (vecAt cells w p.2)) newCells := by
  unfold copyOldCells copyAccesses
  exact (foldl_flatMap_pairs
    (fun (r c : Nat) => (((r : Int) * newCols) + (c : Int), ((r : Int) * oldCols) + (c : Int)))
    (fun acc p => vecSet acc p.1 (vecAt cells w p.2)) _ _ newCells).symm

/-- The new-cell loop of `insertColumn` writes at the indices of `newCellWrites`, in
order. -/
theorem createColumnCells_eq_writes (oldRows newCols : Int)
    (p : List (Option Nat) × TableGroupItem) :
    createColumnCells oldRows newCols p
      = (newCellWrites oldRows newCols).foldl (fun acc i =>
          match createCell acc.2 with
          | (cell, s1) => (vecSet acc.1 i cell, s1)) p := by
  unfold createColumnCells newCellWrites
  rw [List.foldl_map]

theorem mem_copyAccesses {R C N : Int} {p : Int × Int} :
    p ∈ copyAccesses R C N ↔
      ∃ r c : Nat, r < R.toNat ∧ c < R.toNat ∧
        p = (((r : Int) * N) + (c : Int), ((r : Int) * C) + (c : Int)) := by
  unfold copyAccesses
  simp only [List.mem_flatMap, List.mem_map, List.mem_range]
  constructor
  · rintro ⟨r, hr, c, hc, rfl⟩
    exact ⟨r, c, hr, hc, rfl⟩
  · rintro ⟨r, c, hr, hc, rfl⟩
    exact ⟨r, hr, c, hc, rfl⟩

/-- The accesses of the cell remapping of `insertColumn` on a `rows x cols` grid are all in
range exactly when `rows ≤ cols`. -/
theorem insertColumn_inRange_iff (rows cols : Int) (hr : 1 ≤ rows) (hc : 1 ≤ cols) :
    InsertColumnInRange rows cols ↔ rows ≤ cols := by
  obtain ⟨n, rfl⟩ := Int.eq_ofNat_of_zero_le (by omega : 0 ≤ rows)
  obtain ⟨m, rfl⟩ := Int.eq_ofNat_of_zero_le (by omega : 0 ≤ cols)
  have e1 : (((m : Int) + 1) * (n : Int)).toNat = (m + 1) * n := by
    rw [show ((m : Int) + 1) * (n : Int) = (((m + 1) * n : Nat) : Int) by push_cast; ring]
    exact Int.toNat_ofNat _
  have e2 : ((n : Int) * (m : Int)).toNat = n * m := by
    rw [show (n : Int) * (m : Int) = ((n * m : Nat) : Int) by push_cast; ring]
    exact Int.toNat_ofNat _
  unfold InsertColumnInRange
  rw [e1, e2]
  constructor
  · rintro ⟨h, -⟩
    have hmem : ((((n - 1 : Nat) : Int) * ((m : Int) + 1)) + ((n - 1 : Nat) : Int),
        (((n - 1 : Nat) : Int) * (m : Int)) + ((n - 1 : Nat) : Int))
        ∈ copyAccesses (n : Int) (m : Int) ((m : Int) + 1) :=
      mem_copyAccesses.2 ⟨n - 1, n - 1, by simp; omega, by simp; omega, rfl⟩
    have h2 := (h _ hmem).2.2
    simp only at h2
    have hn : ((n - 1 : Nat) : Int) = (n : Int) - 1 := by omega
    rw [hn] at h2
    push_cast at h2
    nlinarith
  · intro hle
    have hle' : n ≤ m := by exact_mod_cast hle
    constructor
    · intro p hp
      obtain ⟨r, c, hr', hc', rfl⟩ := mem_copyAccesses.1 hp
      simp only [Int.toNat_ofNat] at hr' hc'
      have h1 : r * (m + 1) + c < (m + 1) * n := by
        calc r * (m + 1) + c < r * (m + 1) + (m + 1) := by omega
          _ = (r + 1) * (m + 1) := by ring
          _ ≤ n * (m + 1) := Nat.mul_le_mul_right _ (by omega)
          _ = (m + 1) * n := by ring
      have h2 : r * m + c < n * m := by
        calc r * m + c < r * m + m := by omega
          _ = (r + 1) * m := by ring
          _ ≤ n * m := Nat.mul_le_mul_right _ (by omega)
      refine ⟨⟨by positivity, ?_⟩, ⟨by positivity, ?_⟩⟩
      · show ((r : Int) * ((m : Int) + 1)) + (c : Int) < (((m + 1) * n : Nat) : Int)
        exact_mod_cast h1
      · show ((r : Int) * (m : Int)) + (c : Int) < ((n * m : Nat) : Int)
        exact_mod_cast h2
    · intro i hi
      unfold newCellWrites at hi
      simp only [List.mem_map, List.mem_range, Int.toNat_ofNat] at hi
      obtain ⟨r, hr', rfl⟩ := hi
      have h1 : r * (m + 1) + m < (m + 1) * n := by
        calc r * (m + 1) + m < r * (m + 1) + (m + 1) := by omega
          _ = (r + 1) * (m + 1) := by ring
          _ ≤ n * (m + 1) := Nat.mul_le_mul_right _ (by omega)
          _ = (m + 1) * n := by ring
      have : ((r : Int) * ((m : Int) + 1)) + ((m : Int) + 1 - 1)
          = ((r * (m + 1) + m : Nat) : Int) := by push_cast; ring
      rw [this]
      exact ⟨Int.ofNat_nonneg _, by exact_mod_cast h1⟩

/-- C21: `insertColumn` on the 3 x 2 grid built by `initialize(2, 3)` (a valid grid:
six cells, one vertical border, two horizontal borders).  Its copy loop runs its inner
counter up to `oldRows = 3`, so its last access reads `_cells[2*2 + 2] = _cells[6]` of a
vector of six cells: the accesses are not all in range, and the value read out of range
is stored in the new array by the copy loop. -/
theorem insertColumn_copy_out_of_range :
    HasShape grid3x2 { rows := 3, cols := 2, cellSpacing := 0, tablePadding := 0 } ∧
    grid3x2.cells = [some 0, some 1, some 2, some 3, some 4, some 5] ∧
    copyAccesses 3 2 3
      = [(0, 0), (1, 1), (2, 2), (3, 2), (4, 3), (5, 4), (6, 4), (7, 5), (8, 6)] ∧
    ¬ InRange 6 grid3x2.cells.length ∧
    ¬ InsertColumnInRange 3 2 ∧
    ∀ w : Int → Option Nat,
      copyOldCells grid3x2.cells w 3 2 3 (List.replicate 9 none)
        = [some 0, some 1, some 2, some 2, some 3, some 4, some 4, some 5, w 6] := by
  refine ⟨by unfold HasShape; decide, by decide, by decide, by decide, ?_, fun w => rfl⟩
  intro h
  exact absurd (h.1 (8, 6) (by decide)).2 (by decide)

/-! ## Index accesses of `initializeCellsLinks` -/

/-- The cells `initializeCellsLinks` adds to a vertical border are those read at the indices
of `verticalLinkReads`. -/
theorem linkVerticalBorder_reads (cells : List (Option Nat)) (w : Int → Option Nat)
    (rows cols c : Int) (b : TableBorder) :
    (linkVerticalBorder cells w rows cols c b).prevCells
      = b.prevCells ++ (verticalLinkReads rows cols c).map (fun p => vecAt cells w p.1) ∧
    (linkVerticalBorder cells w rows cols c b).nextCells
      = b.nextCells ++ (verticalLinkReads rows cols c).map (fun p => vecAt cells w p.2) := by
  simp [linkVerticalBorder, verticalLinkReads, List.map_map, Function.comp_def]

/-- The cells `initializeCellsLinks` adds to a horizontal border are those read at the
indices of `horizontalLinkReads`. -/
theorem linkHorizontalBorder_reads (cells : List (Option Nat)) (w : Int → Option Nat)
    (cols r : Int) (b : TableBorder) :
    (linkHorizontalBorder cells w cols r b).prevCells
      = b.prevCells ++ (horizontalLinkReads cols r).map (fun p => vecAt cells w p.1) ∧
    (linkHorizontalBorder cells w cols r b).nextCells
      = b.nextCells ++ (horizontalLinkReads cols r).map (fun p => vecAt cells w p.2) := by
  simp [linkHorizontalBorder, horizontalLinkReads, List.map_map, Function.comp_def]

/-- Past the guard `cells.size() == rows*cols`, the reads of `initializeCellsLinks` are all in
range exactly when the engine holds at most `cols-1` vertical and at most `rows-1`
horizontal borders. -/
theorem linksInRange_iff (s : TableGroupItem) (g : TableGroup) (hg : s.tableGroup = some g)
    (hr : 1 ≤ g.rows) (hc : 1 ≤ g.cols) (hlen : (s.cells.length : Int) = g.rows * g.cols) :
    LinksInRange s ↔
      (s.verticalBorders.length : Int) ≤ g.cols - 1 ∧
      (s.horizontalBorders.length : Int) ≤ g.rows - 1 := by
  obtain ⟨R, hR⟩ := Int.eq_ofNat_of_zero_le (by omega : 0 ≤ g.rows)
  obtain ⟨C, hC⟩ := Int.eq_ofNat_of_zero_le (by omega : 0 ≤ g.cols)
  rw [hR, hC] at hlen
  rw [hR] at hr
  rw [hC] at hc
  have hR1 : 1 ≤ R := by exact_mod_cast hr
  have hC1 : 1 ≤ C := by exact_mod_cast hc
  have hlen' : s.cells.length = R * C := by exact_mod_cast hlen
  unfold LinksInRange
  constructor
  · intro h
    obtain ⟨hv, hh⟩ := h g hg (by rw [hR, hC]; exact hlen)
    simp only [hR, hC] at hv hh ⊢
    constructor
    · by_contra hcon
      have hk : C - 1 < s.verticalBorders.length := by omega
      have hm : ((((R - 1 : Nat) : Int) * (C : Int)) + (1 + ((C - 1 : Nat) : Int)) - 1,
          (((R - 1 : Nat) : Int) * (C : Int)) + (1 + ((C - 1 : Nat) : Int)))
          ∈ verticalLinkReads (R : Int) (C : Int) (1 + ((C - 1 : Nat) : Int)) := by
        unfold verticalLinkReads
        simp only [List.mem_map, List.mem_range, Int.toNat_ofNat]
        exact ⟨R - 1, by omega, rfl⟩
      have h2 := (hv (C - 1) hk _ hm).2.2
      simp only at h2
      rw [hlen'] at h2
      have e1 : ((R - 1 : Nat) : Int) = (R : Int) - 1 := by omega
      have e2 : ((C - 1 : Nat) : Int) = (C : Int) - 1 := by omega
      rw [e1, e2] at h2
      push_cast at h2
      nlinarith
    · by_contra hcon
      have hk : R - 1 < s.horizontalBorders.length := by omega
      have hm : ((((1 + ((R - 1 : Nat) : Int)) - 1) * (C : Int)) + ((0 : Nat) : Int),
          ((1 + ((R - 1 : Nat) : Int)) * (C : Int)) + ((0 : Nat) : Int))
          ∈ horizontalLinkReads (C : Int) (1 + ((R - 1 : Nat) : Int)) := by
        unfold horizontalLinkReads
        simp only [List.mem_map, List.mem_range, Int.toNat_ofNat]
        exact ⟨0, by omega, rfl⟩
      have h2 := (hh (R - 1) hk _ hm).2.2
      simp only at h2
      rw [hlen'] at h2
      have e1 : ((R - 1 : Nat) : Int) = (R : Int) - 1 := by omega
      rw [e1] at h2
      push_cast at h2
      nlinarith
  · rintro ⟨hv, hh⟩ g' hg' -
    have : g' = g := by rw [hg] at hg'; exact (Option.some.inj hg').symm
    subst this
    simp only [hR, hC] at hv hh ⊢
    constructor
    · intro k hk p hp
      unfold verticalLinkReads at hp
      simp only [List.mem_map, List.mem_range, Int.toNat_ofNat] at hp
      obtain ⟨r, hr', rfl⟩ := hp
      have hkC : k + 1 < C := by omega
      have h1 : r * C + (1 + k) < R * C := by
        calc r * C + (1 + k) < r * C + C := by omega
          _ = (r + 1) * C := by ring
          _ ≤ R * C := Nat.mul_le_mul_right _ (by omega)
      have e1 : ((r : Int) * (C : Int)) + (1 + (k : Int)) - 1 = ((r * C + k : Nat) : Int) := by
        push_cast; ring
      have e2 : ((r : Int) * (C : Int)) + (1 + (k : Int)) = ((r * C + (1 + k) : Nat) : Int) := by
        push_cast; ring
      rw [hlen']
      refine ⟨?_, ?_⟩
      · show InRange (((r : Int) * (C : Int)) + (1 + (k : Int)) - 1) (R * C)
        rw [e1]
        exact ⟨Int.ofNat_nonneg _, by exact_mod_cast (by omega : r * C + k < R * C)⟩
      · show InRange (((r : Int) * (C : Int)) + (1 + (k : Int))) (R * C)
        rw [e2]
        exact ⟨Int.ofNat_nonneg _, by exact_mod_cast h1⟩
    · intro k hk p hp
      unfold horizontalLinkReads at hp
      simp only [List.mem_map, List.mem_range, Int.toNat_ofNat] at hp
      obtain ⟨c, hc', rfl⟩ := hp
      have hkR : k + 2 ≤ R := by omega
      have h1 : (1 + k) * C + c < R * C := by
        calc (1 + k) * C + c < (1 + k) * C + C := by omega
          _ = (k + 2) * C := by ring
          _ ≤ R * C := Nat.mul_le_mul_right _ hkR
      have h0 : k * C + c < R * C := by
        calc k * C + c ≤ (1 + k) * C + c := by
              have : k * C ≤ (1 + k) * C := Nat.mul_le_mul_right _ (by omega)
              omega
          _ < R * C := h1
      have e1 : ((1 + (k : Int)) - 1) * (C : Int) + (c : Int) = ((k * C + c : Nat) : Int) := by
        push_cast; ring
      have e2 : (1 + (k : Int)) * (C : Int) + (c : Int) = (((1 + k) * C + c : Nat) : Int) := by
        push_cast; ring
      rw [hlen']
      refine ⟨?_, ?_⟩
      · show InRange (((1 + (k : Int)) - 1) * (C : Int) + (c : Int)) (R * C)
        rw [e1]
        exact ⟨Int.ofNat_nonneg _, by exact_mod_cast h0⟩
      · show InRange ((1 + (k : Int)) * (C : Int) + (c : Int)) (R * C)
        rw [e2]
        exact ⟨Int.ofNat_nonneg _, by exact_mod_cast h1⟩

theorem mislinkedItem_state (w : Int → Option Nat) :
    (mislinkedItem w).verticalBorders =
      [{ TableBorder.fresh 4 with nextBorder := some 5 },
       { TableBorder.fresh 5 with prevBorder := some 4, nextBorder := some 6 },
       { TableBorder.fresh 6 with prevBorder := some 5 }] ∧
    (mislinkedItem w).horizontalBorders = [] ∧
    (mislinkedItem w).cells = [some 0, some 1, some 2, some 3] ∧
    (mislinkedItem w).wild = w ∧
    (mislinkedItem w).tableGroup
      = some { rows := 2, cols := 2, cellSpacing := 0, tablePadding := 0 } := by
  have h : (mislinkedItem w).verticalBorders
      = (mislinkedItem (fun _ => none)).verticalBorders := rfl
  refine ⟨?_, rfl, rfl, rfl, rfl⟩
  rw [h]
  decide

/-- C23: `initialize(cols = 4, rows = 1)` on an item whose owning group has 2 rows and 2
columns.  It creates four cells and three vertical borders from its arguments and then
calls `initializeCellsLinks`, which takes `rows = 2`, `cols = 2` from the group: the guard
`cells.size() == rows*cols` passes (4 = 2*2), and the loop over the three vertical borders
reads `_cells[4]` (twice) and `_cells[5]` of a vector of four cells.  The cells linked to
the borders are, by border, prev side and next side, with `w i` the value the out of range
read of `_cells[i]` yields. -/
theorem initializeCellsLinks_out_of_range (w : Int → Option Nat) :
    initializeGrid 4 1 { blankItem 2 2 with wild := w } = initializeCellsLinks (mislinkedItem w) ∧
    (mislinkedItem w).cells = [some 0, some 1, some 2, some 3] ∧
    (mislinkedItem w).tableGroup.map (fun g => (g.rows, g.cols)) = some (2, 2) ∧
    (mislinkedItem w).verticalBorders.length = 3 ∧
    verticalLinkReads 2 2 (1 + 1) = [(1, 2), (3, 4)] ∧
    ¬ InRange 4 (mislinkedItem w).cells.length ∧
    ¬ LinksInRange (mislinkedItem w) ∧
    (initializeGrid 4 1 { blankItem 2 2 with wild := w }).verticalBorders.map
      (fun b => (b.id, b.prevCells, b.nextCells))
      = [(4, [some 0, some 2], [some 1, some 3]), (5, [some 1, some 3], [some 2, w 4]),
         (6, [some 2, w 4], [some 3, w 5])] := by
  have e : initializeGrid 4 1 { blankItem 2 2 with wild := w }
      = initializeCellsLinks (mislinkedItem w) := rfl
  obtain ⟨h1, h2, h3, h4, h5⟩ := mislinkedItem_state w
  refine ⟨e, h3, by rw [h5]; rfl, by rw [h1]; rfl, by decide, by rw [h3]; decide, ?_, ?_⟩
  · intro h
    have h' := (h _ h5 (by rw [h3]; rfl)).1 1 (by rw [h1]; decide) (3, 4) (by decide)
    rw [h3] at h'
    exact absurd h'.2 (by decide)
  · rw [e]
    unfold initializeCellsLinks
    rw [h5]
    simp only [h1, h3, h4]
    simp [forEachCounting, linkVerticalBorder, vecAt, TableBorder.fresh, List.range_succ]

/-! ## Occupancy under sequences of grouping requests -/

theorem Vacant.consistent {s : TableGroupItem} (h : Vacant s) : OccupancyConsistent s := by
  intro c n
  simp [h.1 c, h.2 n]

theorem attachToCell_consistent (n p : Nat) (s : TableGroupItem) (h : OccupancyConsistent s)
    (hn : s.nodeCell n = none) (hp : (s.cellObj p).item = none) :
    OccupancyConsistent (attachToCell n p s) := by
  obtain ⟨a1, a2, a3, a4⟩ := attachToCell_spec n p s
  intro c m
  by_cases hc : c = p
  · subst hc
    rw [a1]
    by_cases hm : m = n
    · subst hm
      simp [a2]
    · rw [a4 m hm]
      constructor
      · intro e
        exact absurd (Option.some.inj e).symm hm
      · intro e
        have := (h c m).2 e
        rw [hp] at this
        exact absurd this (by simp)
  · rw [a3 c hc]
    by_cases hm : m = n
    · subst hm
      rw [a2]
      constructor
      · intro e
        have := (h c m).1 e
        rw [hn] at this
        exact absurd this (by simp)
      · intro e
        exact absurd (Option.some.inj e).symm hc
    · rw [a4 m hm]
      exact h c m

theorem ungroupNodeItem_consistent (n : Option Nat) (transform : Bool) (s : TableGroupItem)
    (h : OccupancyConsistent s) : OccupancyConsistent (ungroupNodeItem n transform s) := by
  cases n with
  | none => exact h
  | some n =>
    unfold ungroupNodeItem
    by_cases hg : s.hasGraphContainer = true
    · cases hp : s.nodeCell n with
      | none => simpa [hg, hp] using h
      | some p =>
        simp only [hg, hp, if_true]
        intro c m
        dsimp only
        have hpn := (h p n).2 hp
        by_cases hc : c = p
        · subst hc
          simp only [Function.update_same]
          by_cases hm : m = n
          · subst hm
            simp
          · rw [Function.update_noteq hm]
            constructor
            · intro e
              exact absurd e (by simp)
            · intro e
              have := (h c m).2 e
              rw [hpn] at this
              exact absurd (Option.some.inj this).symm hm
        · rw [Function.update_noteq hc]
          by_cases hm : m = n
          · subst hm
            simp only [Function.update_same]
            constructor
            · intro e
              have := (h c m).1 e
              rw [hp] at this
              exact absurd (Option.some.inj this).symm hc
            · intro e
              exact absurd e (by simp)
          · rw [Function.update_noteq hm]
            exact h c m
    · have hg' : s.hasGraphContainer = false := by simpa using hg
      simpa [hg'] using h

theorem DropOp.run_consistent (op : DropOp) (s : TableGroupItem)
    (h : OccupancyConsistent s) (hf : op.fitsIn s) : OccupancyConsistent (op.run s) := by
  cases op with
  | detach n t => exact ungroupNodeItem_consistent n t s h
  | attach n gc t =>
    cases n with
    | none => exact h
    | some n =>
      obtain ⟨hn, hc⟩ := hf
      show OccupancyConsistent (groupNodeItem (some n) gc t s)
      rcases groupNodeItem_cases n gc t s with e | ⟨p, e⟩
      · rw [e]; exact h
      · have hp : (s.cellObj p).item = none := by
          apply hc p
          rw [e]
          exact (attachToCell_spec n p s).2.1
        rw [e]
        exact attachToCell_consistent n p s h hn hp

theorem runOps_consistent : ∀ (ops : List DropOp) (s : TableGroupItem),
    OccupancyConsistent s → FitAll ops s → OccupancyConsistent (runOps ops s) := by
  intro ops
  induction ops with
  | nil => intro s h _; exact h
  | cons op ops ih =>
    intro s h hf
    exact ih (op.run s) (op.run_consistent s h hf.1) hf.2

/-- C22 (amended): in every state reached from a state with all cells empty and all nodes
ungrouped by a sequence of `groupNodeItem` (with or without target cell) and
`ungroupNodeItem` calls in which every attach is made for a node that is ungrouped at that
moment and lands in a cell that is empty at that moment (or changes nothing), the occupant
of a cell is the node `n` if and only if the cell reference of `n` is that cell; so no
node is the occupant of two cells and no cell is recorded by two nodes. -/
theorem occupancy_consistent (ops : List DropOp) (s : TableGroupItem)
    (h0 : Vacant s) (hf : FitAll ops s) :
    OccupancyConsistent (runOps ops s) ∧
    (∀ c c' n, ((runOps ops s).cellObj c).item = some n →
      ((runOps ops s).cellObj c').item = some n → c = c') ∧
    (∀ n n' c, (runOps ops s).nodeCell n = some c →
      (runOps ops s).nodeCell n' = some c → n = n') := by
  have h := runOps_consistent ops s h0.consistent hf
  refine ⟨h, ?_, ?_⟩
  · intro c c' n e e'
    have a := (h c n).1 e
    have b := (h c' n).1 e'
    rw [a] at b
    exact Option.some.inj b
  · intro n n' c e e'
    have a := (h c n).2 e
    have b := (h c n').2 e'
    rw [a] at b
    exact Option.some.inj b

/-- In the 2 x 2 grid that `initialize` builds every cell is empty and every node is
ungrouped. -/
theorem grid2x2_vacant : Vacant grid2x2 := by
  have e : grid2x2.cellObj = Function.update (Function.update (Function.update
      (Function.update (fun _ => TableCell.fresh) 0 TableCell.fresh) 1 TableCell.fresh)
      2 TableCell.fresh) 3 TableCell.fresh := rfl
  refine ⟨fun c => ?_, fun _ => rfl⟩
  rw [e]
  simp only [Function.update, eq_rec_constant, dite_eq_ite]
  split_ifs <;> rfl

/-- C22 (counterexample): from the 2 x 2 grid that `initialize` builds, all cells empty and
all nodes ungrouped, attach the node 7 to the cell 0 and then the node 8 to the cell 0:
the cell reference of 7 is still the cell 0, whose occupant is 8.  Attach the node 7 to
the cell 0 and then to the cell 1: the occupant of the cell 0 is still 7, whose cell
reference is the cell 1.  In both states occupancy consistency fails. -/
theorem occupancy_counterexample :
    Vacant grid2x2 ∧
    (runOps [DropOp.attach (some 7) (some 0) false, DropOp.attach (some 8) (some 0) false]
      grid2x2).nodeCell 7 = some 0 ∧
    ((runOps [DropOp.attach (some 7) (some 0) false, DropOp.attach (some 8) (some 0) false]
      grid2x2).cellObj 0).item = some 8 ∧
    ¬ OccupancyConsistent
      (runOps [DropOp.attach (some 7) (some 0) false, DropOp.attach (some 8) (some 0) false]
        grid2x2) ∧
    ((runOps [DropOp.attach (some 7) (some 0) false, DropOp.attach (some 7) (some 1) false]
      grid2x2).cellObj 0).item = some 7 ∧
    (runOps [DropOp.attach (some 7) (some 0) false, DropOp.attach (some 7) (some 1) false]
      grid2x2).nodeCell 7 = some 1 ∧
    ¬ OccupancyConsistent
      (runOps [DropOp.attach (some 7) (some 0) false, DropOp.attach (some 7) (some 1) false]
        grid2x2) := by
  have a1 : (runOps [DropOp.attach (some 7) (some 0) false,
      DropOp.attach (some 8) (some 0) false] grid2x2).nodeCell 7 = some 0 := by decide
  have a2 : ((runOps [DropOp.attach (some 7) (some 0) false,
      DropOp.attach (some 8) (some 0) false] grid2x2).cellObj 0).item = some 8 := by decide
  have b1 : ((runOps [DropOp.attach (some 7) (some 0) false,
      DropOp.attach (some 7) (some 1) false] grid2x2).cellObj 0).item = some 7 := by decide
  have b2 : (runOps [DropOp.attach (some 7) (some 0) false,
      DropOp.attach (some 7) (some 1) false] grid2x2).nodeCell 7 = some 1 := by decide
  refine ⟨grid2x2_vacant, a1, a2, ?_, b1, b2, ?_⟩
  · intro h
    have := (h 0 7).2 a1
    rw [a2] at this
    exact absurd this (by decide)
  · intro h
    have := (h 0 7).1 b1
    rw [b2] at this
    exact absurd this (by decide)

theorem grid2x2_fitAll :
    FitAll [DropOp.attach (some 7) (some 0) false, DropOp.detach (some 7) false,
      DropOp.attach (some 8) (some 0) false] grid2x2 := by
  refine ⟨⟨rfl, ?_⟩, trivial, ⟨by decide, ?_⟩, trivial⟩
  · intro c hc
    have e : (groupNodeItem (some 7) (some 0) false grid2x2).nodeCell 7 = some 0 := by
      decide
    rw [e] at hc
    cases Option.some.inj hc
    rfl
  · intro c hc
    have e : (groupNodeItem (some 8) (some 0) false
        ((DropOp.detach (some 7) false).run
          ((DropOp.attach (some 7) (some 0) false).run grid2x2))).nodeCell 8 = some 0 := by
      decide
    rw [e] at hc
    cases Option.some.inj hc
    decide

theorem occupancy_consistent_witness :
    Vacant grid2x2 ∧
    FitAll [DropOp.attach (some 7) (some 0) false, DropOp.detach (some 7) false,
      DropOp.attach (some 8) (some 0) false] grid2x2 ∧
    OccupancyConsistent
      (runOps [DropOp.attach (some 7) (some 0) false, DropOp.detach (some 7) false,
        DropOp.attach (some 8) (some 0) false] grid2x2) :=
  ⟨grid2x2_vacant, grid2x2_fitAll,
    (occupancy_consistent _ grid2x2 grid2x2_vacant grid2x2_fitAll).1⟩

/-! ## The borders after `insertColumn` and `insertRow` -/

theorem forEachCounting_map {α : Type} (f : TableBorder → α)
    (body : Int → TableBorder → TableBorder) (hid : ∀ k b, f (body k b) = f b) :
    ∀ (l : List TableBorder) (k : Int), (forEachCounting body k l).map f = l.map f := by
  intro l
  induction l with
  | nil => intro k; rfl
  | cons b bs ih => intro k; simp [forEachCounting, ih, hid]

/-- Linking changes nothing of a border but its cells. -/
theorem initializeCellsLinks_withoutCells (s : TableGroupItem) :
    (initializeCellsLinks s).verticalBorders.map TableBorder.withoutCells
      = s.verticalBorders.map TableBorder.withoutCells ∧
    (initializeCellsLinks s).horizontalBorders.map TableBorder.withoutCells
      = s.horizontalBorders.map TableBorder.withoutCells := by
  unfold initializeCellsLinks
  cases s.tableGroup with
  | none => exact ⟨rfl, rfl⟩
  | some g =>
    dsimp only
    split
    · exact ⟨rfl, rfl⟩
    · exact ⟨forEachCounting_map TableBorder.withoutCells
          (linkVerticalBorder s.cells s.wild g.rows g.cols) (fun k b => rfl) _ _,
        forEachCounting_map TableBorder.withoutCells
          (linkHorizontalBorder s.cells s.wild g.cols) (fun k b => rfl) _ _⟩

theorem insertColumnBorder_ok (ct : Container) (pb : TableBorder) (s : TableGroupItem)
    (h0 : s.createOk s.nextId = true) :
    insertColumnBorder ct pb s = { s with
      nextId := s.nextId + 1,
      verticalBorders :=
        setNextBorder pb.id s.nextId (s.verticalBorders ++ [newColumnBorder ct pb s.nextId]) } := by
  simp [insertColumnBorder, createBorder_ok s h0, newColumnBorder, TableBorder.fresh]

theorem insertRowBorder_ok (ct : Container) (pb : TableBorder) (s : TableGroupItem)
    (h0 : s.createOk s.nextId = true) :
    insertRowBorder ct pb s = { s with
      nextId := s.nextId + 1,
      horizontalBorders :=
        setNextBorder pb.id s.nextId (s.horizontalBorders ++ [newRowBorder ct pb s.nextId]) } := by
  simp [insertRowBorder, createBorder_ok s h0, newRowBorder, TableBorder.fresh]

theorem insertColumnCells_frame (g : TableGroup) (s : TableGroupItem) :
    (insertColumnCells g s).nextId = s.nextId + g.rows.toNat ∧
    (insertColumnCells g s).verticalBorders = s.verticalBorders ∧
    (insertColumnCells g s).horizontalBorders = s.horizontalBorders := by
  obtain ⟨-, a2, a3, a4, -⟩ := createLoop_any
    (fun r => ((r : Int) * (g.cols + 1)) + (g.cols + 1 - 1)) g.rows.toNat
    (copyOldCells s.cells s.wild g.rows g.cols (g.cols + 1)
      (List.replicate ((g.cols + 1) * g.rows).toNat none), s)
  unfold insertColumnCells
  simp only []
  unfold createColumnCells
  exact ⟨a2, a3, a4⟩

theorem insertRowCells_frame (g : TableGroup) (s : TableGroupItem) :
    (insertRowCells g s).nextId = s.nextId + g.cols.toNat ∧
    (insertRowCells g s).verticalBorders = s.verticalBorders ∧
    (insertRowCells g s).horizontalBorders = s.horizontalBorders := by
  obtain ⟨-, a2, a3, a4, -⟩ := createLoop_any
    (fun c => ((g.rows + 1 - 1) * g.cols) + (c : Int)) g.cols.toNat
    (stdCopy s.cells (List.replicate (g.cols * (g.rows + 1)).toNat none), s)
  unfold insertRowCells
  simp only []
  unfold createRowCells
  exact ⟨a2, a3, a4⟩

/-- Past its guards and with the border delivered, `insertColumn` leaves the vertical
borders it had, the last one with the new border as its next border, followed by the new
border; the horizontal borders are the same; only the cells of the borders are linked
anew. -/
theorem insertColumn_borders (blc : BorderLayoutCells) (s : TableGroupItem)
    (g : TableGroup) (ct : Container) (pb : TableBorder)
    (hg : s.tableGroup = some g) (hct : s.container = some ct)
    (hpb : s.verticalBorders.getLast? = some pb) (hok : s.createOk s.nextId = true) :
    (insertColumn blc s).verticalBorders.map TableBorder.withoutCells
      = (setNextBorder pb.id s.nextId
          (s.verticalBorders ++ [newColumnBorder ct pb s.nextId])).map TableBorder.withoutCells ∧
    (insertColumn blc s).horizontalBorders.map TableBorder.withoutCells
      = s.horizontalBorders.map TableBorder.withoutCells ∧
    (insertColumn blc s).nextId = s.nextId + 1 + g.rows.toNat := by
  have e : insertColumn blc s = layoutCells blc (initializeCellsLinks
      (insertColumnCells g (insertColumnBorder ct pb s))) := by
    simp [insertColumn, hct, hg, hpb]
  obtain ⟨c1, c2, c3⟩ := insertColumnCells_frame g (insertColumnBorder ct pb s)
  obtain ⟨d1, d2⟩ := initializeCellsLinks_withoutCells
    (insertColumnCells g (insertColumnBorder ct pb s))
  rw [e, layoutCells_verticalBorders, layoutCells_horizontalBorders, d1, d2, c2, c3]
  have en : (layoutCells blc (initializeCellsLinks
      (insertColumnCells g (insertColumnBorder ct pb s)))).nextId
      = (initializeCellsLinks (insertColumnCells g (insertColumnBorder ct pb s))).nextId := by
    rw [layoutCells_eq]
  rw [en, initializeCellsLinks_nextId, c1, insertColumnBorder_ok ct pb s hok]
  exact ⟨rfl, rfl, rfl⟩

/-- Past its guards and with the border delivered, `insertRow` leaves the horizontal
borders it had, the last one with the new border as its next border, followed by the new
border; the vertical borders are the same; only the cells of the borders are linked
anew. -/
theorem insertRow_borders (blc : BorderLayoutCells) (s : TableGroupItem)
    (g : TableGroup) (ct : Container) (pb : TableBorder)
    (hg : s.tableGroup = some g) (hct : s.container = some ct)
    (hpb : s.horizontalBorders.getLast? = some pb) (hok : s.createOk s.nextId = true) :
    (insertRow blc s).horizontalBorders.map TableBorder.withoutCells
      = (setNextBorder pb.id s.nextId
          (s.horizontalBorders ++ [newRowBorder ct pb s.nextId])).map TableBorder.withoutCells ∧
    (insertRow blc s).verticalBorders.map TableBorder.withoutCells
      = s.verticalBorders.map TableBorder.withoutCells ∧
    (insertRow blc s).nextId = s.nextId + 1 + g.cols.toNat := by
  have e : insertRow blc s = layoutCells blc (initializeCellsLinks
      (insertRowCells g (insertRowBorder ct pb s))) := by
    simp [insertRow, hct, hg, hpb]
  obtain ⟨c1, c2, c3⟩ := insertRowCells_frame g (insertRowBorder ct pb s)
  obtain ⟨d1, d2⟩ := initializeCellsLinks_withoutCells
    (insertRowCells g (insertRowBorder ct pb s))
  rw [e, layoutCells_verticalBorders, layoutCells_horizontalBorders, d1, d2, c2, c3]
  have en : (layoutCells blc (initializeCellsLinks
      (insertRowCells g (insertRowBorder ct pb s)))).nextId
      = (initializeCellsLinks (insertRowCells g (insertRowBorder ct pb s))).nextId := by
    rw [layoutCells_eq]
  rw [en, initializeCellsLinks_nextId, c1, insertRowBorder_ok ct pb s hok]
  exact ⟨rfl, rfl, rfl⟩

/-- The last border of a sequence whose borders, seen without their cells, are those of
`setNextBorder p k (l ++ [nb])`: it is `nb` but for its cells and its next border. -/
theorem last_of_pushed (L l : List TableBorder) (nb : TableBorder) (p k : Nat)
    (h : L.map TableBorder.withoutCells
      = (setNextBorder p k (l ++ [nb])).map TableBorder.withoutCells) :
    L.length = l.length + 1 ∧
    ∃ b, L.getLast? = some b ∧ b.id = nb.id ∧ b.orientation = nb.orientation ∧
      b.prevBorder = nb.prevBorder ∧ b.x = nb.x ∧ b.y = nb.y ∧ b.width = nb.width ∧
      b.height = nb.height ∧ b.sx = nb.sx ∧ b.sy = nb.sy := by
  have hl : L.length = l.length + 1 := by
    have := congrArg List.length h
    simpa [setNextBorder] using this
  refine ⟨hl, ?_⟩
  have h2 := congrArg List.getLast? h
  simp only [setNextBorder, List.map_append, List.map_cons, List.map_nil,
    List.getLast?_append, List.getLast?_singleton, List.getLast?_map, Option.or_some] at h2
  cases hb : L.getLast? with
  | none => rw [hb] at h2; simp at h2
  | some b =>
    rw [hb] at h2
    simp only [Option.map_some', Option.some.injEq] at h2
    refine ⟨b, rfl, ?_⟩
    have f1 := congrArg TableBorder.id h2
    have f2 := congrArg TableBorder.orientation h2
    have f3 := congrArg TableBorder.prevBorder h2
    have f4 := congrArg TableBorder.x h2
    have f5 := congrArg TableBorder.y h2
    have f6 := congrArg TableBorder.width h2
    have f7 := congrArg TableBorder.height h2
    have f8 := congrArg TableBorder.sx h2
    have f9 := congrArg TableBorder.sy h2
    simp only [TableBorder.withoutCells] at f1 f2 f3 f4 f5 f6 f7 f8 f9
    by_cases hid : nb.id = p
    · simp only [hid, if_true] at f1 f2 f3 f4 f5 f6 f7 f8 f9
      exact ⟨f1.trans hid.symm, f2, f3, f4, f5, f6, f7, f8, f9⟩
    · simp only [hid, if_false] at f1 f2 f3 f4 f5 f6 f7 f8 f9
      exact ⟨f1, f2, f3, f4, f5, f6, f7, f8, f9⟩

/-- C26: past its guards (a container of width `W > 0`, an owning group, a last vertical
border at absolute position `p`) and with the new border delivered, `insertColumn` appends
a vertical border at `x = p + (W - p)/2 = (p + W)/2` and stores the normalized offset
`x/W` (so that `sx * W = x`); symmetrically `insertRow`, for a container of height `H > 0`
and a last horizontal border at `q`, appends a horizontal border at
`y = q + (H - q)/2 = (q + H)/2` with the normalized offset `y/H`. -/
theorem insert_midpoint (blc : BorderLayoutCells) (s : TableGroupItem)
    (g : TableGroup) (ct : Container)
    (hg : s.tableGroup = some g) (hct : s.container = some ct) :
    (∀ pb, 0 < ct.width → s.verticalBorders.getLast? = some pb →
      s.createOk s.nextId = true →
      (insertColumn blc s).verticalBorders.length = s.verticalBorders.length + 1 ∧
      ∃ nb, (insertColumn blc s).verticalBorders.getLast? = some nb ∧
        nb.orientation = Orientation.Vertical ∧
        nb.x = pb.x + (ct.width - pb.x) / 2 ∧ nb.x = (pb.x + ct.width) / 2 ∧
        nb.sx = nb.x / ct.width ∧ nb.sx * ct.width = nb.x) ∧
    (∀ pb, 0 < ct.height → s.horizontalBorders.getLast? = some pb →
      s.createOk s.nextId = true →
      (insertRow blc s).horizontalBorders.length = s.horizontalBorders.length + 1 ∧
      ∃ nb, (insertRow blc s).horizontalBorders.getLast? = some nb ∧
        nb.orientation = Orientation.Horizontal ∧
        nb.y = pb.y + (ct.height - pb.y) / 2 ∧ nb.y = (pb.y + ct.height) / 2 ∧
        nb.sy = nb.y / ct.height ∧ nb.sy * ct.height = nb.y) := by
  constructor
  · intro pb hW hpb hok
    obtain ⟨hl, nb, hnb, -, f2, -, f4, -, -, -, f8, -⟩ :=
      last_of_pushed _ _ _ _ _ (insertColumn_borders blc s g ct pb hg hct hpb hok).1
    have hx : nb.x = pb.x + (ct.width - pb.x) / 2 := f4
    have hsx : nb.sx = nb.x / ct.width := by rw [f8, hx]; rfl
    refine ⟨hl, nb, hnb, f2, hx, ?_, hsx, ?_⟩
    · rw [hx]; ring
    · rw [hsx]; field_simp
  · intro pb hH hpb hok
    obtain ⟨hl, nb, hnb, -, f2, -, -, f5, -, -, -, f9⟩ :=
      last_of_pushed _ _ _ _ _ (insertRow_borders blc s g ct pb hg hct hpb hok).1
    have hy : nb.y = pb.y + (ct.height - pb.y) / 2 := f5
    have hsy : nb.sy = nb.y / ct.height := by rw [f9, hy]; rfl
    refine ⟨hl, nb, hnb, f2, hy, ?_, hsy, ?_⟩
    · rw [hy]; ring
    · rw [hsy]; field_simp

theorem insert_midpoint_witness :
    (0 : ℚ) < 128 ∧ grid2x2.createOk grid2x2.nextId = true ∧
    ∃ nb, (insertColumn keepCells grid2x2).verticalBorders.getLast? = some nb ∧
      nb.orientation = Orientation.Vertical ∧
      nb.x = (grid2x2.verticalBorders.getLast (by decide)).x
        + (128 - (grid2x2.verticalBorders.getLast (by decide)).x) / 2 ∧
      nb.x = ((grid2x2.verticalBorders.getLast (by decide)).x + 128) / 2 ∧
      nb.sx = nb.x / 128 ∧ nb.sx * 128 = nb.x :=
  ⟨by norm_num, rfl,
    ((insert_midpoint keepCells grid2x2
      { rows := 2, cols := 2, cellSpacing := 0, tablePadding := 0 }
      { width := 128, height := 128 } rfl rfl).1
      (grid2x2.verticalBorders.getLast (by decide)) (by norm_num)
      (List.getLast?_eq_getLast _ _) rfl).2⟩

/-! ## Order of the borders -/

/-- The borders before the last one of a sequence whose borders, seen without their cells,
are those of `setNextBorder p k (l ++ [nb])`: they are those of `l` but for their cells,
and for the next border of those of identity `p`. -/
theorem prefix_of_pushed (L l : List TableBorder) (nb : TableBorder) (p k : Nat)
    (h : L.map TableBorder.withoutCells
      = (setNextBorder p k (l ++ [nb])).map TableBorder.withoutCells)
    (i : Nat) (b : TableBorder) (hb : l[i]? = some b) :
    ∃ b', L[i]? = some b' ∧ b'.id = b.id ∧ b'.orientation = b.orientation ∧
      b'.prevBorder = b.prevBorder ∧
      b'.nextBorder = (if b.id = p then some k else b.nextBorder) ∧
      b'.x = b.x ∧ b'.y = b.y ∧ b'.width = b.width ∧ b'.height = b.height ∧
      b'.sx = b.sx ∧ b'.sy = b.sy := by
  have h2 := congrArg (fun m => m[i]?) h
  simp only [setNextBorder, List.getElem?_map] at h2
  have hi : i < l.length := (List.getElem?_eq_some_iff.1 hb).1
  rw [List.getElem?_append_left hi, hb] at h2
  cases hL : L[i]? with
  | none => rw [hL] at h2; simp at h2
  | some b' =>
    rw [hL] at h2
    simp only [Option.map_some', Option.some.injEq] at h2
    refine ⟨b', rfl, ?_⟩
    have f1 := congrArg TableBorder.id h2
    have f2 := congrArg TableBorder.orientation h2
    have f3 := congrArg TableBorder.prevBorder h2
    have f0 := congrArg TableBorder.nextBorder h2
    have f4 := congrArg TableBorder.x h2
    have f5 := congrArg TableBorder.y h2
    have f6 := congrArg TableBorder.width h2
    have f7 := congrArg TableBorder.height h2
    have f8 := congrArg TableBorder.sx h2
    have f9 := congrArg TableBorder.sy h2
    simp only [TableBorder.withoutCells] at f0 f1 f2 f3 f4 f5 f6 f7 f8 f9
    by_cases hid : b.id = p
    · rw [if_pos hid] at f0 f1 f2 f3 f4 f5 f6 f7 f8 f9
      rw [if_pos hid]
      exact ⟨f1, f2, f3, f0, f4, f5, f6, f7, f8, f9⟩
    · rw [if_neg hid] at f0 f1 f2 f3 f4 f5 f6 f7 f8 f9
      rw [if_neg hid]
      exact ⟨f1, f2, f3, f0, f4, f5, f6, f7, f8, f9⟩

theorem offset_mono (W pad sp cw i j : ℚ) (hW : 0 < W) (hsp : 0 ≤ sp) (hcw : 0 ≤ cw)
    (hij : i ≤ j) :
    (pad + (i - 1) * sp + i * cw + sp / 2 - 3 / 2) / W
      ≤ (pad + (j - 1) * sp + j * cw + sp / 2 - 3 / 2) / W := by
  apply div_le_div_of_nonneg_right _ (le_of_lt hW)
  have h1 : 0 ≤ (j - i) * sp := mul_nonneg (by linarith) hsp
  have h2 : 0 ≤ (j - i) * cw := mul_nonneg (by linarith) hcw
  nlinarith

/-- The state `layoutTable` reaches past its guards is laid out. -/
theorem layoutTable_laidOut (blc : BorderLayoutCells) (s : TableGroupItem) (ct : Container)
    (hen : s.enabled = true) (hct : s.container = some ct)
    (hW : 0 < ct.width) (hH : 0 < ct.height) : LaidOut (layoutTable blc s) ct := by
  rw [layoutTable_eq blc s ct hen hct hW hH]
  refine ⟨?_, hW, hH, ?_, ?_⟩
  · rw [layoutCells_eq]; exact hct
  · rw [layoutCells_verticalBorders]
    intro b hb
    simp only [List.mem_map] at hb
    obtain ⟨a, -, rfl⟩ := hb
    rfl
  · rw [layoutCells_horizontalBorders]
    intro b hb
    simp only [List.mem_map] at hb
    obtain ⟨a, -, rfl⟩ := hb
    rfl

/-- C24: borders of one orientation are ordered by position along their sequence.
After a full layout pass that gets past its guards (rounded width and height of the
container positive values of `int`, that is `1/2 <= W < 2^31 - 1/2` and likewise `H`;
border counts `cols-1` / `rows-1`) the normalized offsets of the vertical borders are non-decreasing in the order
of the sequence, and so are those of the horizontal borders.  The state a resize pass
reaches past its guards is laid out (a full pass ends with a resize pass).  On a laid out
grid whose last vertical border lies inside the container (`0 <= x <= W`), `insertColumn`
with the border delivered appends a border whose absolute position and normalized offset
are not smaller than those of the previously last border, the borders before it keeping
their position and offset; likewise `insertRow` for the horizontal borders. -/
theorem border_order (blc : BorderLayoutCells) :
    (∀ (s : TableGroupItem) (g : TableGroup) (ct : Container),
      s.tableGroup = some g → s.container = some ct →
      1 / 2 ≤ ct.width → 1 / 2 ≤ ct.height →
      ct.width < 2147483647 + 1 / 2 → ct.height < 2147483647 + 1 / 2 →
      1 ≤ g.rows → 1 ≤ g.cols →
      0 ≤ g.cellSpacing → 0 ≤ g.tablePadding →
      0 ≤ (ct.width - 2 * g.tablePadding - ((g.cols : ℚ) - 1) * g.cellSpacing) / (g.cols : ℚ) →
      0 ≤ (ct.height - 2 * g.tablePadding - ((g.rows : ℚ) - 1) * g.cellSpacing) / (g.rows : ℚ) →
      (s.verticalBorders.length : Int) = g.cols - 1 →
      (s.horizontalBorders.length : Int) = g.rows - 1 →
      (∀ (i j : Nat) (b b' : TableBorder), i ≤ j → (initializeTableLayout blc s).verticalBorders[i]? = some b →
        (initializeTableLayout blc s).verticalBorders[j]? = some b' → b.sx ≤ b'.sx) ∧
      (∀ (i j : Nat) (b b' : TableBorder), i ≤ j → (initializeTableLayout blc s).horizontalBorders[i]? = some b →
        (initializeTableLayout blc s).horizontalBorders[j]? = some b' → b.sy ≤ b'.sy)) ∧
    (∀ (s : TableGroupItem) (ct : Container), s.enabled = true → s.container = some ct →
      0 < ct.width → 0 < ct.height → LaidOut (layoutTable blc s) ct) ∧
    (∀ (t : TableGroupItem) (g : TableGroup) (ct : Container) (pb : TableBorder),
      LaidOut t ct → t.tableGroup = some g → t.verticalBorders.getLast? = some pb →
      0 ≤ pb.x → pb.x ≤ ct.width → t.createOk t.nextId = true →
      (insertColumn blc t).verticalBorders.length = t.verticalBorders.length + 1 ∧
      (∃ nb : TableBorder, (insertColumn blc t).verticalBorders.getLast? = some nb ∧
        pb.x ≤ nb.x ∧ pb.sx ≤ nb.sx) ∧
      (∀ (i : Nat) (b : TableBorder), t.verticalBorders[i]? = some b →
        ∃ b' : TableBorder, (insertColumn blc t).verticalBorders[i]? = some b' ∧
          b'.x = b.x ∧ b'.sx = b.sx)) ∧
    (∀ (t : TableGroupItem) (g : TableGroup) (ct : Container) (pb : TableBorder),
      LaidOut t ct → t.tableGroup = some g → t.horizontalBorders.getLast? = some pb →
      0 ≤ pb.y → pb.y ≤ ct.height → t.createOk t.nextId = true →
      (insertRow blc t).horizontalBorders.length = t.horizontalBorders.length + 1 ∧
      (∃ nb : TableBorder, (insertRow blc t).horizontalBorders.getLast? = some nb ∧
        pb.y ≤ nb.y ∧ pb.sy ≤ nb.sy) ∧
      (∀ (i : Nat) (b : TableBorder), t.horizontalBorders[i]? = some b →
        ∃ b' : TableBorder, (insertRow blc t).horizontalBorders[i]? = some b' ∧
          b'.y = b.y ∧ b'.sy = b.sy)) := by
  refine ⟨?_, fun s ct => layoutTable_laidOut blc s ct, ?_, ?_⟩
  · intro s g ct hg hct hW hH hWmax hHmax hrows hcols hsp hpad hcw hch hv hh
    obtain ⟨kv, kh⟩ := tableLayout_offset_at blc s g ct hg hct hW hH hWmax hHmax hrows hcols hsp hpad
      hcw hch hv hh
    have hWp : 0 < ct.width := lt_of_lt_of_le (by norm_num) hW
    have hHp : 0 < ct.height := lt_of_lt_of_le (by norm_num) hH
    constructor
    · intro i j b b' hij hb hb'
      rw [(kv i b hb).2, (kv j b' hb').2]
      exact offset_mono _ _ _ _ _ _ hWp hsp hcw (by exact_mod_cast Nat.succ_le_succ hij)
    · intro i j b b' hij hb hb'
      rw [(kh i b hb).2, (kh j b' hb').2]
      exact offset_mono _ _ _ _ _ _ hHp hsp hch (by exact_mod_cast Nat.succ_le_succ hij)
  · intro t g ct pb hlo hg hpb h0 h1 hok
    obtain ⟨hct, hW, -, hvx, -⟩ := hlo
    have key := (insertColumn_borders blc t g ct pb hg hct hpb hok).1
    obtain ⟨hl, nb, hnb, -, -, -, f4, -, -, -, f8, -⟩ := last_of_pushed _ _ _ _ _ key
    have hx : nb.x = pb.x + (ct.width - pb.x) / 2 := f4
    have hsx : nb.sx = (pb.x + (ct.width - pb.x) / 2) / ct.width := f8
    have hpx : pb.x = pb.sx * ct.width := hvx pb (List.mem_of_getLast?_eq_some hpb)
    refine ⟨hl, ⟨nb, hnb, ?_, ?_⟩, ?_⟩
    · rw [hx]; linarith
    · rw [hsx, le_div_iff₀ hW, ← hpx]; linarith
    · intro i b hb
      obtain ⟨b', hb', -, -, -, -, e1, -, -, -, e2, -⟩ := prefix_of_pushed _ _ _ _ _ key i b hb
      exact ⟨b', hb', e1, e2⟩
  · intro t g ct pb hlo hg hpb h0 h1 hok
    obtain ⟨hct, -, hH, -, hhy⟩ := hlo
    have key := (insertRow_borders blc t g ct pb hg hct hpb hok).1
    obtain ⟨hl, nb, hnb, -, -, -, -, f5, -, -, -, f9⟩ := last_of_pushed _ _ _ _ _ key
    have hy : nb.y = pb.y + (ct.height - pb.y) / 2 := f5
    have hsy : nb.sy = (pb.y + (ct.height - pb.y) / 2) / ct.height := f9
    have hpy : pb.y = pb.sy * ct.height := hhy pb (List.mem_of_getLast?_eq_some hpb)
    refine ⟨hl, ⟨nb, hnb, ?_, ?_⟩, ?_⟩
    · rw [hy]; linarith
    · rw [hsy, le_div_iff₀ hH, ← hpy]; linarith
    · intro i b hb
      obtain ⟨b', hb', -, -, -, -, -, e1, -, -, -, e2⟩ := prefix_of_pushed _ _ _ _ _ key i b hb
      exact ⟨b', hb', e1, e2⟩


theorem midGrid2x2_laidOut : LaidOut midGrid2x2 { width := 128, height := 128 } := by
  refine ⟨rfl, by norm_num, by norm_num, ?_, ?_⟩
  · intro b hb
    have : b = midVertical := by simpa [midGrid2x2] using hb
    rw [this]
    norm_num [midVertical]
  · intro b hb
    have : b = midHorizontal := by simpa [midGrid2x2] using hb
    rw [this]
    norm_num [midHorizontal]

theorem border_order_witness :
    ((1 : ℚ) / 2 ≤ 128 ∧ (128 : ℚ) < 2147483647 + 1 / 2 ∧
      grid3x3.verticalBorders.length = 2 ∧ grid3x3.horizontalBorders.length = 2 ∧
      (∀ (i j : Nat) (b b' : TableBorder), i ≤ j →
        (initializeTableLayout keepCells grid3x3).verticalBorders[i]? = some b →
        (initializeTableLayout keepCells grid3x3).verticalBorders[j]? = some b' →
        b.sx ≤ b'.sx) ∧
      (∀ (i j : Nat) (b b' : TableBorder), i ≤ j →
        (initializeTableLayout keepCells grid3x3).horizontalBorders[i]? = some b →
        (initializeTableLayout keepCells grid3x3).horizontalBorders[j]? = some b' →
        b.sy ≤ b'.sy)) ∧
    LaidOut (layoutTable keepCells grid2x2) { width := 128, height := 128 } ∧
    (LaidOut midGrid2x2 { width := 128, height := 128 } ∧
      midGrid2x2.verticalBorders.getLast? = some midVertical ∧
      (0 : ℚ) ≤ midVertical.x ∧ midVertical.x ≤ 128 ∧
      (insertColumn keepCells midGrid2x2).verticalBorders.length = 1 + 1 ∧
      ∃ nb : TableBorder,
        (insertColumn keepCells midGrid2x2).verticalBorders.getLast? = some nb ∧
        midVertical.x ≤ nb.x ∧ midVertical.sx ≤ nb.sx) ∧
    (midGrid2x2.horizontalBorders.getLast? = some midHorizontal ∧
      (0 : ℚ) ≤ midHorizontal.y ∧ midHorizontal.y ≤ 128 ∧
      (insertRow keepCells midGrid2x2).horizontalBorders.length = 1 + 1 ∧
      ∃ nb : TableBorder,
        (insertRow keepCells midGrid2x2).horizontalBorders.getLast? = some nb ∧
        midHorizontal.y ≤ nb.y ∧ midHorizontal.sy ≤ nb.sy) :=
  ⟨⟨by norm_num, by norm_num, by decide, by decide,
      ((border_order keepCells).1 grid3x3
        { rows := 3, cols := 3, cellSpacing := 0, tablePadding := 0 }
        { width := 128, height := 128 } rfl rfl (by norm_num) (by norm_num) (by norm_num)
        (by norm_num) (by decide) (by decide) (le_refl _) (le_refl _) (by norm_num)
        (by norm_num) (by decide) (by decide)).1,
      ((border_order keepCells).1 grid3x3
        { rows := 3, cols := 3, cellSpacing := 0, tablePadding := 0 }
        { width := 128, height := 128 } rfl rfl (by norm_num) (by norm_num) (by norm_num)
        (by norm_num) (by decide) (by decide) (le_refl _) (le_refl _) (by norm_num)
        (by norm_num) (by decide) (by decide)).2⟩,
    (border_order keepCells).2.1 grid2x2 { width := 128, height := 128 } rfl rfl
      (by norm_num) (by norm_num),
    ⟨midGrid2x2_laidOut, rfl, by norm_num [midVertical], by norm_num [midVertical],
      ((border_order keepCells).2.2.1 midGrid2x2
        { rows := 2, cols := 2, cellSpacing := 0, tablePadding := 0 }
        { width := 128, height := 128 } midVertical
        midGrid2x2_laidOut rfl rfl (by norm_num [midVertical]) (by norm_num [midVertical])
        rfl).1,
      ((border_order keepCells).2.2.1 midGrid2x2
        { rows := 2, cols := 2, cellSpacing := 0, tablePadding := 0 }
        { width := 128, height := 128 } midVertical
        midGrid2x2_laidOut rfl rfl (by norm_num [midVertical]) (by norm_num [midVertical])
        rfl).2.1⟩,
    ⟨rfl, by norm_num [midHorizontal], by norm_num [midHorizontal],
      ((border_order keepCells).2.2.2 midGrid2x2
        { rows := 2, cols := 2, cellSpacing := 0, tablePadding := 0 }
        { width := 128, height := 128 } midHorizontal
        midGrid2x2_laidOut rfl rfl (by norm_num [midHorizontal]) (by norm_num [midHorizontal])
        rfl).1,
      ((border_order keepCells).2.2.2 midGrid2x2
        { rows := 2, cols := 2, cellSpacing := 0, tablePadding := 0 }
        { width := 128, height := 128 } midHorizontal
        midGrid2x2_laidOut rfl rfl (by norm_num [midHorizontal]) (by norm_num [midHorizontal])
        rfl).2.1⟩⟩

/-! ## Chains of borders -/

theorem CreationChain.nil (n : Nat) : CreationChain [] n := by
  refine ⟨⟨?_, ?_⟩, ?_, ?_⟩
  · intro b hb; simp at hb
  · intro i b b' hb; simp at hb
  · intro i j b b' _ hb; simp at hb
  · intro b hb; simp at hb

theorem CreationChain.mono {l : List TableBorder} {n m : Nat} (h : CreationChain l n)
    (hnm : n ≤ m) : CreationChain l m :=
  ⟨h.1, h.2.1, fun b hb => lt_of_lt_of_le (h.2.2 b hb) hnm⟩

/-- A chain seen without the cells of its borders. -/
theorem CreationChain.of_withoutCells {L M : List TableBorder} {n : Nat}
    (h : L.map TableBorder.withoutCells = M.map TableBorder.withoutCells)
    (hM : CreationChain M n) : CreationChain L n := by
  have key : ∀ (i : Nat) (b : TableBorder), L[i]? = some b →
      ∃ m, M[i]? = some m ∧ m.id = b.id ∧ m.prevBorder = b.prevBorder ∧
        m.nextBorder = b.nextBorder := by
    intro i b hb
    have h2 := congrArg (fun x => x[i]?) h
    simp only [List.getElem?_map, hb, Option.map_some'] at h2
    cases hm : M[i]? with
    | none => rw [hm] at h2; simp at h2
    | some m =>
      rw [hm] at h2
      simp only [Option.map_some', Option.some.injEq] at h2
      exact ⟨m, rfl, (congrArg TableBorder.id h2).symm,
        (congrArg TableBorder.prevBorder h2).symm, (congrArg TableBorder.nextBorder h2).symm⟩
  obtain ⟨⟨c1, c2⟩, c3, c4⟩ := hM
  refine ⟨⟨?_, ?_⟩, ?_, ?_⟩
  · intro b hb
    obtain ⟨m, hm, -, e2, -⟩ := key 0 b hb
    rw [← e2]; exact c1 m hm
  · intro i b b' hb hb'
    obtain ⟨m, hm, e1, -, e3⟩ := key i b hb
    obtain ⟨m', hm', e1', e2', -⟩ := key (i + 1) b' hb'
    have := c2 i m m' hm hm'
    rw [← e2', ← e3, ← e1, ← e1']
    exact this
  · intro i j b b' hij hb hb'
    obtain ⟨m, hm, e1, -, -⟩ := key i b hb
    obtain ⟨m', hm', e1', -, -⟩ := key j b' hb'
    rw [← e1, ← e1']
    exact c3 i j m m' hij hm hm'
  · intro b hb
    obtain ⟨i, hi⟩ := List.mem_iff_getElem?.1 hb
    obtain ⟨m, hm, e1, -, -⟩ := key i b hi
    rw [← e1]
    exact c4 m (List.mem_iff_getElem?.2 ⟨i, hm⟩)

theorem setNextBorder_getElem? (p k : Nat) (l : List TableBorder) (i : Nat) :
    (setNextBorder p k l)[i]?
      = (l[i]?).map (fun x => if x.id = p then { x with nextBorder := some k } else x) := by
  simp [setNextBorder]

/-- Appending the border `nb`, created by the request `k`, after the last border `pb` of a
chain, with `pb` as its prev and as the next of `pb`, gives a chain again. -/
theorem CreationChain.push {l : List TableBorder} {n k : Nat} {pb nb : TableBorder}
    (h : CreationChain l n) (hk : n ≤ k) (hpb : l.getLast? = some pb)
    (hid : nb.id = k) (hprev : nb.prevBorder = some pb.id) :
    CreationChain (setNextBorder pb.id k (l ++ [nb])) (k + 1) := by
  obtain ⟨⟨c1, c2⟩, c3, c4⟩ := h
  have hlast : l[l.length - 1]? = some pb := by
    rw [← hpb, List.getLast?_eq_getElem?]
  have hpos : 0 < l.length := by
    cases l with
    | nil => simp at hpb
    | cons a as => simp
  have hnbp : nb.id ≠ pb.id := by
    have := c4 pb (List.mem_of_getLast?_eq_some hpb)
    omega
  -- the elements of the new sequence
  have old : ∀ (i : Nat) (b : TableBorder), i < l.length →
      (setNextBorder pb.id k (l ++ [nb]))[i]? = some b →
      ∃ a, l[i]? = some a ∧ b.id = a.id ∧ b.prevBorder = a.prevBorder ∧
        b.nextBorder = (if i = l.length - 1 then some k else a.nextBorder) := by
    intro i b hi hb
    rw [setNextBorder_getElem?, List.getElem?_append_left hi] at hb
    cases ha : l[i]? with
    | none => rw [ha] at hb; simp at hb
    | some a =>
      rw [ha] at hb
      simp only [Option.map_some', Option.some.injEq] at hb
      refine ⟨a, rfl, ?_⟩
      by_cases hil : i = l.length - 1
      · have : a = pb := by
          rw [hil, hlast] at ha
          exact (Option.some.inj ha).symm
        subst this
        rw [if_pos rfl] at hb
        rw [if_pos hil, ← hb]
        exact ⟨rfl, rfl, rfl⟩
      · have hne : a.id ≠ pb.id := by
          have := c3 i (l.length - 1) a pb (by omega) ha hlast
          omega
        rw [if_neg hne] at hb
        rw [if_neg hil, ← hb]
        exact ⟨rfl, rfl, rfl⟩
  have new : ∀ b : TableBorder, (setNextBorder pb.id k (l ++ [nb]))[l.length]? = some b →
      b.id = k ∧ b.prevBorder = some pb.id := by
    intro b hb
    rw [setNextBorder_getElem?, List.getElem?_append_right (le_refl _)] at hb
    simp only [Nat.sub_self, List.getElem?_cons_zero, Option.map_some', if_neg hnbp,
      Option.some.injEq] at hb
    rw [← hb]
    exact ⟨hid, hprev⟩
  have hlen : (setNextBorder pb.id k (l ++ [nb])).length = l.length + 1 := by
    simp [setNextBorder_length]
  have bound : ∀ (i : Nat) (b : TableBorder),
      (setNextBorder pb.id k (l ++ [nb]))[i]? = some b → i < l.length ∨ i = l.length := by
    intro i b hb
    have := (List.getElem?_eq_some_iff.1 hb).1
    omega
  refine ⟨⟨?_, ?_⟩, ?_, ?_⟩
  · intro b hb
    obtain ⟨a, ha, -, e2, -⟩ := old 0 b hpos hb
    rw [e2]; exact c1 a ha
  · intro i b b' hb hb'
    rcases bound (i + 1) b' hb' with h1 | h1
    · obtain ⟨a, ha, e1, -, e3⟩ := old i b (by omega) hb
      obtain ⟨a', ha', e1', e2', -⟩ := old (i + 1) b' h1 hb'
      have := c2 i a a' ha ha'
      rw [if_neg (by omega)] at e3
      rw [e2', e3, e1, e1']
      exact this
    · obtain ⟨a, ha, e1, -, e3⟩ := old i b (by omega) hb
      rw [h1] at hb'
      obtain ⟨f1, f2⟩ := new b' hb'
      have hi : i = l.length - 1 := by omega
      have : a = pb := by
        rw [hi, hlast] at ha
        exact (Option.some.inj ha).symm
      subst this
      rw [if_pos hi] at e3
      rw [f2, e3, e1, f1]
      exact ⟨rfl, rfl⟩
  · intro i j b b' hij hb hb'
    rcases bound j b' hb' with h1 | h1
    · obtain ⟨a, ha, e1, -, -⟩ := old i b (by omega) hb
      obtain ⟨a', ha', e1', -, -⟩ := old j b' h1 hb'
      rw [e1, e1']
      exact c3 i j a a' hij ha ha'
    · obtain ⟨a, ha, e1, -, -⟩ := old i b (by omega) hb
      rw [h1] at hb'
      obtain ⟨f1, -⟩ := new b' hb'
      have := c4 a (List.mem_iff_getElem?.2 ⟨i, ha⟩)
      omega
  · intro b hb
    obtain ⟨i, hi⟩ := List.mem_iff_getElem?.1 hb
    rcases bound i b hi with h1 | h1
    · obtain ⟨a, ha, e1, -, -⟩ := old i b h1 hi
      have := c4 a (List.mem_iff_getElem?.2 ⟨i, ha⟩)
      omega
    · rw [h1] at hi
      obtain ⟨f1, -⟩ := new b hi
      omega

/-- A single border without prev is a chain. -/
theorem CreationChain.single (nb : TableBorder) (k : Nat) (hid : nb.id = k)
    (hprev : nb.prevBorder = none) : CreationChain [nb] (k + 1) := by
  refine ⟨⟨?_, ?_⟩, ?_, ?_⟩
  · intro b hb
    simp only [List.getElem?_cons_zero, Option.some.injEq] at hb
    rw [← hb]; exact hprev
  · intro i b b' _ hb'
    simp at hb'
  · intro i j b b' hij _ hb'
    have := (List.getElem?_eq_some_iff.1 hb').1
    simp at this
    omega
  · intro b hb
    simp only [List.mem_singleton] at hb
    rw [hb, hid]; omega

theorem setNextBorder_getLast?_id (p k : Nat) (l : List TableBorder) :
    ((setNextBorder p k l).getLast?).map (fun b => b.id) = (l.getLast?).map (fun b => b.id) := by
  unfold setNextBorder
  rw [List.getLast?_map]
  cases l.getLast? with
  | none => rfl
  | some b =>
    simp only [Option.map_some']
    split <;> rfl

theorem pushVerticalBorder_chain (ps : Option Nat × TableGroupItem)
    (h : CreationChain ps.2.verticalBorders ps.2.nextId)
    (hp : ps.1 = (ps.2.verticalBorders.getLast?).map (fun b => b.id)) :
    CreationChain (pushVerticalBorder ps).2.verticalBorders (pushVerticalBorder ps).2.nextId ∧
    (pushVerticalBorder ps).1
      = ((pushVerticalBorder ps).2.verticalBorders.getLast?).map (fun b => b.id) ∧
    (pushVerticalBorder ps).2.horizontalBorders = ps.2.horizontalBorders ∧
    ps.2.nextId ≤ (pushVerticalBorder ps).2.nextId := by
  obtain ⟨p, s⟩ := ps
  simp only at h hp
  by_cases hok : s.createOk s.nextId = true
  · cases hlast : s.verticalBorders.getLast? with
    | none =>
      rw [hlast] at hp
      simp only [Option.map_none'] at hp
      subst hp
      have hnil : s.verticalBorders = [] := List.getLast?_eq_none_iff.1 hlast
      simp only [pushVerticalBorder, createBorder_ok s hok, hnil, List.nil_append]
      refine ⟨CreationChain.single _ _ rfl rfl, ?_, ?_, ?_⟩ <;>
        first | trivial | rfl | omega
    | some pb =>
      rw [hlast] at hp
      simp only [Option.map_some'] at hp
      subst hp
      simp only [pushVerticalBorder, createBorder_ok s hok]
      refine ⟨CreationChain.push h (le_refl _) hlast rfl rfl, ?_, ?_, ?_⟩
      · rw [setNextBorder_getLast?_id]
        simp [TableBorder.fresh]
      · trivial
      · first | trivial | omega
  · have hf : s.createOk s.nextId = false := by simpa using hok
    simp only [pushVerticalBorder, createBorder_fail s hf]
    refine ⟨h.mono (by omega), hp, ?_, ?_⟩
    · trivial
    · first | trivial | omega

theorem pushHorizontalBorder_chain (ps : Option Nat × TableGroupItem)
    (h : CreationChain ps.2.horizontalBorders ps.2.nextId)
    (hp : ps.1 = (ps.2.horizontalBorders.getLast?).map (fun b => b.id)) :
    CreationChain (pushHorizontalBorder ps).2.horizontalBorders
      (pushHorizontalBorder ps).2.nextId ∧
    (pushHorizontalBorder ps).1
      = ((pushHorizontalBorder ps).2.horizontalBorders.getLast?).map (fun b => b.id) ∧
    (pushHorizontalBorder ps).2.verticalBorders = ps.2.verticalBorders ∧
    ps.2.nextId ≤ (pushHorizontalBorder ps).2.nextId := by
  obtain ⟨p, s⟩ := ps
  simp only at h hp
  by_cases hok : s.createOk s.nextId = true
  · cases hlast : s.horizontalBorders.getLast? with
    | none =>
      rw [hlast] at hp
      simp only [Option.map_none'] at hp
      subst hp
      have hnil : s.horizontalBorders = [] := List.getLast?_eq_none_iff.1 hlast
      simp only [pushHorizontalBorder, createBorder_ok s hok, hnil, List.nil_append]
      refine ⟨CreationChain.single _ _ rfl rfl, ?_, ?_, ?_⟩ <;>
        first | trivial | rfl | omega
    | some pb =>
      rw [hlast] at hp
      simp only [Option.map_some'] at hp
      subst hp
      simp only [pushHorizontalBorder, createBorder_ok s hok]
      refine ⟨CreationChain.push h (le_refl _) hlast rfl rfl, ?_, ?_, ?_⟩
      · rw [setNextBorder_getLast?_id]
        simp [TableBorder.fresh]
      · trivial
      · first | trivial | omega
  · have hf : s.createOk s.nextId = false := by simpa using hok
    simp only [pushHorizontalBorder, createBorder_fail s hf]
    refine ⟨h.mono (by omega), hp, ?_, ?_⟩
    · trivial
    · first | trivial | omega

theorem pushVerticalBorders_chain (n : Nat) : ∀ ps : Option Nat × TableGroupItem,
    CreationChain ps.2.verticalBorders ps.2.nextId →
    ps.1 = (ps.2.verticalBorders.getLast?).map (fun b => b.id) →
    CreationChain (loopTimes pushVerticalBorder n ps).2.verticalBorders
      (loopTimes pushVerticalBorder n ps).2.nextId ∧
    (loopTimes pushVerticalBorder n ps).2.horizontalBorders = ps.2.horizontalBorders ∧
    ps.2.nextId ≤ (loopTimes pushVerticalBorder n ps).2.nextId := by
  induction n with
  | zero => intro ps h _; exact ⟨h, rfl, le_refl _⟩
  | succ n ih =>
    intro ps h hp
    obtain ⟨a1, a2, a3, a4⟩ := pushVerticalBorder_chain ps h hp
    obtain ⟨b1, b2, b3⟩ := ih (pushVerticalBorder ps) a1 a2
    exact ⟨b1, b2.trans a3, le_trans a4 b3⟩

theorem pushHorizontalBorders_chain (n : Nat) : ∀ ps : Option Nat × TableGroupItem,
    CreationChain ps.2.horizontalBorders ps.2.nextId →
    ps.1 = (ps.2.horizontalBorders.getLast?).map (fun b => b.id) →
    CreationChain (loopTimes pushHorizontalBorder n ps).2.horizontalBorders
      (loopTimes pushHorizontalBorder n ps).2.nextId ∧
    (loopTimes pushHorizontalBorder n ps).2.verticalBorders = ps.2.verticalBorders ∧
    ps.2.nextId ≤ (loopTimes pushHorizontalBorder n ps).2.nextId := by
  induction n with
  | zero => intro ps h _; exact ⟨h, rfl, le_refl _⟩
  | succ n ih =>
    intro ps h hp
    obtain ⟨a1, a2, a3, a4⟩ := pushHorizontalBorder_chain ps h hp
    obtain ⟨b1, b2, b3⟩ := ih (pushHorizontalBorder ps) a1 a2
    exact ⟨b1, b2.trans a3, le_trans a4 b3⟩

/-- From a state without borders, `initializeBorders` builds two chains, whatever the
factory delivers. -/
theorem initializeBorders_chain (v h : Int) (s : TableGroupItem)
    (hv : s.verticalBorders = []) (hh : s.horizontalBorders = []) :
    CreationChain (initializeBorders v h s).verticalBorders (initializeBorders v h s).nextId ∧
    CreationChain (initializeBorders v h s).horizontalBorders
      (initializeBorders v h s).nextId := by
  unfold initializeBorders
  split
  · rw [hv, hh]; exact ⟨CreationChain.nil _, CreationChain.nil _⟩
  · have hs1 : ∀ s1 : TableGroupItem,
        s1 = (if v ≠ (s.verticalBorders.length : Int) then
          (loopTimes pushVerticalBorder v.toNat (none, s)).2 else s) →
        CreationChain s1.verticalBorders s1.nextId ∧ s1.horizontalBorders = [] := by
      intro s1 e
      split at e
      · obtain ⟨a1, a2, -⟩ := pushVerticalBorders_chain v.toNat (none, s)
          (by rw [hv]; exact CreationChain.nil _) (by rw [hv]; rfl)
        rw [e]; exact ⟨a1, a2.trans hh⟩
      · rw [e, hv]; exact ⟨CreationChain.nil _, hh⟩
    simp only []
    generalize (if v ≠ (s.verticalBorders.length : Int) then
          (loopTimes pushVerticalBorder v.toNat (none, s)).2 else s) = s1 at hs1
    obtain ⟨c1, c2⟩ := hs1 s1 rfl
    split
    · obtain ⟨a1, a2, a3⟩ := pushHorizontalBorders_chain h.toNat (none, s1)
        (by rw [c2]; exact CreationChain.nil _) (by rw [c2]; rfl)
      exact ⟨by rw [a2]; exact c1.mono a3, a1⟩
    · exact ⟨c1, by rw [c2]; exact CreationChain.nil _⟩

theorem pushNewCells_borders (n : Nat) : ∀ s : TableGroupItem,
    (pushNewCells n s).verticalBorders = s.verticalBorders ∧
    (pushNewCells n s).horizontalBorders = s.horizontalBorders := by
  induction n with
  | zero => intro s; exact ⟨rfl, rfl⟩
  | succ n ih =>
    intro s
    obtain ⟨a1, a2⟩ := ih (pushNewCell s)
    obtain ⟨-, -, c3, c4, -⟩ := createCell_any s
    have e : (pushNewCell s).verticalBorders = s.verticalBorders ∧
        (pushNewCell s).horizontalBorders = s.horizontalBorders := by
      unfold pushNewCell
      rcases hq : createCell s with ⟨cell, s1⟩
      rw [hq] at c3 c4
      cases cell with
      | none => exact ⟨c3, c4⟩
      | some c => exact ⟨c3, c4⟩
    exact ⟨a1.trans e.1, a2.trans e.2⟩

theorem initializeCells_borders (n : Int) (s : TableGroupItem) :
    (initializeCells n s).verticalBorders = s.verticalBorders ∧
    (initializeCells n s).horizontalBorders = s.horizontalBorders := by
  unfold initializeCells
  split
  · exact ⟨rfl, rfl⟩
  · split
    · exact ⟨rfl, rfl⟩
    · split
      · exact ⟨rfl, rfl⟩
      · exact pushNewCells_borders _ _

/-- Past its guards, `initialize` leaves two chains of borders, whatever the factory
delivers. -/
theorem initialize_chain (cols rows : Int) (s : TableGroupItem)
    (hr : 0 < rows) (hc : 0 < cols) (heng : s.hasEngine = true) :
    CreationChain (initializeGrid cols rows s).verticalBorders
      (initializeGrid cols rows s).nextId ∧
    CreationChain (initializeGrid cols rows s).horizontalBorders
      (initializeGrid cols rows s).nextId := by
  have e : initializeGrid cols rows s = initializeCellsLinks
      (initializeBorders (cols - 1) (rows - 1)
        (initializeCells (rows * cols) (clearLayout s))) := by
    unfold initializeGrid
    rw [if_neg (by omega), if_neg (by simp [heng])]
  obtain ⟨b1, b2⟩ := initializeCells_borders (rows * cols) (clearLayout s)
  obtain ⟨c1, c2⟩ := initializeBorders_chain (cols - 1) (rows - 1)
    (initializeCells (rows * cols) (clearLayout s)) (b1.trans rfl) (b2.trans rfl)
  obtain ⟨d1, d2⟩ := initializeCellsLinks_withoutCells
    (initializeBorders (cols - 1) (rows - 1) (initializeCells (rows * cols) (clearLayout s)))
  rw [e, initializeCellsLinks_nextId]
  exact ⟨CreationChain.of_withoutCells d1 c1, CreationChain.of_withoutCells d2 c2⟩

/-- C25: past its guards, and whatever the factory delivers, `initialize` leaves within
each orientation a consistent doubly-linked chain of borders in creation order: the first
border of the sequence has no prev, and for every pair of consecutive borders `(b, b')` of
the sequence the prev of `b'` is `b` and the next of `b` is `b'`.  Past its guards and with
the border delivered, `insertColumn` appends one vertical border whose prev is the former
last border, now at the last but one place and with the new border as its next; a chain
of vertical borders in creation order stays one, and so does a chain of horizontal
borders; symmetrically for `insertRow`. -/
theorem border_chain (blc : BorderLayoutCells) :
    (∀ (cols rows : Int) (s : TableGroupItem),
      0 < rows → 0 < cols → s.hasEngine = true →
      CreationChain (initializeGrid cols rows s).verticalBorders
        (initializeGrid cols rows s).nextId ∧
      CreationChain (initializeGrid cols rows s).horizontalBorders
        (initializeGrid cols rows s).nextId) ∧
    (∀ (s : TableGroupItem) (g : TableGroup) (ct : Container) (pb : TableBorder),
      s.tableGroup = some g → s.container = some ct →
      s.verticalBorders.getLast? = some pb → s.createOk s.nextId = true →
      (insertColumn blc s).verticalBorders.length = s.verticalBorders.length + 1 ∧
      (∃ nb pl : TableBorder,
        (insertColumn blc s).verticalBorders.getLast? = some nb ∧
        (insertColumn blc s).verticalBorders[s.verticalBorders.length - 1]? = some pl ∧
        pl.id = pb.id ∧ nb.id = s.nextId ∧
        nb.prevBorder = some pl.id ∧ pl.nextBorder = some nb.id) ∧
      (CreationChain s.verticalBorders s.nextId →
        CreationChain (insertColumn blc s).verticalBorders (insertColumn blc s).nextId) ∧
      (CreationChain s.horizontalBorders s.nextId →
        CreationChain (insertColumn blc s).horizontalBorders (insertColumn blc s).nextId)) ∧
    (∀ (s : TableGroupItem) (g : TableGroup) (ct : Container) (pb : TableBorder),
      s.tableGroup = some g → s.container = some ct →
      s.horizontalBorders.getLast? = some pb → s.createOk s.nextId = true →
      (insertRow blc s).horizontalBorders.length = s.horizontalBorders.length + 1 ∧
      (∃ nb pl : TableBorder,
        (insertRow blc s).horizontalBorders.getLast? = some nb ∧
        (insertRow blc s).horizontalBorders[s.horizontalBorders.length - 1]? = some pl ∧
        pl.id = pb.id ∧ nb.id = s.nextId ∧
        nb.prevBorder = some pl.id ∧ pl.nextBorder = some nb.id) ∧
      (CreationChain s.horizontalBorders s.nextId →
        CreationChain (insertRow blc s).horizontalBorders (insertRow blc s).nextId) ∧
      (CreationChain s.verticalBorders s.nextId →
        CreationChain (insertRow blc s).verticalBorders (insertRow blc s).nextId)) := by
  refine ⟨fun cols rows s hr hc heng => initialize_chain cols rows s hr hc heng, ?_, ?_⟩
  · intro s g ct pb hg hct hpb hok
    obtain ⟨k1, k2, k3⟩ := insertColumn_borders blc s g ct pb hg hct hpb hok
    obtain ⟨hl, nb, hnb, f1, -, f3, -⟩ := last_of_pushed _ _ _ _ _ k1
    have hlast : s.verticalBorders[s.verticalBorders.length - 1]? = some pb := by
      rw [← hpb, List.getLast?_eq_getElem?]
    obtain ⟨pl, hpl, e1, -, -, e4, -⟩ := prefix_of_pushed _ _ _ _ _ k1 _ pb hlast
    rw [if_pos rfl] at e4
    refine ⟨hl, ⟨nb, pl, hnb, hpl, e1, f1, ?_, ?_⟩, ?_, ?_⟩
    · rw [f3, e1]; rfl
    · rw [e4, f1]; rfl
    · intro h
      rw [k3]
      exact (CreationChain.of_withoutCells k1
        (CreationChain.push h (le_refl _) hpb rfl rfl)).mono (by omega)
    · intro h
      rw [k3]
      exact (CreationChain.of_withoutCells k2 h).mono (by omega)
  · intro s g ct pb hg hct hpb hok
    obtain ⟨k1, k2, k3⟩ := insertRow_borders blc s g ct pb hg hct hpb hok
    obtain ⟨hl, nb, hnb, f1, -, f3, -⟩ := last_of_pushed _ _ _ _ _ k1
    have hlast : s.horizontalBorders[s.horizontalBorders.length - 1]? = some pb := by
      rw [← hpb, List.getLast?_eq_getElem?]
    obtain ⟨pl, hpl, e1, -, -, e4, -⟩ := prefix_of_pushed _ _ _ _ _ k1 _ pb hlast
    rw [if_pos rfl] at e4
    refine ⟨hl, ⟨nb, pl, hnb, hpl, e1, f1, ?_, ?_⟩, ?_, ?_⟩
    · rw [f3, e1]; rfl
    · rw [e4, f1]; rfl
    · intro h
      rw [k3]
      exact (CreationChain.of_withoutCells k1
        (CreationChain.push h (le_refl _) hpb rfl rfl)).mono (by omega)
    · intro h
      rw [k3]
      exact (CreationChain.of_withoutCells k2 h).mono (by omega)

theorem border_chain_witness :
    (0 : Int) < 3 ∧ (blankItem 3 3).hasEngine = true ∧
    (initializeGrid 3 3 (blankItem 3 3)).verticalBorders.length = 2 ∧
    Chained (initializeGrid 3 3 (blankItem 3 3)).verticalBorders ∧
    Chained (initializeGrid 3 3 (blankItem 3 3)).horizontalBorders :=
  ⟨by decide, rfl, by decide,
    ((border_chain keepCells).1 3 3 (blankItem 3 3) (by decide) (by decide) rfl).1.1,
    ((border_chain keepCells).1 3 3 (blankItem 3 3) (by decide) (by decide) rfl).2.1⟩

/-! ## The modelled cell layout on a laid out grid -/

theorem grid2x2_cellObj : grid2x2.cellObj = fun _ => TableCell.fresh := by
  have e : grid2x2.cellObj = Function.update (Function.update (Function.update
      (Function.update (fun _ => TableCell.fresh) 0 TableCell.fresh) 1 TableCell.fresh)
      2 TableCell.fresh) 3 TableCell.fresh := rfl
  rw [e]
  funext c
  simp only [Function.update, eq_rec_constant, dite_eq_ite]
  split_ifs <;> rfl

/-- The cell layout modelled from the specification on the 2 x 2 grid with its two
borders, 3 thick, in the middle of the 128 x 128 container (padding 0): the resize pass
leaves four cells of 62.5 x 62.5, between the edges of the container and the borders. -/
theorem layoutTable_model_2x2 :
    (layoutTable borderLayoutCells midGrid2x2).cellObj 0
      = { x := 0, y := 0, width := 125 / 2, height := 125 / 2, item := none } ∧
    (layoutTable borderLayoutCells midGrid2x2).cellObj 1
      = { x := 131 / 2, y := 0, width := 125 / 2, height := 125 / 2, item := none } ∧
    (layoutTable borderLayoutCells midGrid2x2).cellObj 2
      = { x := 0, y := 131 / 2, width := 125 / 2, height := 125 / 2, item := none } ∧
    (layoutTable borderLayoutCells midGrid2x2).cellObj 3
      = { x := 131 / 2, y := 131 / 2, width := 125 / 2, height := 125 / 2, item := none } := by
  have e := layoutTable_model midGrid2x2 { width := 128, height := 128 } rfl rfl
    (by norm_num) (by norm_num)
  have hc : midGrid2x2.container = some { width := 128, height := 128 } := rfl
  have hg : midGrid2x2.tableGroup
      = some { rows := 2, cols := 2, cellSpacing := 0, tablePadding := 0 } := rfl
  have ho : midGrid2x2.cellObj = fun _ => TableCell.fresh := grid2x2_cellObj
  have hv : midGrid2x2.verticalBorders = [midVertical] := rfl
  have hh : midGrid2x2.horizontalBorders = [midHorizontal] := rfl
  rw [e]
  simp only [cellPass, projectBorders, outerBounds, hc, hg, ho, hv, hh]
  simp [borderCellsPass, midVertical, midHorizontal, TableBorder.fresh, forEachCell,
    TableCell.setLeft, TableCell.setRight, TableCell.setTop, TableCell.setBottom,
    TableCell.fresh, Function.update]
  norm_num

/-! ## The shape invariant and the accesses of `insertColumn` -/

/-- Outside the in-range hypothesis: `insertColumn` on the 4 x 2 grid built by
`initialize(2, 4)`, a grid with the
shape invariant (eight cells, one vertical border, three horizontal borders), a container
and a factory that delivers every object.  The copy loop runs its inner counter up to
`oldRows = 4`: its accesses, as pairs (index written in `newCells`, index read in
`_cells`), end with `(11, 8)` and `(12, 9)`, that is two reads beyond the eight cells of
`_cells` and a write beyond the twelve entries of `newCells`, before `_cells` and the
column count are written.  The accesses are not all in range; in the embedding the values
read out of range are `w 8` and `w 9`, and the write at index 12 is dropped. -/
theorem insertColumn_overrun :
    HasShape grid4x2 { rows := 4, cols := 2, cellSpacing := 0, tablePadding := 0 } ∧
    grid4x2.container = some { width := 128, height := 128 } ∧
    grid4x2.verticalBorders.length = 1 ∧
    (∀ n, grid4x2.createOk n = true) ∧
    grid4x2.cells
      = [some 0, some 1, some 2, some 3, some 4, some 5, some 6, some 7] ∧
    copyAccesses 4 2 (2 + 1)
      = [(0, 0), (1, 1), (2, 2), (3, 3), (3, 2), (4, 3), (5, 4), (6, 5),
         (6, 4), (7, 5), (8, 6), (9, 7), (9, 6), (10, 7), (11, 8), (12, 9)] ∧
    ¬ InRange 12 (((2 : Int) + 1) * 4).toNat ∧
    ¬ InRange 8 grid4x2.cells.length ∧ ¬ InRange 9 grid4x2.cells.length ∧
    ¬ InsertColumnInRange 4 2 ∧
    ∀ w : Int → Option Nat,
      copyOldCells grid4x2.cells w 4 2 (2 + 1) (List.replicate 12 none)
        = [some 0, some 1, some 2, some 2, some 3, some 4, some 4, some 5, some 6, some 6,
           some 7, w 8] := by
  refine ⟨by unfold HasShape; decide, rfl, by decide, fun _ => rfl, by decide, by decide,
    by decide, by decide, by decide, ?_, ?_⟩
  · intro h
    exact absurd (h.1 (12, 9) (by decide)).1 (by decide)
  · intro w
    have hc : grid4x2.cells
        = [some 0, some 1, some 2, some 3, some 4, some 5, some 6, some 7] := by decide
    have ha : copyAccesses 4 2 (2 + 1)
        = [(0, 0), (1, 1), (2, 2), (3, 3), (3, 2), (4, 3), (5, 4), (6, 5),
           (6, 4), (7, 5), (8, 6), (9, 7), (9, 6), (10, 7), (11, 8), (12, 9)] := by decide
    rw [copyOldCells_eq_accesses, ha, hc]
    simp [vecSet, vecAt, List.replicate]

/-! ## The accesses of `insertColumn` and `insertRow` on a grid with the shape invariant -/

theorem insertColumnBorder_length_le (ct : Container) (pb : TableBorder) (s : TableGroupItem) :
    (insertColumnBorder ct pb s).verticalBorders.length ≤ s.verticalBorders.length + 1 := by
  by_cases h : s.createOk s.nextId = true
  · rw [(insertColumnBorder_spec ct pb s h).2.2.2.1]
  · have h' : s.createOk s.nextId = false := by simpa using h
    rw [(insertColumnBorder_any ct pb s).2.2.2.2 h']
    omega

theorem insertRowBorder_length_le (ct : Container) (pb : TableBorder) (s : TableGroupItem) :
    (insertRowBorder ct pb s).horizontalBorders.length ≤ s.horizontalBorders.length + 1 := by
  by_cases h : s.createOk s.nextId = true
  · rw [(insertRowBorder_spec ct pb s h).2.2.2.1]
  · have h' : s.createOk s.nextId = false := by simpa using h
    rw [(insertRowBorder_any ct pb s).2.2.2.2 h']
    omega

/-- On a grid with the shape invariant every access of `insertRow` is in range (the flat
copy fits in the new array, the new-cell loop writes inside it, the re-link reads inside
it), and so is every access of `insertColumn` when `rows <= cols` (copy loop, new-cell
loop, re-link), whatever the factory delivers. -/
theorem insert_inRange (s : TableGroupItem) (g : TableGroup) (ct : Container) (R C : Nat)
    (hs : HasShape s g) (hr : g.rows = R) (hc : g.cols = C) :
    (∀ pb, R ≤ C →
      InsertColumnInRange g.rows g.cols ∧
      LinksInRange (insertColumnCells g (insertColumnBorder ct pb s))) ∧
    (∀ pb,
      s.cells.length ≤ (g.cols * (g.rows + 1)).toNat ∧
      (∀ c : Nat, c < C →
        InRange (((g.rows + 1 - 1) * g.cols) + (c : Int)) (g.cols * (g.rows + 1)).toNat) ∧
      LinksInRange (insertRowCells g (insertRowBorder ct pb s))) := by
  obtain ⟨hg, hcells, hv, hh⟩ := hs
  have hR1 : 1 ≤ R := by
    have : (1 : Int) ≤ (R : Int) := by rw [← hr]; omega
    exact_mod_cast this
  have hC1 : 1 ≤ C := by
    have : (1 : Int) ≤ (C : Int) := by rw [← hc]; omega
    exact_mod_cast this
  constructor
  · intro pb hRC
    obtain ⟨b1, b2, b3, b4, b5⟩ := insertColumnBorder_any ct pb s
    obtain ⟨c1, c2, c3, c4, c5⟩ := insertColumnCells_any g (insertColumnBorder ct pb s) R C hr hc
    refine ⟨(insertColumn_inRange_iff g.rows g.cols (by omega) (by omega)).2
        (by rw [hr, hc]; exact_mod_cast hRC), ?_⟩
    refine (linksInRange_iff _ { g with cols := g.cols + 1 } c2 (by simp only; omega)
      (by simp only; omega) ?_).2 ⟨?_, ?_⟩
    · rw [c1]; simp only; rw [hr, hc]; push_cast; ring
    · rw [c3]
      have := insertColumnBorder_length_le ct pb s
      simp only
      omega
    · rw [c4, b3]; simp only; exact le_of_eq hh
  · intro pb
    obtain ⟨b1, b2, b3, b4, b5⟩ := insertRowBorder_any ct pb s
    obtain ⟨c1, c2, c3, c4, c5⟩ := insertRowCells_any g (insertRowBorder ct pb s) R C hr hc
    have hN : (g.cols * (g.rows + 1)).toNat = (R + 1) * C := by
      rw [hr, hc]
      have : ((C : Int) * ((R : Int) + 1)) = (((R + 1) * C : Nat) : Int) := by push_cast; ring
      rw [this, Int.toNat_ofNat]
    have hlen : s.cells.length = R * C := by
      have : ((s.cells.length : Nat) : Int) = ((R * C : Nat) : Int) := by
        rw [hcells, hr, hc]; push_cast; ring
      exact_mod_cast this
    refine ⟨?_, ?_, ?_⟩
    · rw [hN, hlen]
      exact Nat.mul_le_mul_right _ (by omega)
    · intro c hcC
      rw [hN, hr, hc]
      have e1 : (((R : Int) + 1 - 1) * (C : Int)) + (c : Int) = ((R * C + c : Nat) : Int) := by
        push_cast; ring
      rw [e1]
      refine ⟨Int.ofNat_nonneg _, ?_⟩
      have : R * C + c < (R + 1) * C := by
        calc R * C + c < R * C + C := by omega
          _ = (R + 1) * C := by ring
      exact_mod_cast this
    · refine (linksInRange_iff _ { g with rows := g.rows + 1 } c2 (by simp only; omega)
        (by simp only; omega) ?_).2 ⟨?_, ?_⟩
      · rw [c1]; simp only; rw [hr, hc]; push_cast; ring
      · rw [c3, b3]; simp only; exact le_of_eq hv
      · rw [c4]
        have := insertRowBorder_length_le ct pb s
        simp only
        omega

/-! ## Preservation of the shape invariant -/

/-- C6: the shape invariant is preserved by every successful `insertColumn` and
`insertRow`, a successful call being one that gets past its guards, is delivered its border
and its cells, and makes every access inside the array it indexes.  On a grid with the
shape invariant the accesses of `insertRow` and of the re-link are always in range, and
those of the loops of `insertColumn` are the hypothesis `InsertColumnInRange` (they are in
range exactly when `rows <= cols`, see `insertColumn_inRange_iff`).  `insertColumn` writes
back `cols + 1` and leaves `rows` unchanged, adds one vertical border and `rows` cells;
`insertRow` writes back `rows + 1` and leaves `cols` unchanged, adds one horizontal border
and `cols` cells. -/
theorem insert_preserves_shape (blc : BorderLayoutCells) (s : TableGroupItem)
    (g : TableGroup) (ct : Container) (hs : HasShape s g)
    (hct : s.container = some ct) (hok : FactoryOk s) :
    (s.verticalBorders ≠ [] → InsertColumnInRange g.rows g.cols →
      HasShape (insertColumn blc s) { g with cols := g.cols + 1 } ∧
      (insertColumn blc s).verticalBorders.length = s.verticalBorders.length + 1 ∧
      (insertColumn blc s).horizontalBorders.length = s.horizontalBorders.length ∧
      ((insertColumn blc s).cells.length : Int) = s.cells.length + g.rows ∧
      (∀ pb, LinksInRange (insertColumnCells g (insertColumnBorder ct pb s)))) ∧
    (s.horizontalBorders ≠ [] →
      HasShape (insertRow blc s) { g with rows := g.rows + 1 } ∧
      (insertRow blc s).horizontalBorders.length = s.horizontalBorders.length + 1 ∧
      (insertRow blc s).verticalBorders.length = s.verticalBorders.length ∧
      ((insertRow blc s).cells.length : Int) = s.cells.length + g.cols ∧
      s.cells.length ≤ (g.cols * (g.rows + 1)).toNat ∧
      (∀ c : Nat, c < g.cols.toNat →
        InRange (((g.rows + 1 - 1) * g.cols) + (c : Int)) (g.cols * (g.rows + 1)).toNat) ∧
      (∀ pb, LinksInRange (insertRowCells g (insertRowBorder ct pb s)))) := by
  have hs0 := hs
  obtain ⟨hg, hcells, hv, hh⟩ := hs
  have h0 := hok s.nextId (le_refl _)
  have hrows : 1 ≤ g.rows := by omega
  have hcols : 1 ≤ g.cols := by omega
  have hrn0 : g.rows = ((g.rows.toNat : Nat) : Int) := (Int.toNat_of_nonneg (by omega)).symm
  have hcn0 : g.cols = ((g.cols.toNat : Nat) : Int) := (Int.toNat_of_nonneg (by omega)).symm
  obtain ⟨inC, inR⟩ := insert_inRange s g ct g.rows.toNat g.cols.toNat hs0 hrn0 hcn0
  constructor
  · intro hne hin
    have hRC : g.rows.toNat ≤ g.cols.toNat := by
      have := (insertColumn_inRange_iff g.rows g.cols hrows hcols).1 hin
      omega
    obtain ⟨pb, hpb⟩ := getLast?_of_ne_nil _ hne
    obtain ⟨b1, b2, b3, b4, b5⟩ := insertColumnBorder_spec ct pb s h0
    have hok2 : FactoryOk (insertColumnBorder ct pb s) := hok.step b5 (by omega)
    obtain ⟨c1, c2, c3, c4, -, -⟩ := insertColumnCells_spec g (insertColumnBorder ct pb s) hok2
    have hnn : 0 ≤ (g.cols + 1) * g.rows := by positivity
    have ecells : ((insertColumn blc s).cells.length : Int) = (g.cols + 1) * g.rows := by
      unfold insertColumn
      simp only [hct, hg, hpb, layoutCells_cells, initializeCellsLinks_cells]
      rw [c1, Int.toNat_of_nonneg hnn]
    have evl : (insertColumn blc s).verticalBorders.length = s.verticalBorders.length + 1 := by
      unfold insertColumn
      simp only [hct, hg, hpb, layoutCells_verticalBorders, initializeCellsLinks_vlength]
      rw [c3, b4]
    have ehl : (insertColumn blc s).horizontalBorders.length = s.horizontalBorders.length := by
      unfold insertColumn
      simp only [hct, hg, hpb, layoutCells_horizontalBorders, initializeCellsLinks_hlength]
      rw [c4, b3]
    have etg : (insertColumn blc s).tableGroup = some { g with cols := g.cols + 1 } := by
      unfold insertColumn
      simp only [hct, hg, hpb, layoutCells_tableGroup, (initializeCellsLinks_sameEnv _).1]
      rw [c2]
    refine ⟨⟨etg, ?_, ?_, ?_⟩, evl, ehl, ?_, fun pb' => (inC pb' hRC).2⟩
    · rw [ecells]; ring
    · rw [evl]; push_cast; omega
    · rw [ehl]; exact hh
    · rw [ecells, hcells]; ring
  · intro hne
    obtain ⟨pb, hpb⟩ := getLast?_of_ne_nil _ hne
    obtain ⟨b1, b2, b3, b4, b5⟩ := insertRowBorder_spec ct pb s h0
    have hok2 : FactoryOk (insertRowBorder ct pb s) := hok.step b5 (by omega)
    have hrn : g.rows = ((g.rows.toNat : Nat) : Int) := (Int.toNat_of_nonneg (by omega)).symm
    have hcn : g.cols = ((g.cols.toNat : Nat) : Int) := (Int.toNat_of_nonneg (by omega)).symm
    have hcl : s.cells.length = g.rows.toNat * g.cols.toNat := by
      have : ((s.cells.length : Nat) : Int) = ((g.rows.toNat * g.cols.toNat : Nat) : Int) := by
        push_cast; rw [← hrn, ← hcn]; exact hcells
      exact_mod_cast this
    obtain ⟨c1, c2, c3, c4, -, -⟩ := insertRowCells_spec g (insertRowBorder ct pb s)
      g.rows.toNat g.cols.toNat hrn hcn hok2 (by rw [b2, hcl])
    have ecells : (insertRow blc s).cells.length = s.cells.length + g.cols.toNat := by
      unfold insertRow
      simp only [hct, hg, hpb, layoutCells_cells, initializeCellsLinks_cells]
      rw [c1, b2]; simp
    have ehl : (insertRow blc s).horizontalBorders.length = s.horizontalBorders.length + 1 := by
      unfold insertRow
      simp only [hct, hg, hpb, layoutCells_horizontalBorders, initializeCellsLinks_hlength]
      rw [c4, b4]
    have evl : (insertRow blc s).verticalBorders.length = s.verticalBorders.length := by
      unfold insertRow
      simp only [hct, hg, hpb, layoutCells_verticalBorders, initializeCellsLinks_vlength]
      rw [c3, b3]
    have etg : (insertRow blc s).tableGroup = some { g with rows := g.rows + 1 } := by
      unfold insertRow
      simp only [hct, hg, hpb, layoutCells_tableGroup, (initializeCellsLinks_sameEnv _).1]
      rw [c2]
    have ecells' : ((insertRow blc s).cells.length : Int) = s.cells.length + g.cols := by
      rw [ecells]; push_cast; rw [← hcn]
    refine ⟨⟨etg, ?_, ?_, ?_⟩, ehl, evl, ecells', (inR pb).1, (inR pb).2.1,
      fun pb' => (inR pb').2.2⟩
    · rw [ecells', hcells]; ring
    · rw [evl]; exact hv
    · rw [ehl]; push_cast; omega

theorem grid2x2_inRange : InsertColumnInRange 2 2 := by
  unfold InsertColumnInRange
  decide

theorem insert_preserves_shape_witness :
    HasShape grid2x2 { rows := 2, cols := 2, cellSpacing := 0, tablePadding := 0 } ∧
    FactoryOk grid2x2 ∧ grid2x2.verticalBorders ≠ [] ∧ grid2x2.horizontalBorders ≠ [] ∧
    InsertColumnInRange 2 2 ∧
    HasShape (insertColumn keepCells grid2x2)
      { rows := 2, cols := 2 + 1, cellSpacing := 0, tablePadding := 0 } ∧
    HasShape (insertRow keepCells grid2x2)
      { rows := 2 + 1, cols := 2, cellSpacing := 0, tablePadding := 0 } :=
  ⟨grid2x2_hasShape, grid2x2_factoryOk, by decide, by decide, grid2x2_inRange,
    ((insert_preserves_shape keepCells grid2x2
      { rows := 2, cols := 2, cellSpacing := 0, tablePadding := 0 }
      { width := 128, height := 128 } grid2x2_hasShape rfl grid2x2_factoryOk).1
      (by decide) grid2x2_inRange).1,
    ((insert_preserves_shape keepCells grid2x2
      { rows := 2, cols := 2, cellSpacing := 0, tablePadding := 0 }
      { width := 128, height := 128 } grid2x2_hasShape rfl grid2x2_factoryOk).2
      (by decide)).1⟩

/-! ## Factory failures during `insertColumn` and `insertRow` -/

/-- C19 (amended): on a grid with the shape invariant, and for `insertColumn` with
`rows <= cols`, every access of the two operations is in range (the copy loop and the
new-cell loop of `insertColumn`, the flat copy and the new-cell loop of `insertRow`, the
reads of the re-link), and when the factory fails to deliver the new border or a new cell
they still run to their end and change the state.  Past the guards, whatever the factory
delivers, the cell sequence is rebuilt with `rows*(cols+1)` (resp. `(rows+1)*cols`) entries
and `cols+1` (resp. `rows+1`) is written back; when the border is not delivered, both
border sequences hold the same borders as before the call; a cell that is not delivered
leaves a null entry in its slot of the new cell sequence. -/
theorem insert_factory_failure (blc : BorderLayoutCells) (s : TableGroupItem)
    (g : TableGroup) (ct : Container) (R C : Nat)
    (hs : HasShape s g) (hct : s.container = some ct)
    (hr : g.rows = R) (hc : g.cols = C) :
    (∀ pb, s.verticalBorders.getLast? = some pb → R ≤ C →
      (InsertColumnInRange g.rows g.cols ∧
        LinksInRange (insertColumnCells g (insertColumnBorder ct pb s))) ∧
      (insertColumn blc s).tableGroup = some { g with cols := g.cols + 1 } ∧
      (insertColumn blc s).cells.length = R * (C + 1) ∧
      (insertColumn blc s).horizontalBorders.map (fun b => b.id)
        = s.horizontalBorders.map (fun b => b.id) ∧
      (s.createOk s.nextId = false →
        (insertColumn blc s).verticalBorders.map (fun b => b.id)
          = s.verticalBorders.map (fun b => b.id)) ∧
      (∀ r, r < R → s.createOk (s.nextId + 1 + r) = false →
        (insertColumn blc s).cells[r * (C + 1) + C]? = some none)) ∧
    (∀ pb, s.horizontalBorders.getLast? = some pb →
      (s.cells.length ≤ (g.cols * (g.rows + 1)).toNat ∧
        (∀ c : Nat, c < C →
          InRange (((g.rows + 1 - 1) * g.cols) + (c : Int)) (g.cols * (g.rows + 1)).toNat) ∧
        LinksInRange (insertRowCells g (insertRowBorder ct pb s))) ∧
      (insertRow blc s).tableGroup = some { g with rows := g.rows + 1 } ∧
      (insertRow blc s).cells.length = (R + 1) * C ∧
      (insertRow blc s).verticalBorders.map (fun b => b.id)
        = s.verticalBorders.map (fun b => b.id) ∧
      (s.createOk s.nextId = false →
        (insertRow blc s).horizontalBorders.map (fun b => b.id)
          = s.horizontalBorders.map (fun b => b.id)) ∧
      (∀ c, c < C → s.createOk (s.nextId + 1 + c) = false →
        (insertRow blc s).cells[R * C + c]? = some none)) := by
  obtain ⟨inC, inR⟩ := insert_inRange s g ct R C hs hr hc
  obtain ⟨hg, -, -, -⟩ := hs
  constructor
  · intro pb hpb hRC
    obtain ⟨b1, b2, b3, b4, b5⟩ := insertColumnBorder_any ct pb s
    obtain ⟨c1, c2, c3, c4, c5⟩ := insertColumnCells_any g (insertColumnBorder ct pb s) R C hr hc
    have e : insertColumn blc s = layoutCells blc (initializeCellsLinks
        (insertColumnCells g (insertColumnBorder ct pb s))) := by
      simp [insertColumn, hct, hg, hpb]
    rw [e]
    simp only [layoutCells_tableGroup, layoutCells_cells, layoutCells_horizontalBorders,
      layoutCells_verticalBorders, initializeCellsLinks_cells,
      (initializeCellsLinks_sameEnv _).1, (initializeCellsLinks_ids _).1,
      (initializeCellsLinks_ids _).2]
    refine ⟨inC pb hRC, c2, c1, by rw [c4, b3], ?_, ?_⟩
    · intro hfail
      rw [c3, b5 hfail]
    · intro r hrR hfail
      rw [c5 r hrR, b1, b4.2.2.2.2.2.1, hfail]
      simp
  · intro pb hpb
    obtain ⟨b1, b2, b3, b4, b5⟩ := insertRowBorder_any ct pb s
    obtain ⟨c1, c2, c3, c4, c5⟩ := insertRowCells_any g (insertRowBorder ct pb s) R C hr hc
    have e : insertRow blc s = layoutCells blc (initializeCellsLinks
        (insertRowCells g (insertRowBorder ct pb s))) := by
      simp [insertRow, hct, hg, hpb]
    rw [e]
    simp only [layoutCells_tableGroup, layoutCells_cells, layoutCells_horizontalBorders,
      layoutCells_verticalBorders, initializeCellsLinks_cells,
      (initializeCellsLinks_sameEnv _).1, (initializeCellsLinks_ids _).1,
      (initializeCellsLinks_ids _).2]
    refine ⟨inR pb, c2, c1, by rw [c3, b3], ?_, ?_⟩
    · intro hfail
      rw [c4, b5 hfail]
    · intro c hcC hfail
      rw [c5 c hcC, b1, b4.2.2.2.2.2.1, hfail]
      simp

/-- C19 (counterexample): on the 2 x 2 grid, with a factory that delivers nothing,
`insertColumn` writes back 3 columns and leaves the cell sequence
`[0, 1, nullptr, 2, 3, nullptr]`, and `insertRow` writes back 3 rows and leaves
`[0, 1, 2, 3, nullptr, nullptr]`: neither returns without mutating state. -/
theorem insert_factory_failure_counterexample :
    starvedGrid2x2.cells = [some 0, some 1, some 2, some 3] ∧
    starvedGrid2x2.tableGroup.map (fun g => (g.rows, g.cols)) = some (2, 2) ∧
    (insertColumn keepCells starvedGrid2x2).tableGroup.map (fun g => (g.rows, g.cols))
      = some (2, 3) ∧
    (insertColumn keepCells starvedGrid2x2).cells
      = [some 0, some 1, none, some 2, some 3, none] ∧
    (insertRow keepCells starvedGrid2x2).tableGroup.map (fun g => (g.rows, g.cols))
      = some (3, 2) ∧
    (insertRow keepCells starvedGrid2x2).cells
      = [some 0, some 1, some 2, some 3, none, none] := by
  decide

theorem starvedGrid2x2_hasShape :
    HasShape starvedGrid2x2 { rows := 2, cols := 2, cellSpacing := 0, tablePadding := 0 } :=
  ⟨rfl, by decide, by decide, by decide⟩

theorem insert_factory_failure_witness :
    HasShape starvedGrid2x2 { rows := 2, cols := 2, cellSpacing := 0, tablePadding := 0 } ∧
    starvedGrid2x2.createOk starvedGrid2x2.nextId = false ∧
    InsertColumnInRange 2 2 ∧
    (insertColumn keepCells starvedGrid2x2).cells.length = 2 * (2 + 1) ∧
    (insertColumn keepCells starvedGrid2x2).verticalBorders.map (fun b => b.id)
      = starvedGrid2x2.verticalBorders.map (fun b => b.id) ∧
    (insertRow keepCells starvedGrid2x2).cells.length = (2 + 1) * 2 ∧
    (insertRow keepCells starvedGrid2x2).horizontalBorders.map (fun b => b.id)
      = starvedGrid2x2.horizontalBorders.map (fun b => b.id) :=
  ⟨starvedGrid2x2_hasShape, rfl,
    ((insert_factory_failure keepCells starvedGrid2x2
      { rows := 2, cols := 2, cellSpacing := 0, tablePadding := 0 }
      { width := 128, height := 128 } 2 2 starvedGrid2x2_hasShape rfl rfl rfl).1
      (starvedGrid2x2.verticalBorders.getLast (by decide))
      (List.getLast?_eq_getLast _ _) (le_refl _)).1.1,
    ((insert_factory_failure keepCells starvedGrid2x2
      { rows := 2, cols := 2, cellSpacing := 0, tablePadding := 0 }
      { width := 128, height := 128 } 2 2 starvedGrid2x2_hasShape rfl rfl rfl).1
      (starvedGrid2x2.verticalBorders.getLast (by decide))
      (List.getLast?_eq_getLast _ _) (le_refl _)).2.2.1,
    ((insert_factory_failure keepCells starvedGrid2x2
      { rows := 2, cols := 2, cellSpacing := 0, tablePadding := 0 }
      { width := 128, height := 128 } 2 2 starvedGrid2x2_hasShape rfl rfl rfl).1
      (starvedGrid2x2.verticalBorders.getLast (by decide))
      (List.getLast?_eq_getLast _ _) (le_refl _)).2.2.2.2.1 rfl,
    ((insert_factory_failure keepCells starvedGrid2x2
      { rows := 2, cols := 2, cellSpacing := 0, tablePadding := 0 }
      { width := 128, height := 128 } 2 2 starvedGrid2x2_hasShape rfl rfl rfl).2
      (starvedGrid2x2.horizontalBorders.getLast (by decide))
      (List.getLast?_eq_getLast _ _)).2.2.1,
    ((insert_factory_failure keepCells starvedGrid2x2
      { rows := 2, cols := 2, cellSpacing := 0, tablePadding := 0 }
      { width := 128, height := 128 } 2 2 starvedGrid2x2_hasShape rfl rfl rfl).2
      (starvedGrid2x2.horizontalBorders.getLast (by decide))
      (List.getLast?_eq_getLast _ _)).2.2.2.2.1 rfl⟩

end qan
